import Mathlib

/-!
# Tesson: group lifecycle manager (`lib/docker.go`) and the `run` command (`main.go`)

A shallow embedding of the Docker-backed lifecycle manager.  The container
runtime, the file system, the JSON decoder and the port-specification parser
are external collaborators: they are parameters of the embedding.  Every
interaction with them is recorded, with its reply, in a log, so that
statements about "the calls issued" are statements about that log.
-/

set_option autoImplicit false

namespace tesson

/-! ## Errors and results -/

/-- Go `error` values.  `New` is an error created by `errors.New` in this
package; `external` is an error produced by a collaborator. -/
inductive Error where
  | New (msg : String)
  | external (msg : String)
  deriving DecidableEq, Repr

/-- `errGroupDoesNotExist = errors.New("the specified group does not exist")` -/
def errGroupDoesNotExist : Error := Error.New "the specified group does not exist"

/-- A `(value, error)` pair returned by a collaborator. -/
inductive Reply (α : Type) where
  | ok (a : α)
  | fail (e : Error)
  deriving DecidableEq, Repr

/-- What a method of this package does: return a value with a nil error,
return a non-nil error, or die in a run-time panic. -/
inductive Outcome (α : Type) where
  | ok (a : α)
  | err (e : Error)
  | crash
  deriving DecidableEq, Repr

/-! ## Data model -/

/-- A Go `map[string]string`, as an association list (first binding wins). -/
abbrev Labels := List (String × String)

/-- `m[k] = v` on a `map[string]string`. -/
def Labels.set (m : Labels) (k v : String) : Labels :=
  if (List.lookup k m).isSome then
    m.map (fun p => if p.1 = k then (p.1, v) else p)
  else
    m ++ [(k, v)]

/-- `types.Container`: one entry of the runtime's listing. -/
structure Container where
  ID : String
  Names : List String
  Image : String
  Status : String
  Labels : Labels
  deriving DecidableEq, Repr

/-- `nat.PortMap`, kept abstract. -/
abbrev PortMap := List (String × String)

/-- `nat.PortSet`, kept abstract. -/
abbrev PortSet := List String

/-- `container.Config`: the fields this package touches, and everything else
a configuration file may set.  `Labels = none` is the nil map. -/
structure Config where
  Image : String
  Labels : Option Labels
  Rest : List (String × String)
  deriving DecidableEq, Repr

/-- `container.HostConfig`: the fields this package sets. -/
structure HostConfig where
  CpusetCpus : String
  PortBindings : PortMap
  deriving DecidableEq, Repr

/-- `types.ContainerState`: the field this package reads. -/
structure ContainerState where
  Running : Bool
  deriving DecidableEq, Repr

/-- `types.ContainerJSON`: the fields this package reads. -/
structure ContainerJSON where
  ID : String
  State : ContainerState
  deriving DecidableEq, Repr

/-- `ExecOptions` specifies options for Exec. -/
structure ExecOptions where
  Image : String
  Layout : List String
  Ports : List String
  Config : String
  deriving DecidableEq, Repr

/-- `StopOptions` specifies options for Stop. -/
structure StopOptions where
  Purge : Bool
  deriving DecidableEq, Repr

/-- `Shard` represents runtime group member status. -/
structure Shard where
  Name : String
  ID : String
  Status : String
  CPUs : String
  deriving DecidableEq, Repr

/-- `Group` represents runtime group status. -/
structure Group where
  Name : String
  Image : String
  Shards : List Shard
  deriving DecidableEq, Repr

/-! ## Collaborators and the interaction log -/

/-- One interaction with a collaborator, with the reply it got. -/
inductive Event where
  | Open (path : String) (r : Reply String)
  | Decode (file : String) (r : Reply Config)
  | ParsePortSpecs (ports : List String) (r : Reply (PortSet × PortMap))
  | ContainerList (all : Bool) (r : Reply (List Container))
  | ContainerCreate (c : Config) (h : HostConfig) (r : Reply String)
  | ContainerStart (id : String) (r : Option Error)
  | ContainerInspect (id : String) (r : Reply ContainerJSON)
  | ContainerStop (id : String) (timeout : Nat) (r : Option Error)
  | ContainerRemove (id : String) (removeVolumes : Bool) (r : Option Error)
  deriving DecidableEq, Repr

/-- The engine API client (`*client.Client`) over a runtime with states `σ`:
each call answers and moves the runtime to a new state. -/
structure Client (σ : Type) where
  ContainerList : Bool → σ → Reply (List Container) × σ
  ContainerCreate : Config → HostConfig → σ → Reply String × σ
  ContainerStart : String → σ → Option Error × σ
  ContainerInspect : String → σ → Reply ContainerJSON × σ
  ContainerStop : String → Nat → σ → Option Error × σ
  ContainerRemove : String → Bool → σ → Option Error × σ

/-- The process environment of `Exec`: `os.Open`, `json.Decoder.Decode` into a
configuration, and `nat.ParsePortSpecs`. -/
structure Env where
  Open : String → Reply String
  Decode : String → Config → Reply Config
  ParsePortSpecs : List String → Reply (PortSet × PortMap)

/-- The runtime state together with the log of interactions so far. -/
structure World (σ : Type) where
  st : σ
  log : List Event
  deriving DecidableEq, Repr

/-- The `docker` receiver: the client, the process environment, and the order
in which `range` walks a map (Go leaves it unspecified: any permutation). -/
structure docker (σ : Type) where
  client : Client σ
  env : Env
  range : List (String × Group) → List (String × Group)
  range_perm : ∀ m, (range m).Perm m

variable {σ : Type}

/-! ## The client calls, logged -/

/-- `d.client.ContainerList(d.ctx, types.ContainerListOptions{All: all})` -/
def docker.ContainerList (d : docker σ) (all : Bool) (w : World σ) :
    Reply (List Container) × World σ :=
  ((d.client.ContainerList all w.st).1,
    ⟨(d.client.ContainerList all w.st).2,
     w.log ++ [Event.ContainerList all (d.client.ContainerList all w.st).1]⟩)

/-- `d.client.ContainerCreate(d.ctx, c, h, nil, "")`, answering the new ID. -/
def docker.ContainerCreate (d : docker σ) (c : Config) (h : HostConfig) (w : World σ) :
    Reply String × World σ :=
  ((d.client.ContainerCreate c h w.st).1,
    ⟨(d.client.ContainerCreate c h w.st).2,
     w.log ++ [Event.ContainerCreate c h (d.client.ContainerCreate c h w.st).1]⟩)

/-- `d.client.ContainerStart(d.ctx, id, types.ContainerStartOptions{})` -/
def docker.ContainerStart (d : docker σ) (id : String) (w : World σ) :
    Option Error × World σ :=
  ((d.client.ContainerStart id w.st).1,
    ⟨(d.client.ContainerStart id w.st).2,
     w.log ++ [Event.ContainerStart id (d.client.ContainerStart id w.st).1]⟩)

/-- `d.client.ContainerInspect(d.ctx, id)` -/
def docker.ContainerInspect (d : docker σ) (id : String) (w : World σ) :
    Reply ContainerJSON × World σ :=
  ((d.client.ContainerInspect id w.st).1,
    ⟨(d.client.ContainerInspect id w.st).2,
     w.log ++ [Event.ContainerInspect id (d.client.ContainerInspect id w.st).1]⟩)

/-- `d.client.ContainerStop(d.ctx, id, timeout)` -/
def docker.ContainerStop (d : docker σ) (id : String) (timeout : Nat) (w : World σ) :
    Option Error × World σ :=
  ((d.client.ContainerStop id timeout w.st).1,
    ⟨(d.client.ContainerStop id timeout w.st).2,
     w.log ++ [Event.ContainerStop id timeout (d.client.ContainerStop id timeout w.st).1]⟩)

/-- `d.client.ContainerRemove(d.ctx, id, types.ContainerRemoveOptions{RemoveVolumes: rv})` -/
def docker.ContainerRemove (d : docker σ) (id : String) (rv : Bool) (w : World σ) :
    Option Error × World σ :=
  ((d.client.ContainerRemove id rv w.st).1,
    ⟨(d.client.ContainerRemove id rv w.st).2,
     w.log ++ [Event.ContainerRemove id rv (d.client.ContainerRemove id rv w.st).1]⟩)

/-- Appends one event to the log of a world. -/
def World.record (w : World σ) (e : Event) : World σ := ⟨w.st, w.log ++ [e]⟩

/-! ## `lib/docker.go` -/

/-- `func (d *docker) exec(c *container.Config, h *container.HostConfig) error`:
create the unit, then start the unit just created. (`log.Infof` is not modelled.) -/
def docker.exec (d : docker σ) (c : Config) (h : HostConfig) (w : World σ) :
    Option Error × World σ :=
  match d.ContainerCreate c h w with
  | (Reply.fail err, w1) => (some err, w1)
  | (Reply.ok rID, w1) =>
    match d.ContainerStart rID w1 with
    | (some err, w2) => (some err, w2)
    | (none, w2) => (none, w2)

/-- `func (d *docker) stop(id string, opts StopOptions) error` -/
def docker.stop (d : docker σ) (id : String) (opts : StopOptions) (w : World σ) :
    Option Error × World σ :=
  match d.ContainerInspect id w with
  | (Reply.fail err, w1) => (some err, w1)
  | (Reply.ok r, w1) =>
    match (if r.State.Running then d.ContainerStop r.ID 30 w1 else (none, w1)) with
    | (some err, w2) => (some err, w2)
    | (none, w2) =>
      if !opts.Purge then (none, w2)
      else d.ContainerRemove r.ID true w2

/-- The loop `for _, shard := range opts.Layout` of `Exec`.  The configuration
`c` is shared by the turns; `labels` is its label map `c.Labels`, in which
`c.Labels["tesson.shard"] = shard` overwrites the shard label at every turn
before `d.exec(&c, ...)` reads it. -/
def docker.execLayout (d : docker σ) (pm : PortMap) :
    List String → Config → Labels → World σ → Outcome Unit × World σ
  | [], _, _, w => (Outcome.ok (), w)
  | shard :: rest, c, labels, w =>
    match d.exec { c with Labels := some (labels.set "tesson.shard" shard) }
        { CpusetCpus := shard, PortBindings := pm } w with
    | (some err, w1) => (Outcome.err err, w1)
    | (none, w1) => docker.execLayout d pm rest c (labels.set "tesson.shard" shard) w1

/-- The first part of `Exec`: `c := container.Config{Labels: make(map[string]string)}`,
then the optional configuration file decoded over it. -/
def docker.loadConfig (d : docker σ) (opts : ExecOptions) (w : World σ) :
    Reply Config × World σ :=
  if opts.Config.length ≠ 0 then
    match d.env.Open opts.Config with
    | Reply.fail err => (Reply.fail err, w.record (Event.Open opts.Config (Reply.fail err)))
    | Reply.ok f =>
      (d.env.Decode f { Image := "", Labels := some [], Rest := [] },
        (w.record (Event.Open opts.Config (Reply.ok f))).record
          (Event.Decode f (d.env.Decode f { Image := "", Labels := some [], Rest := [] })))
  else (Reply.ok { Image := "", Labels := some [], Rest := [] }, w)

/-- `func (d *docker) Exec(group string, opts ExecOptions) error`.  A nil
label map (a configuration file can decode to one) makes the assignment
`c.Labels["tesson.group"] = group` panic. -/
def docker.Exec (d : docker σ) (group : String) (opts : ExecOptions) (w : World σ) :
    Outcome Unit × World σ :=
  match d.loadConfig opts w with
  | (Reply.fail err, w1) => (Outcome.err err, w1)
  | (Reply.ok c, w1) =>
    -- c.Image, c.Labels["tesson.group"] = opts.Image, group
    match c.Labels with
    | none => (Outcome.crash, w1)  -- assignment to entry in nil map
    | some labels =>
      match d.env.ParsePortSpecs opts.Ports with
      | Reply.fail err =>
        (Outcome.err err, w1.record (Event.ParsePortSpecs opts.Ports (Reply.fail err)))
      | Reply.ok (ps, pm) =>
        docker.execLayout d pm opts.Layout { c with Image := opts.Image }
          (labels.set "tesson.group" group)
          (w1.record (Event.ParsePortSpecs opts.Ports (Reply.ok (ps, pm))))

/-- The loop `for _, shard := range list[index].Shards` of `Stop`. -/
def docker.stopShards (d : docker σ) (opts : StopOptions) :
    List Shard → World σ → Outcome Unit × World σ
  | [], w => (Outcome.ok (), w)
  | shard :: rest, w =>
    match d.stop shard.ID opts w with
    | (some err, w1) => (Outcome.err err, w1)
    | (none, w1) => docker.stopShards d opts rest w1

/-- One turn of the loop `for _, c := range list` of `List` on the map `m`
(`none` is the run-time panic of `c.Names[0]` on an empty slice). -/
def listStep (m : List (String × Group)) (c : Container) : Option (List (String × Group)) :=
  match List.lookup "tesson.group" c.Labels with
  | none => some m  -- continue
  | some group =>
    match c.Names with
    | [] => none  -- index out of range
    | n0 :: _ =>
      some (((if (List.lookup group m).isNone then
                m ++ [(group, { Name := group, Image := c.Image, Shards := [] })]
              else m).map
        (fun p => if p.1 = group then
            (p.1, { p.2 with Shards := p.2.Shards ++
              [{ Name := if n0.length = 0 then "<unknown>" else n0,
                 ID := c.ID,
                 CPUs := (List.lookup "tesson.shard" c.Labels).getD "",
                 Status := c.Status }] })
          else p)))

/-- The loop `for _, c := range list` of `List`, from the map `m`. -/
def listLoop : List Container → List (String × Group) → Option (List (String × Group))
  | [], m => some m
  | c :: rest, m =>
    match listStep m c with
    | none => none
    | some m1 => listLoop rest m1

/-- `func (d *docker) List() ([]Group, error)`.  The map `m` is kept as the
list of its entries in insertion order; `d.range` is the order in which
`for _, v := range m` walks it. -/
def docker.List (d : docker σ) (w : World σ) : Outcome (List Group) × World σ :=
  match d.ContainerList true w with
  | (Reply.fail err, w1) => (Outcome.err err, w1)
  | (Reply.ok list, w1) =>
    match listLoop list [] with
    | none => (Outcome.crash, w1)
    | some m => (Outcome.ok ((d.range m).map Prod.snd), w1)

/-- `func (d *docker) Stop(group string, opts StopOptions) error`.
`findIdx` is the loop `for index = 0; index < len(list); index++`, which ends
at the first group of that name or at `len(list)`. -/
def docker.Stop (d : docker σ) (group : String) (opts : StopOptions) (w : World σ) :
    Outcome Unit × World σ :=
  match d.List w with
  | (Outcome.err err, w1) => (Outcome.err err, w1)
  | (Outcome.crash, w1) => (Outcome.crash, w1)
  | (Outcome.ok list, w1) =>
    if list.findIdx (fun g => g.Name == group) ≥ list.length then
      (Outcome.err errGroupDoesNotExist, w1)
    else
      docker.stopShards d opts
        (list.getD (list.findIdx (fun g => g.Name == group))
          { Name := "", Image := "", Shards := [] }).Shards w1

/-! ## A reference runtime

The claims about what `List` shows after `Exec` or `Stop` are stated for a
runtime in which a successful create adds a unit carrying the given image and
labels, a successful stop leaves the unit present but not running, and a
successful remove deletes the unit.  `Runtime` is that runtime; any of its
calls can be made to fail through the schedule `faults`. -/

/-- One unit held by the reference runtime. -/
structure RuntimeUnit where
  ID : String
  Names : List String
  Image : String
  Status : String
  Labels : Labels
  Running : Bool
  deriving DecidableEq, Repr

/-- The state of the reference runtime: its units in creation order, the
schedule of outcomes of the coming calls (`some e`: the call fails with `e`
and changes nothing; `none` or an exhausted schedule: the call is served),
and the counter from which identifiers are made. -/
structure Runtime where
  units : List RuntimeUnit
  faults : List (Option Error)
  next : Nat
  deriving DecidableEq, Repr

/-- The outcome scheduled for the coming call. -/
def Runtime.fault (s : Runtime) : Option Error :=
  match s.faults with
  | some e :: _ => some e
  | _ => none

/-- The state once the coming call has consumed its scheduled outcome. -/
def Runtime.tick (s : Runtime) : Runtime := { s with faults := s.faults.tail }

/-- The listing entry of a unit. -/
def RuntimeUnit.toContainer (u : RuntimeUnit) : Container :=
  { ID := u.ID, Names := u.Names, Image := u.Image, Status := u.Status, Labels := u.Labels }

/-- Whether the runtime holds a unit with this identifier. -/
def Runtime.has (s : Runtime) (id : String) : Bool := s.units.any (fun u => u.ID = id)

/-- The error of a call on an identifier the runtime does not hold. -/
def noSuchContainer (id : String) : Error := Error.external ("No such container: " ++ id)

/-- Listing: every unit (`all`) or the running ones, in creation order. -/
def Runtime.ContainerList (all : Bool) (s : Runtime) : Reply (List Container) × Runtime :=
  match s.fault with
  | some e => (Reply.fail e, s.tick)
  | none =>
    (Reply.ok ((s.units.filter (fun u => all || u.Running)).map RuntimeUnit.toContainer), s.tick)

/-- Creation: a new, not running unit carrying the image and labels of the
configuration, under a runtime-assigned identifier and display name. -/
def Runtime.ContainerCreate (c : Config) (_h : HostConfig) (s : Runtime) :
    Reply String × Runtime :=
  match s.fault with
  | some e => (Reply.fail e, s.tick)
  | none =>
    (Reply.ok ("c" ++ Nat.repr s.next),
      { units := s.units ++ [{ ID := "c" ++ Nat.repr s.next,
                               Names := ["/c" ++ Nat.repr s.next],
                               Image := c.Image,
                               Status := "Created",
                               Labels := c.Labels.getD [],
                               Running := false }],
        faults := s.faults.tail,
        next := s.next + 1 })

/-- Start: the unit becomes running. -/
def Runtime.ContainerStart (id : String) (s : Runtime) : Option Error × Runtime :=
  match s.fault with
  | some e => (some e, s.tick)
  | none =>
    if s.has id then
      (none, { s.tick with units := s.units.map (fun u =>
        if u.ID = id then { u with Running := true, Status := "Up" } else u) })
    else (some (noSuchContainer id), s.tick)

/-- Inspection: the identifier and running flag of the unit. -/
def Runtime.ContainerInspect (id : String) (s : Runtime) : Reply ContainerJSON × Runtime :=
  match s.fault with
  | some e => (Reply.fail e, s.tick)
  | none =>
    match s.units.find? (fun u => u.ID = id) with
    | some u => (Reply.ok { ID := u.ID, State := { Running := u.Running } }, s.tick)
    | none => (Reply.fail (noSuchContainer id), s.tick)

/-- Stop: the unit stays, not running. -/
def Runtime.ContainerStop (id : String) (_timeout : Nat) (s : Runtime) :
    Option Error × Runtime :=
  match s.fault with
  | some e => (some e, s.tick)
  | none =>
    if s.has id then
      (none, { s.tick with units := s.units.map (fun u =>
        if u.ID = id then { u with Running := false, Status := "Exited" } else u) })
    else (some (noSuchContainer id), s.tick)

/-- Removal: the unit is deleted. -/
def Runtime.ContainerRemove (id : String) (_removeVolumes : Bool) (s : Runtime) :
    Option Error × Runtime :=
  match s.fault with
  | some e => (some e, s.tick)
  | none =>
    if s.has id then
      (none, { s.tick with units := s.units.filter (fun u => u.ID ≠ id) })
    else (some (noSuchContainer id), s.tick)

/-- The client of the reference runtime. -/
def Runtime.client : Client Runtime :=
  { ContainerList := Runtime.ContainerList
    ContainerCreate := Runtime.ContainerCreate
    ContainerStart := Runtime.ContainerStart
    ContainerInspect := Runtime.ContainerInspect
    ContainerStop := Runtime.ContainerStop
    ContainerRemove := Runtime.ContainerRemove }

/-- An environment without configuration files, whose port parser accepts
every specification and answers no binding. -/
def plainEnv : Env :=
  { Open := fun path => Reply.fail (Error.external ("open " ++ path ++ ": no such file"))
    Decode := fun _ c => Reply.ok c
    ParsePortSpecs := fun _ => Reply.ok ([], []) }

/-- The manager over the reference runtime, walking maps in insertion order. -/
def refDocker : docker Runtime :=
  { client := Runtime.client
    env := plainEnv
    range := fun m => m
    range_perm := fun m => List.Perm.refl m }

/-- The manager over the reference runtime, walking maps in reverse insertion order. -/
def revDocker : docker Runtime :=
  { client := Runtime.client
    env := plainEnv
    range := fun m => m.reverse
    range_perm := fun m => List.reverse_perm m }

/-- The empty reference runtime with an empty log. -/
def emptyWorld : World Runtime := ⟨{ units := [], faults := [], next := 0 }, []⟩

/-! ## What the specification says `List` computes -/

/-- The value of the group label of a unit, if the unit carries the label. -/
def groupLabel (c : Container) : Option String := List.lookup "tesson.group" c.Labels

/-- The display name the specification gives a unit: its first name, or the
placeholder when it has no recorded name. -/
def displayName (c : Container) : String :=
  match c.Names with
  | [] => "<unknown>"
  | n0 :: _ => if n0 = "" then "<unknown>" else n0

/-- The shard the specification derives from a labelled unit. -/
def shardOf (c : Container) : Shard :=
  { Name := displayName c
    ID := c.ID
    Status := c.Status
    CPUs := (List.lookup "tesson.shard" c.Labels).getD "" }

/-- The units of a snapshot whose group label is `g`, in snapshot order. -/
def members (cs : List Container) (g : String) : List Container :=
  cs.filter (fun c => groupLabel c = some g)

/-- The map of `List` after the units `pre` have been walked: one entry per
group label met, holding the shards of the units carrying it. -/
structure GroupMapInv (pre : List Container) (m : List (String × Group)) : Prop where
  nodup : (m.map Prod.fst).Nodup
  name : ∀ p ∈ m, p.2.Name = p.1
  shards : ∀ p ∈ m, p.2.Shards = (members pre p.1).map shardOf
  nonempty : ∀ p ∈ m, members pre p.1 ≠ []
  image : ∀ p ∈ m, (members pre p.1).head?.map Container.Image = some p.2.Image
  complete : ∀ c ∈ pre, ∀ g, groupLabel c = some g → g ∈ m.map Prod.fst

/-! ## Definitions of the proofs and of the specification -/

/-- Appending a shard to the entry of a group in the map of `List`. -/
def addShard (g : String) (sh : Shard) (p : String × Group) : String × Group :=
  if p.1 = g then (p.1, { p.2 with Shards := p.2.Shards ++ [sh] }) else p

/-- The specification of `List`: `gs` is the group-by of the labelled units of
the snapshot `cs` — one group per label value met, holding exactly the shards
of the units carrying that value, in snapshot order. -/
structure IsGroupBy (cs : List Container) (gs : List Group) : Prop where
  nodup : (gs.map Group.Name).Nodup
  shards : ∀ g ∈ gs, g.Shards = (members cs g.Name).map shardOf
  nonempty : ∀ g ∈ gs, g.Shards ≠ []
  image : ∀ g ∈ gs, (members cs g.Name).head?.map Container.Image = some g.Image
  complete : ∀ c ∈ cs, ∀ k, groupLabel c = some k → ∃ g ∈ gs, g.Name = k

/-- Every unit of the snapshot that carries the group label has a name. -/
def Named (cs : List Container) : Prop :=
  ∀ c ∈ cs, groupLabel c ≠ none → c.Names ≠ []

/-! ## What the specification says `Stop` and `Exec` call -/

/-- The result of a method returning `error`. -/
def Outcome.ofError : Option Error → Outcome Unit
  | none => Outcome.ok ()
  | some e => Outcome.err e

/-- The unit a call acts on (none for listing, creation and the environment). -/
def Event.target : Event → Option String
  | Event.ContainerStart id _ => some id
  | Event.ContainerInspect id _ => some id
  | Event.ContainerStop id _ _ => some id
  | Event.ContainerRemove id _ _ => some id
  | _ => none

/-- Whether the event is a removal. -/
def Event.isRemove : Event → Bool
  | Event.ContainerRemove _ _ _ => true
  | _ => false

/-- Whether the event is a stop. -/
def Event.isStop : Event → Bool
  | Event.ContainerStop _ _ _ => true
  | _ => false

/-- Whether the event is a creation. -/
def Event.isCreate : Event → Bool
  | Event.ContainerCreate _ _ _ => true
  | _ => false

/-- Whether the event is a start. -/
def Event.isStart : Event → Bool
  | Event.ContainerStart _ _ => true
  | _ => false

/-- Whether the event is a port-specification parse. -/
def Event.isParse : Event → Bool
  | Event.ParsePortSpecs _ _ => true
  | _ => false

/-- Whether the event is a call to the container runtime. -/
def Event.isRuntime : Event → Bool
  | Event.Open _ _ => false
  | Event.Decode _ _ => false
  | Event.ParsePortSpecs _ _ => false
  | _ => true

/-- The calls the specification prescribes for one shard, with the replies
they got and the error they end in: inspect the shard; if the inspected state
is running, stop it with a grace period of 30 seconds; if purging, remove it
with volume removal enabled; end at the first call that fails. -/
inductive ShardStop (purge : Bool) (id : String) : List Event → Option Error → Prop
  | inspectFailed (e : Error) :
      ShardStop purge id [Event.ContainerInspect id (Reply.fail e)] (some e)
  | stopFailed (r : ContainerJSON) (e : Error) (hr : r.State.Running = true) :
      ShardStop purge id
        [Event.ContainerInspect id (Reply.ok r), Event.ContainerStop r.ID 30 (some e)] (some e)
  | kept (r : ContainerJSON) (hp : purge = false) :
      ShardStop purge id
        (Event.ContainerInspect id (Reply.ok r) ::
          (if r.State.Running then [Event.ContainerStop r.ID 30 none] else [])) none
  | removed (r : ContainerJSON) (res : Option Error) (hp : purge = true) :
      ShardStop purge id
        (Event.ContainerInspect id (Reply.ok r) ::
          ((if r.State.Running then [Event.ContainerStop r.ID 30 none] else []) ++
            [Event.ContainerRemove r.ID true res])) res

/-- The calls the specification prescribes for the shards of a group, in
listing order, ending at the first call that fails. -/
inductive StopRun (purge : Bool) : List Shard → List Event → Option Error → Prop
  | done : StopRun purge [] [] none
  | abort (sh : Shard) (rest : List Shard) (tr : List Event) (e : Error)
      (h : ShardStop purge sh.ID tr (some e)) : StopRun purge (sh :: rest) tr (some e)
  | next (sh : Shard) (rest : List Shard) (tr tr' : List Event) (ret : Option Error)
      (h : ShardStop purge sh.ID tr none) (hrest : StopRun purge rest tr' ret) :
      StopRun purge (sh :: rest) (tr ++ tr') ret

/-- The runtime answers an inspection with the record of the unit asked for. -/
def InspectEchoes (c : Client σ) : Prop :=
  ∀ id s r, (c.ContainerInspect id s).1 = Reply.ok r → r.ID = id

/-- The error a call ended in, if it failed. -/
def Event.failure : Event → Option Error
  | Event.Open _ (Reply.fail e) => some e
  | Event.Decode _ (Reply.fail e) => some e
  | Event.ParsePortSpecs _ (Reply.fail e) => some e
  | Event.ContainerList _ (Reply.fail e) => some e
  | Event.ContainerCreate _ _ (Reply.fail e) => some e
  | Event.ContainerStart _ r => r
  | Event.ContainerInspect _ (Reply.fail e) => some e
  | Event.ContainerStop _ _ r => r
  | Event.ContainerRemove _ _ r => r
  | _ => none

/-- A sequence of calls that ends at its first failure, returning that error:
no call but the last one failed, and `ret` is the error of the last one (none
when it succeeded or when no call was made). -/
def EndsAtFirstFailure (tr : List Event) (ret : Option Error) : Prop :=
  (∀ e ∈ tr.dropLast, e.failure = none) ∧ ret = tr.getLast?.bind Event.failure

/-- The creation the specification prescribes for one Layout entry: the image
is the requested image, the group label is the group name, the shard label and
the cpuset are the Layout entry, the port bindings are the parsed port map. -/
def IsShardCreate (image group : String) (pm : PortMap) (shard : String)
    (c : Config) (h : HostConfig) : Prop :=
  c.Image = image ∧
  c.Labels.bind (List.lookup "tesson.group") = some group ∧
  c.Labels.bind (List.lookup "tesson.shard") = some shard ∧
  h.CpusetCpus = shard ∧
  h.PortBindings = pm

/-- The calls the specification prescribes for one Layout entry, with the
replies they got and the error they end in: create the unit, then start the
unit just created; end at the first call that fails. -/
inductive ShardExec (image group : String) (pm : PortMap) (shard : String) :
    List Event → Option Error → Prop
  | createFailed (c : Config) (h : HostConfig) (e : Error)
      (hc : IsShardCreate image group pm shard c h) :
      ShardExec image group pm shard [Event.ContainerCreate c h (Reply.fail e)] (some e)
  | started (c : Config) (h : HostConfig) (id : String) (res : Option Error)
      (hc : IsShardCreate image group pm shard c h) :
      ShardExec image group pm shard
        [Event.ContainerCreate c h (Reply.ok id), Event.ContainerStart id res] res

/-- The calls the specification prescribes for a Layout, entry after entry,
ending at the first call that fails. -/
inductive ExecRun (image group : String) (pm : PortMap) :
    List String → List Event → Option Error → Prop
  | done : ExecRun image group pm [] [] none
  | abort (shard : String) (rest : List String) (tr : List Event) (e : Error)
      (h : ShardExec image group pm shard tr (some e)) :
      ExecRun image group pm (shard :: rest) tr (some e)
  | next (shard : String) (rest : List String) (tr tr' : List Event) (ret : Option Error)
      (h : ShardExec image group pm shard tr none)
      (hrest : ExecRun image group pm rest tr' ret) :
      ExecRun image group pm (shard :: rest) (tr ++ tr') ret

/-- Whether the event is a creation that succeeded. -/
def Event.isCreated : Event → Bool
  | Event.ContainerCreate _ _ (Reply.ok _) => true
  | _ => false

/-- Whether the event is a start that succeeded. -/
def Event.isStarted : Event → Bool
  | Event.ContainerStart _ none => true
  | _ => false

/-- The part of the log that a method added to the log `before`. -/
def newEvents (before after : List Event) : List Event := after.drop before.length

/-- The number of creations that succeeded in a sequence of calls. -/
def created (tr : List Event) : Nat := (tr.filter Event.isCreated).length

/-- The number of Layout entries that succeeded in a sequence of calls of
`Exec`: the creation and the start both succeeded, that is, the number of
starts that succeeded. -/
def succeeded (tr : List Event) : Nat := (tr.filter Event.isStarted).length

/-- What `List` reads of a unit of the reference runtime to group it: its
group label, its shard label and its image. -/
def RuntimeUnit.key (u : RuntimeUnit) : Option String × Option String × String :=
  (List.lookup "tesson.group" u.Labels, List.lookup "tesson.shard" u.Labels, u.Image)

/-- A unit of the reference runtime after a stop request that found it
running, or was spared because it was not. -/
def RuntimeUnit.halt (u : RuntimeUnit) : RuntimeUnit :=
  if u.Running then { u with Running := false, Status := "Exited" } else u

/-- Whether a unit of the reference runtime carries the group label with value `g`. -/
def RuntimeUnit.inGroup (g : String) (u : RuntimeUnit) : Bool :=
  List.lookup "tesson.group" u.Labels = some g

/-- What identifies a shard across a stop: its display name, its identifier
and its affinity label (its status changes). -/
def Shard.ident (s : Shard) : String × String × String := (s.Name, s.ID, s.CPUs)

/-- A state of the reference runtime: the group `web` with a running and a
stopped shard, a unit without labels, and the group `db` with one shard. -/
def demoWorld : World Runtime :=
  ⟨{ units :=
      [{ ID := "c0", Names := ["/web-0"], Image := "nginx", Status := "Up",
         Labels := [("tesson.group", "web"), ("tesson.shard", "0")], Running := true },
       { ID := "c1", Names := ["/web-1"], Image := "nginx", Status := "Exited",
         Labels := [("tesson.group", "web"), ("tesson.shard", "1")], Running := false },
       { ID := "c2", Names := ["/other"], Image := "redis", Status := "Up",
         Labels := [], Running := true },
       { ID := "c3", Names := [""], Image := "postgres", Status := "Up",
         Labels := [("tesson.group", "db"), ("tesson.shard", "2")], Running := true }],
     faults := [],
     next := 4 }, []⟩

/-- The inspection of a shard that is not running, as the log records it. -/
def idleInspect (sh : Shard) : Event :=
  Event.ContainerInspect sh.ID (Reply.ok { ID := sh.ID, State := { Running := false } })

/-- What `List` shows of `demoWorld` (walking its map in insertion order). -/
def demoGroups : List Group :=
  [⟨"web", "nginx", [⟨"/web-0", "c0", "Up", "0"⟩, ⟨"/web-1", "c1", "Exited", "1"⟩]⟩,
   ⟨"db", "postgres", [⟨"<unknown>", "c3", "Up", "2"⟩]⟩]

/-- The group `web` of `demoWorld`. -/
def demoWeb : Group :=
  ⟨"web", "nginx", [⟨"/web-0", "c0", "Up", "0"⟩, ⟨"/web-1", "c1", "Exited", "1"⟩]⟩

/-- The options of the scenario of the specification: two shards of `nginx`. -/
def demoOptions : ExecOptions :=
  { Image := "nginx", Layout := ["0", "1"], Ports := [], Config := "" }

/-- A state of the reference runtime with a labelled unit that has no
recorded name, after a labelled unit that has one. -/
def unnamedWorld : World Runtime :=
  ⟨{ units :=
      [{ ID := "c0", Names := ["/web-0"], Image := "nginx", Status := "Up",
         Labels := [("tesson.group", "web"), ("tesson.shard", "0")], Running := true },
       { ID := "c1", Names := [], Image := "nginx", Status := "Created",
         Labels := [("tesson.group", "web"), ("tesson.shard", "1")], Running := false }],
     faults := [],
     next := 2 }, []⟩

/-- An environment with one configuration file, `tesson.json`, that decodes to
the configuration it is decoded into, and a port parser that refuses the
specification `"bad"`. -/
def strictEnv : Env :=
  { Open := fun path =>
      if path = "tesson.json" then Reply.ok "{}"
      else Reply.fail (Error.external ("open " ++ path ++ ": no such file"))
    Decode := fun _ c => Reply.ok c
    ParsePortSpecs := fun ports =>
      if ports.any (fun p => p = "bad") then
        Reply.fail (Error.external "Invalid containerPort: bad")
      else Reply.ok (ports, ports.map (fun p => (p, p))) }

/-- The manager over the reference runtime in the environment `strictEnv`. -/
def strictDocker : docker Runtime :=
  { client := Runtime.client
    env := strictEnv
    range := fun m => m
    range_perm := fun m => List.Perm.refl m }

/-- Options with a configuration file and a port specification that does not parse. -/
def badPortOptions : ExecOptions :=
  { Image := "nginx", Layout := ["0", "1", "2"], Ports := ["80", "bad"], Config := "tesson.json" }

/-- An environment like `strictEnv` whose configuration file, `tesson.json`,
holds `{"Labels": null}`: decoding it resets the label map made by `Exec` to
the nil map. -/
def nullLabelsEnv : Env :=
  { Open := fun path =>
      if path = "tesson.json" then Reply.ok "\x7b\"Labels\": null\x7d"
      else Reply.fail (Error.external ("open " ++ path ++ ": no such file"))
    Decode := fun _ c => Reply.ok { c with Labels := none }
    ParsePortSpecs := strictEnv.ParsePortSpecs }

/-- The manager over the reference runtime in the environment `nullLabelsEnv`. -/
def nullLabelsDocker : docker Runtime :=
  { client := Runtime.client
    env := nullLabelsEnv
    range := fun m => m
    range_perm := fun m => List.Perm.refl m }

/-! ## The placement engine and the `run` command

The body of `Distribute` is not among the sources; it is modelled from the
specification (sections 3 and 4.1). -/

/-- Modelled from the spec: the kinds of hierarchy level (machine / package /
core / processing unit), which are also the granularities of placement; the
source of `Granularity` and `CoreGranularity` is missing. -/
inductive Granularity where
  | machine
  | package
  | core
  | pu
  deriving DecidableEq, Repr

/-- `tesson.CoreGranularity` -/
def CoreGranularity : Granularity := Granularity.core

/-- Modelled from the spec: the hierarchy snapshot, whose source is missing.
One level of the host's compute hierarchy: kind, identifier, the set of
processing-unit identifiers its subtree covers, ordered children. -/
inductive HierarchyNode where
  | mk (kind : Granularity) (id : Nat) (cpuset : List Nat) (children : List HierarchyNode)
  deriving Repr

/-- The kind of a hierarchy node. -/
def HierarchyNode.kind : HierarchyNode → Granularity
  | HierarchyNode.mk k _ _ _ => k

/-- The processing units a hierarchy node covers. -/
def HierarchyNode.cpuset : HierarchyNode → List Nat
  | HierarchyNode.mk _ _ cs _ => cs

/-- The children of a hierarchy node. -/
def HierarchyNode.children : HierarchyNode → List HierarchyNode
  | HierarchyNode.mk _ _ _ ch => ch

/-- Two sets of processing units without a common member. -/
def disjointSets (a b : List Nat) : Prop := ∀ x ∈ a, x ∉ b

instance disjointSets.decidable (a b : List Nat) : Decidable (disjointSets a b) :=
  inferInstanceAs (Decidable (∀ x ∈ a, x ∉ b))

mutual
/-- Modelled from the spec: the invariant of the hierarchy, whose source is
missing — sibling processing-unit sets are pairwise disjoint, and the set of a
node covers the sets of its children. -/
def wellFormed : HierarchyNode → Bool
  | HierarchyNode.mk _ _ cs children =>
    decide (children.Pairwise (fun a b => disjointSets a.cpuset b.cpuset)) &&
      decide (∀ c ∈ children, ∀ x ∈ c.cpuset, x ∈ cs) &&
      wellFormedList children
/-- Modelled from the spec: the invariant of the hierarchy, on a list of siblings. -/
def wellFormedList : List HierarchyNode → Bool
  | [] => true
  | c :: rest => wellFormed c && wellFormedList rest
end

mutual
/-- Modelled from the spec: step 1 of the placement algorithm, whose source is
missing — the placement units of the requested granularity under a node in
canonical order, depth first, children in their order. -/
def unitsAt (g : Granularity) : HierarchyNode → List HierarchyNode
  | HierarchyNode.mk k id cs children =>
    if k = g then [HierarchyNode.mk k id cs children] else unitsAtList g children
/-- Modelled from the spec: the placement units under a list of siblings. -/
def unitsAtList (g : Granularity) : List HierarchyNode → List HierarchyNode
  | [] => []
  | c :: rest => unitsAt g c ++ unitsAtList g rest
end

/-- Modelled from the spec: `capacity(granularity)`, the number of available
units at that granularity; its source is missing. -/
def capacity (root : HierarchyNode) (g : Granularity) : Nat := (unitsAt g root).length

/-- Modelled from the spec: the placement units of each top-level sibling
(package), one list a sibling, for step 2 of the placement algorithm, whose
source is missing. -/
def topGroups (g : Granularity) (root : HierarchyNode) : List (List HierarchyNode) :=
  if root.kind = g then [[root]] else root.children.map (unitsAt g)

/-- Modelled from the spec: round-robin for at most `rounds` rounds, whose
source is missing — a round takes the next unit of every group that still has
one, in the order of the groups. -/
def roundRobinAux {α : Type} : Nat → List (List α) → List α
  | 0, _ => []
  | rounds + 1, groups =>
    groups.filterMap List.head? ++ roundRobinAux rounds (groups.map List.tail)

/-- Modelled from the spec: step 2 of the placement algorithm, whose source is
missing — selection by round-robin across the top-level siblings before
descending into any one of them. -/
def roundRobin {α : Type} (groups : List (List α)) : List α :=
  roundRobinAux (groups.map List.length).sum groups

/-- Modelled from the spec: step 3 of the placement algorithm, whose source is
missing — the cpuset string covering exactly the processing units of a node. -/
def descriptor (node : HierarchyNode) : String :=
  String.intercalate "," (node.cpuset.map Nat.repr)

/-- Modelled from the spec: the error `InsufficientCapacity` of a placement
beyond the capacity; its source is missing. -/
def InsufficientCapacity : Error := Error.New "insufficient capacity"

/-- Modelled from the spec: the nodes `distribute(hierarchy, n, granularity)`
selects; its source is missing. -/
def distributeUnits (root : HierarchyNode) (n : Nat) (g : Granularity) :
    Reply (List HierarchyNode) :=
  if n > capacity root g then Reply.fail InsufficientCapacity
  else Reply.ok ((roundRobin (topGroups g root)).take n)

/-- Modelled from the spec: `distribute(hierarchy, n, granularity) → Layout`,
failing with `InsufficientCapacity` when `n` exceeds the number of available
units at that granularity; the body of `Distribute` is missing. -/
def Distribute (root : HierarchyNode) (n : Nat) (g : Granularity) : Reply (List String) :=
  match distributeUnits root n g with
  | Reply.fail e => Reply.fail e
  | Reply.ok units => Reply.ok (units.map descriptor)

/-- `tesson.Topology` as `main.go` uses it: `N()` and `Distribute(n, opts)`
(the interface is a parameter of `exec`; its declaration is missing). -/
structure Topology where
  N : Nat
  Distribute : Nat → Granularity → Reply (List String)

/-- The topology of a hierarchy snapshot. -/
def HierarchyNode.topology (root : HierarchyNode) : Topology :=
  { N := capacity root CoreGranularity
    Distribute := Distribute root }

/-- The command line (`*cli.Context`) as the `run` command reads it. -/
structure CliContext where
  NArg : Nat
  size : Int
  arg0 : String
  port : List String
  config : String
  group : Option String
  gorb : Option String
  deriving DecidableEq, Repr

/-- The number of shards `exec` of `main.go` asks for: `--size` when positive,
`t.N()` otherwise. -/
def main.size (t : Topology) (c : CliContext) : Nat :=
  if c.size > 0 then c.size.toNat else t.N

/-- The group name `exec` of `main.go` uses: `--group` when set, the image otherwise. -/
def main.group (c : CliContext) : String :=
  match c.group with
  | some g => g
  | none => c.arg0

/-- The end of `exec` of `main.go`, after `r.Exec`: the error of `Exec`, or
the optional synchronisation with the load balancer (`sync`, external). -/
def main.finish (sync : String → String → World σ → Outcome Unit × World σ)
    (c : CliContext) (after : Outcome Unit × World σ) : Outcome Unit × World σ :=
  match after with
  | (Outcome.ok (), w1) =>
    match c.gorb with
    | none => (Outcome.ok (), w1)
    | some uri => sync uri (main.group c) w1
  | (res, w1) => (res, w1)

/-- `func exec(c *cli.Context) error` of `main.go` (`help` is the result of
`cli.ShowCommandHelp`; `log.Infof` is not modelled). -/
def main.exec (t : Topology) (r : docker σ) (help : Outcome Unit)
    (sync : String → String → World σ → Outcome Unit × World σ)
    (c : CliContext) (w : World σ) : Outcome Unit × World σ :=
  if c.NArg = 0 then (help, w)
  else
    match t.Distribute (main.size t c) CoreGranularity with
    | Reply.fail err => (Outcome.err err, w)
    | Reply.ok l =>
      main.finish sync c
        (r.Exec (main.group c)
          { Image := c.arg0, Layout := l, Ports := c.port, Config := c.config } w)

/-- The topology of the scenario of the specification: two packages of four
cores, two processing units a core. -/
def demoTopology : HierarchyNode :=
  HierarchyNode.mk Granularity.machine 0 (List.range 16)
    [HierarchyNode.mk Granularity.package 0 (List.range 8)
      ((List.range 4).map (fun i =>
        HierarchyNode.mk Granularity.core i [2 * i, 2 * i + 1]
          [HierarchyNode.mk Granularity.pu (2 * i) [2 * i] [],
           HierarchyNode.mk Granularity.pu (2 * i + 1) [2 * i + 1] []])),
     HierarchyNode.mk Granularity.package 1 ((List.range 8).map (· + 8))
      ((List.range 4).map (fun i =>
        HierarchyNode.mk Granularity.core (i + 4) [2 * i + 8, 2 * i + 9]
          [HierarchyNode.mk Granularity.pu (2 * i + 8) [2 * i + 8] [],
           HierarchyNode.mk Granularity.pu (2 * i + 9) [2 * i + 9] []]))]

/-! ## `List` is a group-by; the calls of `stop` -/

theorem lookup_eq_none_iff {β : Type} (k : String) (m : List (String × β)) :
    List.lookup k m = none ↔ k ∉ m.map Prod.fst := by
  induction m with
  | nil => simp
  | cons p m ih =>
    obtain ⟨a, b⟩ := p
    by_cases h : k = a
    · subst h; simp [List.lookup_cons]
    · have h' : (k == a) = false := by simpa using h
      simp [List.lookup_cons, h', ih, h]

theorem members_append (pre cs : List Container) (g : String) :
    members (pre ++ cs) g = members pre g ++ members cs g := by
  simp [members]

theorem members_single_same (c : Container) (g : String) (h : groupLabel c = some g) :
    members [c] g = [c] := by
  simp [members, h]

theorem members_single_other (c : Container) (g : String) (h : groupLabel c ≠ some g) :
    members [c] g = [] := by
  simp [members, h]

theorem displayName_cons (c : Container) (n0 : String) (rest : List String)
    (h : c.Names = n0 :: rest) :
    displayName c = if n0.length = 0 then "<unknown>" else n0 := by
  unfold displayName
  rw [h]
  have : (n0.length = 0) ↔ n0 = "" := by
    constructor
    · intro h0
      have : n0.data = [] := List.length_eq_zero.mp h0
      exact String.ext this
    · intro h0; subst h0; rfl
  by_cases h0 : n0 = ""
  · simp [h0]
  · have h1 : ¬ n0.length = 0 := fun hh => h0 (this.mp hh)
    simp [h0, h1]

theorem addShard_fst (g : String) (sh : Shard) (p : String × Group) :
    (addShard g sh p).1 = p.1 := by
  unfold addShard; split <;> rfl

theorem map_addShard_keys (g : String) (sh : Shard) (m : List (String × Group)) :
    (m.map (addShard g sh)).map Prod.fst = m.map Prod.fst := by
  induction m with
  | nil => rfl
  | cons p m ih => simp [addShard_fst, ih]

theorem map_addShard_absent (g : String) (sh : Shard) (m : List (String × Group))
    (h : g ∉ m.map Prod.fst) : m.map (addShard g sh) = m := by
  induction m with
  | nil => rfl
  | cons p m ih =>
    simp only [List.map_cons, List.mem_cons, not_or] at h
    have hp : addShard g sh p = p := by
      unfold addShard
      rw [if_neg (fun hh => h.1 hh.symm)]
    simp [hp, ih h.2]

theorem listStep_unlabelled (m : List (String × Group)) (c : Container)
    (h : groupLabel c = none) : listStep m c = some m := by
  unfold groupLabel at h
  simp [listStep, h]

theorem listStep_unnamed (m : List (String × Group)) (c : Container) (g : String)
    (h : groupLabel c = some g) (hn : c.Names = []) : listStep m c = none := by
  unfold groupLabel at h
  simp [listStep, h, hn]

theorem listStep_labelled (m : List (String × Group)) (c : Container) (g : String)
    (h : groupLabel c = some g) (hn : c.Names ≠ []) :
    listStep m c = some
      ((if (List.lookup g m).isNone then m ++ [(g, { Name := g, Image := c.Image, Shards := [] })]
        else m).map (addShard g (shardOf c))) := by
  unfold groupLabel at h
  cases hN : c.Names with
  | nil => exact absurd hN hn
  | cons n0 rest =>
    have hd := displayName_cons c n0 rest hN
    simp only [listStep, h, hN]
    congr 1
    apply List.map_congr_left
    intro p _
    unfold addShard shardOf
    rw [hd]

theorem members_snoc_same (pre : List Container) (c : Container) (g : String)
    (h : groupLabel c = some g) : members (pre ++ [c]) g = members pre g ++ [c] := by
  rw [members_append, members_single_same c g h]

theorem members_snoc_other (pre : List Container) (c : Container) (g : String)
    (h : groupLabel c ≠ some g) : members (pre ++ [c]) g = members pre g := by
  rw [members_append, members_single_other c g h, List.append_nil]

theorem groupMapInv_nil : GroupMapInv [] [] where
  nodup := by simp
  name := by simp
  shards := by simp
  nonempty := by simp
  image := by simp
  complete := by simp

theorem groupMapInv_absent_members {pre : List Container} {m : List (String × Group)}
    (inv : GroupMapInv pre m) (g : String) (h : g ∉ m.map Prod.fst) : members pre g = [] := by
  unfold members
  rw [List.filter_eq_nil_iff]
  intro c hc hg
  exact h (inv.complete c hc g (by simpa using hg))

theorem groupMapInv_step {pre : List Container} {m m' : List (String × Group)}
    (inv : GroupMapInv pre m) (c : Container) (h : listStep m c = some m') :
    GroupMapInv (pre ++ [c]) m' := by
  cases hg : groupLabel c with
  | none =>
    rw [listStep_unlabelled m c hg] at h
    cases h
    have hm : ∀ g, members (pre ++ [c]) g = members pre g := fun g =>
      members_snoc_other pre c g (by simp [hg])
    refine ⟨inv.nodup, inv.name, ?_, ?_, ?_, ?_⟩
    · intro p hp; rw [hm]; exact inv.shards p hp
    · intro p hp; rw [hm]; exact inv.nonempty p hp
    · intro p hp; rw [hm]; exact inv.image p hp
    · intro c' hc' g hg'
      rcases List.mem_append.mp hc' with h1 | h1
      · exact inv.complete c' h1 g hg'
      · simp only [List.mem_singleton] at h1
        subst h1; rw [hg] at hg'; cases hg'
  | some g =>
    have hn : c.Names ≠ [] := by
      intro hn
      rw [listStep_unnamed m c g hg hn] at h
      cases h
    rw [listStep_labelled m c g hg hn] at h
    cases h
    have hother : ∀ k, k ≠ g → members (pre ++ [c]) k = members pre k := fun k hk =>
      members_snoc_other pre c k (by rw [hg]; intro hh; cases hh; exact hk rfl)
    have hsame : members (pre ++ [c]) g = members pre g ++ [c] := members_snoc_same pre c g hg
    by_cases hkey : g ∈ m.map Prod.fst
    · -- the group is already in the map
      have hl : (List.lookup g m).isNone = false := by
        cases hlk : List.lookup g m with
        | none => exact absurd hkey ((lookup_eq_none_iff g m).mp hlk)
        | some _ => rfl
      simp only [hl, Bool.false_eq_true, if_false]
      refine ⟨?_, ?_, ?_, ?_, ?_, ?_⟩
      · rw [map_addShard_keys]; exact inv.nodup
      · intro p' hp'
        obtain ⟨p, hp, rfl⟩ := List.mem_map.mp hp'
        unfold addShard
        split
        · exact inv.name p hp
        · exact inv.name p hp
      · intro p' hp'
        obtain ⟨p, hp, rfl⟩ := List.mem_map.mp hp'
        unfold addShard
        split
        · rename_i hpg
          simp only
          rw [hpg, hsame, List.map_append, ← hpg, inv.shards p hp]
          rfl
        · rename_i hpg
          rw [hother p.1 hpg]; exact inv.shards p hp
      · intro p' hp'
        obtain ⟨p, hp, rfl⟩ := List.mem_map.mp hp'
        rw [addShard_fst]
        by_cases hpg : p.1 = g
        · rw [hpg, hsame]; simp
        · rw [hother p.1 hpg]; exact inv.nonempty p hp
      · intro p' hp'
        obtain ⟨p, hp, rfl⟩ := List.mem_map.mp hp'
        unfold addShard
        split
        · rename_i hpg
          simp only
          have hne := inv.nonempty p hp
          have him := inv.image p hp
          rw [hpg] at hne him
          rw [hpg, hsame]
          cases hmem : members pre g with
          | nil => exact absurd hmem hne
          | cons a l => rw [hmem] at him; simpa using him
        · rename_i hpg
          rw [hother p.1 hpg]; exact inv.image p hp
      · intro c' hc' k hk
        rw [map_addShard_keys]
        rcases List.mem_append.mp hc' with h1 | h1
        · exact inv.complete c' h1 k hk
        · simp only [List.mem_singleton] at h1
          subst h1; rw [hg] at hk; cases hk; exact hkey
    · -- the group is new
      have hl : (List.lookup g m).isNone = true := by
        rw [(lookup_eq_none_iff g m).mpr hkey]; rfl
      have hnone := groupMapInv_absent_members inv g hkey
      simp only [hl, if_true, List.map_append, map_addShard_absent g (shardOf c) m hkey,
        List.map_cons, List.map_nil]
      have hnew : addShard g (shardOf c) (g, { Name := g, Image := c.Image, Shards := [] })
          = (g, { Name := g, Image := c.Image, Shards := [shardOf c] }) := by
        simp [addShard]
      rw [hnew]
      have hne : ∀ p ∈ m, p.1 ≠ g := fun p hp hpg =>
        hkey (List.mem_map.mpr ⟨p, hp, hpg⟩)
      refine ⟨?_, ?_, ?_, ?_, ?_, ?_⟩
      · rw [List.map_append, List.nodup_append]
        refine ⟨inv.nodup, by simp, ?_⟩
        intro a ha hb
        simp only [List.map_cons, List.map_nil, List.mem_singleton] at hb
        subst hb; exact hkey ha
      · intro p hp
        rcases List.mem_append.mp hp with h1 | h1
        · exact inv.name p h1
        · simp only [List.mem_singleton] at h1; subst h1; rfl
      · intro p hp
        rcases List.mem_append.mp hp with h1 | h1
        · rw [hother p.1 (hne p h1)]; exact inv.shards p h1
        · simp only [List.mem_singleton] at h1; subst h1
          simp only
          rw [hsame, hnone]; rfl
      · intro p hp
        rcases List.mem_append.mp hp with h1 | h1
        · rw [hother p.1 (hne p h1)]; exact inv.nonempty p h1
        · simp only [List.mem_singleton] at h1; subst h1
          simp only
          rw [hsame]; simp
      · intro p hp
        rcases List.mem_append.mp hp with h1 | h1
        · rw [hother p.1 (hne p h1)]; exact inv.image p h1
        · simp only [List.mem_singleton] at h1; subst h1
          simp only
          rw [hsame, hnone]; rfl
      · intro c' hc' k hk
        rw [List.map_append]
        rcases List.mem_append.mp hc' with h1 | h1
        · exact List.mem_append_left _ (inv.complete c' h1 k hk)
        · simp only [List.mem_singleton] at h1
          subst h1; rw [hg] at hk; cases hk
          simp

theorem groupMapInv_loop {cs : List Container} :
    ∀ {pre : List Container} {m m' : List (String × Group)},
      GroupMapInv pre m → listLoop cs m = some m' → GroupMapInv (pre ++ cs) m' := by
  induction cs with
  | nil =>
    intro pre m m' inv h
    simp only [listLoop] at h
    cases h
    simpa using inv
  | cons c rest ih =>
    intro pre m m' inv h
    simp only [listLoop] at h
    cases hs : listStep m c with
    | none => rw [hs] at h; cases h
    | some m1 =>
      rw [hs] at h
      have := ih (groupMapInv_step inv c hs) h
      simpa using this

theorem listLoop_total {cs : List Container} (hn : Named cs) :
    ∀ m, ∃ m', listLoop cs m = some m' := by
  induction cs with
  | nil => intro m; exact ⟨m, rfl⟩
  | cons c rest ih =>
    intro m
    have hrest : Named rest := fun c' hc' => hn c' (List.mem_cons_of_mem _ hc')
    simp only [listLoop]
    cases hg : groupLabel c with
    | none =>
      rw [listStep_unlabelled m c hg]
      exact ih hrest m
    | some g =>
      have hne := hn c (List.mem_cons_self _ _) (by rw [hg]; simp)
      rw [listStep_labelled m c g hg hne]
      exact ih hrest _

theorem listLoop_crash {cs : List Container} {c : Container} (hc : c ∈ cs)
    (hl : groupLabel c ≠ none) (hn : c.Names = []) :
    ∀ m, listLoop cs m = none := by
  induction cs with
  | nil => cases hc
  | cons c' rest ih =>
    intro m
    simp only [listLoop]
    cases hs : listStep m c' with
    | none => rfl
    | some m1 =>
      simp only
      rcases List.mem_cons.mp hc with h1 | h1
      · subst h1
        cases hg : groupLabel c with
        | none => exact absurd hg hl
        | some g => rw [listStep_unnamed m c g hg hn] at hs; cases hs
      · exact ih h1 m1

theorem isGroupBy_of_inv {cs : List Container} {m r : List (String × Group)}
    (inv : GroupMapInv cs m) (hp : r.Perm m) : IsGroupBy cs (r.map Prod.snd) := by
  have hmem : ∀ p, p ∈ r ↔ p ∈ m := fun p => hp.mem_iff
  have hnames : (r.map Prod.snd).map Group.Name = r.map Prod.fst := by
    rw [List.map_map]
    apply List.map_congr_left
    intro p hpr
    exact inv.name p ((hmem p).mp hpr)
  refine ⟨?_, ?_, ?_, ?_, ?_⟩
  · rw [hnames]
    exact (hp.map Prod.fst).nodup_iff.mpr inv.nodup
  · intro g hg
    obtain ⟨p, hpr, rfl⟩ := List.mem_map.mp hg
    have hpm := (hmem p).mp hpr
    rw [inv.name p hpm]; exact inv.shards p hpm
  · intro g hg
    obtain ⟨p, hpr, rfl⟩ := List.mem_map.mp hg
    have hpm := (hmem p).mp hpr
    rw [inv.shards p hpm]
    intro h
    exact inv.nonempty p hpm (List.map_eq_nil_iff.mp h)
  · intro g hg
    obtain ⟨p, hpr, rfl⟩ := List.mem_map.mp hg
    have hpm := (hmem p).mp hpr
    rw [inv.name p hpm]; exact inv.image p hpm
  · intro c hc k hk
    obtain ⟨p, hpm, hpk⟩ := List.mem_map.mp (inv.complete c hc k hk)
    refine ⟨p.2, List.mem_map.mpr ⟨p, (hmem p).mpr hpm, rfl⟩, ?_⟩
    rw [inv.name p hpm]; exact hpk

/-- What `List` does, by the reply of the runtime and the names in the snapshot. -/
theorem List_eq (d : docker σ) (w : World σ) :
    d.List w =
      match (d.client.ContainerList true w.st).1 with
      | Reply.fail err =>
        (Outcome.err err, ⟨(d.client.ContainerList true w.st).2,
          w.log ++ [Event.ContainerList true (d.client.ContainerList true w.st).1]⟩)
      | Reply.ok cs =>
        match listLoop cs [] with
        | none => (Outcome.crash, ⟨(d.client.ContainerList true w.st).2,
            w.log ++ [Event.ContainerList true (d.client.ContainerList true w.st).1]⟩)
        | some m => (Outcome.ok ((d.range m).map Prod.snd),
            ⟨(d.client.ContainerList true w.st).2,
              w.log ++ [Event.ContainerList true (d.client.ContainerList true w.st).1]⟩) := by
  unfold docker.List docker.ContainerList
  cases h : (d.client.ContainerList true w.st).1 with
  | fail err => rfl
  | ok cs => simp only

/-- A successful `List` made one listing call, which succeeded, and answers
the group-by of the snapshot it got. -/
theorem List_ok_inv (d : docker σ) (w w1 : World σ) (gs : List Group)
    (h : d.List w = (Outcome.ok gs, w1)) :
    ∃ cs, (d.client.ContainerList true w.st).1 = Reply.ok cs ∧
      w1 = ⟨(d.client.ContainerList true w.st).2,
            w.log ++ [Event.ContainerList true (Reply.ok cs)]⟩ ∧
      IsGroupBy cs gs := by
  rw [List_eq] at h
  cases hr : (d.client.ContainerList true w.st).1 with
  | fail err => rw [hr] at h; simp at h
  | ok cs =>
    rw [hr] at h
    simp only at h
    cases hl : listLoop cs [] with
    | none => rw [hl] at h; simp at h
    | some m =>
      rw [hl] at h
      simp only [Prod.mk.injEq, Outcome.ok.injEq] at h
      refine ⟨cs, rfl, h.2.symm, ?_⟩
      rw [← h.1]
      have inv := groupMapInv_loop groupMapInv_nil hl
      simp only [List.nil_append] at inv
      exact isGroupBy_of_inv inv (d.range_perm m)

/-- On a snapshot whose labelled units all have a name, `List` returns, and
what it returns is the group-by of the snapshot. -/
theorem List_groupBy (d : docker σ) (w : World σ) (cs : List Container)
    (hr : (d.client.ContainerList true w.st).1 = Reply.ok cs) (hn : Named cs) :
    ∃ gs, d.List w = (Outcome.ok gs, ⟨(d.client.ContainerList true w.st).2,
        w.log ++ [Event.ContainerList true (Reply.ok cs)]⟩) ∧ IsGroupBy cs gs := by
  obtain ⟨m, hm⟩ := listLoop_total hn []
  refine ⟨(d.range m).map Prod.snd, ?_, ?_⟩
  · rw [List_eq, hr]; simp only [hm]
  · have inv := groupMapInv_loop groupMapInv_nil hm
    simp only [List.nil_append] at inv
    exact isGroupBy_of_inv inv (d.range_perm m)

theorem stop_run (d : docker σ) (id : String) (opts : StopOptions) (w : World σ) :
    ∃ tr, (d.stop id opts w).2.log = w.log ++ tr ∧
      ShardStop opts.Purge id tr (d.stop id opts w).1 ∧
      (InspectEchoes d.client → ∀ e ∈ tr, e.target = some id) ∧
      (∀ e ∈ tr, e.isStop = true → ∃ r, Event.ContainerInspect id (Reply.ok r) ∈ tr ∧
          r.State.Running = true ∧ ∃ res, e = Event.ContainerStop r.ID 30 res) := by
  unfold docker.stop docker.ContainerInspect
  cases hi : (d.client.ContainerInspect id w.st).1 with
  | fail e =>
    refine ⟨[Event.ContainerInspect id (Reply.fail e)], rfl, ShardStop.inspectFailed e, ?_, ?_⟩
    · intro _ ev hev
      simp only [List.mem_singleton] at hev
      subst hev; rfl
    · intro ev hev hs
      simp only [List.mem_singleton] at hev
      subst hev; cases hs
  | ok r =>
    have hecho : InspectEchoes d.client → r.ID = id := fun h => h id w.st r hi
    simp only
    cases hrun : r.State.Running with
    | false =>
      simp only [Bool.false_eq_true, if_false]
      cases hp : opts.Purge with
      | false =>
        refine ⟨[Event.ContainerInspect id (Reply.ok r)], rfl, ?_, ?_, ?_⟩
        · have := @ShardStop.kept false id r rfl
          simpa [hrun] using this
        · intro _ ev hev
          simp only [List.mem_singleton] at hev
          subst hev; rfl
        · intro ev hev hs
          simp only [List.mem_singleton] at hev
          subst hev; cases hs
      | true =>
        simp only [Bool.not_true, Bool.false_eq_true, if_false]
        unfold docker.ContainerRemove
        refine ⟨[Event.ContainerInspect id (Reply.ok r),
          Event.ContainerRemove r.ID true
            (d.client.ContainerRemove r.ID true (d.client.ContainerInspect id w.st).2).1],
          by simp, ?_, ?_, ?_⟩
        · have := @ShardStop.removed true id r
            (d.client.ContainerRemove r.ID true (d.client.ContainerInspect id w.st).2).1 rfl
          simpa [hrun] using this
        · intro he ev hev
          simp only [List.mem_cons, List.mem_singleton, List.not_mem_nil, or_false] at hev
          rcases hev with rfl | rfl
          · rfl
          · simp [Event.target, hecho he]
        · intro ev hev hs
          simp only [List.mem_cons, List.mem_singleton, List.not_mem_nil, or_false] at hev
          rcases hev with rfl | rfl <;> cases hs
    | true =>
      simp only [if_true]
      unfold docker.ContainerStop
      cases hst : (d.client.ContainerStop r.ID 30 (d.client.ContainerInspect id w.st).2).1 with
      | some e =>
        refine ⟨[Event.ContainerInspect id (Reply.ok r), Event.ContainerStop r.ID 30 (some e)],
          by simp [hst], ?_, ?_, ?_⟩
        · simp only [hst]
          exact ShardStop.stopFailed r e hrun
        · intro he ev hev
          simp only [List.mem_cons, List.mem_singleton, List.not_mem_nil, or_false] at hev
          rcases hev with rfl | rfl
          · rfl
          · simp [Event.target, hecho he]
        · intro ev hev hs
          simp only [List.mem_cons, List.mem_singleton, List.not_mem_nil, or_false] at hev
          rcases hev with rfl | rfl
          · cases hs
          · exact ⟨r, by simp, hrun, some e, rfl⟩
      | none =>
        simp only [hst]
        cases hp : opts.Purge with
        | false =>
          refine ⟨[Event.ContainerInspect id (Reply.ok r), Event.ContainerStop r.ID 30 none],
            by simp [hst], ?_, ?_, ?_⟩
          · have := @ShardStop.kept false id r rfl
            simpa [hrun] using this
          · intro he ev hev
            simp only [List.mem_cons, List.mem_singleton, List.not_mem_nil, or_false] at hev
            rcases hev with rfl | rfl
            · rfl
            · simp [Event.target, hecho he]
          · intro ev hev hs
            simp only [List.mem_cons, List.mem_singleton, List.not_mem_nil, or_false] at hev
            rcases hev with rfl | rfl
            · cases hs
            · exact ⟨r, by simp, hrun, none, rfl⟩
        | true =>
          simp only [Bool.not_true, Bool.false_eq_true, if_false]
          unfold docker.ContainerRemove
          refine ⟨[Event.ContainerInspect id (Reply.ok r), Event.ContainerStop r.ID 30 none,
            Event.ContainerRemove r.ID true
              (d.client.ContainerRemove r.ID true
                (d.client.ContainerStop r.ID 30 (d.client.ContainerInspect id w.st).2).2).1],
            by simp [hst], ?_, ?_, ?_⟩
          · have := @ShardStop.removed true id r
              (d.client.ContainerRemove r.ID true
                (d.client.ContainerStop r.ID 30 (d.client.ContainerInspect id w.st).2).2).1 rfl
            simpa [hrun] using this
          · intro he ev hev
            simp only [List.mem_cons, List.mem_singleton, List.not_mem_nil, or_false] at hev
            rcases hev with rfl | rfl | rfl
            · rfl
            · simp [Event.target, hecho he]
            · simp [Event.target, hecho he]
          · intro ev hev hs
            simp only [List.mem_cons, List.mem_singleton, List.not_mem_nil, or_false] at hev
            rcases hev with rfl | rfl | rfl
            · cases hs
            · exact ⟨r, by simp, hrun, none, rfl⟩
            · cases hs

/-! ## Sequences of calls that end at their first failure -/

theorem endsAtFirstFailure_nil : EndsAtFirstFailure [] none := by
  simp [EndsAtFirstFailure]

theorem endsAtFirstFailure_append {tr tr' : List Event} {ret : Option Error}
    (h : ∀ e ∈ tr, e.failure = none) (h' : EndsAtFirstFailure tr' ret) :
    EndsAtFirstFailure (tr ++ tr') ret := by
  rcases List.eq_nil_or_concat tr' with rfl | ⟨l, b, rfl⟩
  · obtain ⟨_, h2⟩ := h'
    simp only [List.getLast?_nil, Option.bind] at h2
    subst h2
    refine ⟨?_, ?_⟩
    · intro e he
      rw [List.append_nil] at he
      exact h e (List.mem_of_mem_dropLast he)
    · rw [List.append_nil]
      rcases List.eq_nil_or_concat tr with rfl | ⟨l, b, rfl⟩
      · rfl
      · simp only [List.concat_eq_append, List.getLast?_append, List.getLast?_singleton]
        simp only [List.concat_eq_append] at h
        simpa using (h b (by simp)).symm
  · obtain ⟨h1, h2⟩ := h'
    simp only [List.concat_eq_append] at h1 h2 ⊢
    rw [← List.append_assoc]
    unfold EndsAtFirstFailure
    simp only [List.dropLast_concat, List.getLast?_append, List.getLast?_singleton] at h1 h2 ⊢
    refine ⟨?_, by simpa using h2⟩
    intro e he
    rcases List.mem_append.mp he with he | he
    · exact h e he
    · exact h1 e he

theorem shardStop_endsAtFirstFailure {purge : Bool} {id : String} {tr : List Event}
    {ret : Option Error} (h : ShardStop purge id tr ret) : EndsAtFirstFailure tr ret := by
  cases h with
  | inspectFailed e => simp [EndsAtFirstFailure, Event.failure]
  | stopFailed r e hr => simp [EndsAtFirstFailure, Event.failure]
  | kept r hp =>
    cases hrun : r.State.Running <;> simp [EndsAtFirstFailure, Event.failure]
  | removed r res hp =>
    cases hrun : r.State.Running <;> simp [EndsAtFirstFailure, Event.failure]

theorem shardStop_success {purge : Bool} {id : String} {tr : List Event}
    (h : ShardStop purge id tr none) : ∀ e ∈ tr, e.failure = none := by
  generalize hret : (none : Option Error) = ret at h
  cases h with
  | inspectFailed e => cases hret
  | stopFailed r e hr => cases hret
  | kept r hp =>
    cases hrun : r.State.Running <;> simp [Event.failure]
  | removed r res hp =>
    subst hret
    cases hrun : r.State.Running <;> simp [Event.failure]

theorem stopRun_endsAtFirstFailure {purge : Bool} {shs : List Shard} {tr : List Event}
    {ret : Option Error} (h : StopRun purge shs tr ret) : EndsAtFirstFailure tr ret := by
  induction h with
  | done => exact endsAtFirstFailure_nil
  | abort sh rest tr e h => exact shardStop_endsAtFirstFailure h
  | next sh rest tr tr' ret h _ ih => exact endsAtFirstFailure_append (shardStop_success h) ih

theorem shardStop_no_remove {id : String} {tr : List Event} {ret : Option Error}
    (h : ShardStop false id tr ret) : ∀ e ∈ tr, e.isRemove = false := by
  cases h with
  | inspectFailed e => simp [Event.isRemove]
  | stopFailed r e hr => simp [Event.isRemove]
  | kept r hp => cases hrun : r.State.Running <;> simp [Event.isRemove]
  | removed r res hp => cases hp

theorem stopRun_no_remove {shs : List Shard} {tr : List Event} {ret : Option Error}
    (h : StopRun false shs tr ret) : ∀ e ∈ tr, e.isRemove = false := by
  generalize hp : false = purge at h
  induction h with
  | done => simp
  | abort sh rest tr e h => subst hp; exact shardStop_no_remove h
  | next sh rest tr tr' ret h _ ih =>
    subst hp
    intro e he
    rcases List.mem_append.mp he with he | he
    · exact shardStop_no_remove h e he
    · exact ih e he

theorem stopShards_run (d : docker σ) (opts : StopOptions) :
    ∀ (shs : List Shard) (w : World σ), ∃ tr ret,
      (d.stopShards opts shs w).1 = Outcome.ofError ret ∧
      (d.stopShards opts shs w).2.log = w.log ++ tr ∧
      StopRun opts.Purge shs tr ret ∧
      (InspectEchoes d.client → ∀ e ∈ tr, ∃ sh ∈ shs, e.target = some sh.ID) ∧
      (∀ e ∈ tr, e.isStop = true → ∃ sh ∈ shs, ∃ r,
          Event.ContainerInspect sh.ID (Reply.ok r) ∈ tr ∧
          r.State.Running = true ∧ ∃ res, e = Event.ContainerStop r.ID 30 res) := by
  intro shs
  induction shs with
  | nil =>
    intro w
    exact ⟨[], none, rfl, by simp [docker.stopShards], StopRun.done, by simp, by simp⟩
  | cons sh rest ih =>
    intro w
    obtain ⟨tr, hlog, hblock, hecho, hstop⟩ := stop_run d sh.ID opts w
    simp only [docker.stopShards]
    cases hres : d.stop sh.ID opts w with
    | mk res w1 =>
      rw [hres] at hlog hblock
      simp only at hlog hblock
      cases res with
      | some err =>
        refine ⟨tr, some err, rfl, hlog, StopRun.abort sh rest tr err hblock, ?_, ?_⟩
        · intro he e hmem
          exact ⟨sh, List.mem_cons_self _ _, hecho he e hmem⟩
        · intro e hmem hs
          obtain ⟨r, h1, h2, h3⟩ := hstop e hmem hs
          exact ⟨sh, List.mem_cons_self _ _, r, h1, h2, h3⟩
      | none =>
        obtain ⟨tr', ret, h1, h2, h3, h4, h5⟩ := ih w1
        refine ⟨tr ++ tr', ret, h1, ?_, StopRun.next sh rest tr tr' ret hblock h3, ?_, ?_⟩
        · rw [h2, hlog, List.append_assoc]
        · intro he e hmem
          rcases List.mem_append.mp hmem with hm | hm
          · exact ⟨sh, List.mem_cons_self _ _, hecho he e hm⟩
          · obtain ⟨sh', hsh', ht⟩ := h4 he e hm
            exact ⟨sh', List.mem_cons_of_mem _ hsh', ht⟩
        · intro e hmem hs
          rcases List.mem_append.mp hmem with hm | hm
          · obtain ⟨r, h1, h2, h3⟩ := hstop e hm hs
            exact ⟨sh, List.mem_cons_self _ _, r, List.mem_append_left _ h1, h2, h3⟩
          · obtain ⟨sh', hsh', r, h1, h2, h3⟩ := h5 e hm hs
            exact ⟨sh', List.mem_cons_of_mem _ hsh', r, List.mem_append_right _ h1, h2, h3⟩

/-! ## `Stop`: locating the group -/

theorem Stop_eq (d : docker σ) (group : String) (opts : StopOptions) (w w1 : World σ)
    (gs : List Group) (hl : d.List w = (Outcome.ok gs, w1)) :
    d.Stop group opts w =
      if gs.findIdx (fun g => g.Name == group) ≥ gs.length then
        (Outcome.err errGroupDoesNotExist, w1)
      else
        d.stopShards opts
          (gs.getD (gs.findIdx (fun g => g.Name == group))
            { Name := "", Image := "", Shards := [] }).Shards w1 := by
  unfold docker.Stop
  rw [hl]

theorem findIdx_absent (gs : List Group) (group : String) (h : ∀ g ∈ gs, g.Name ≠ group) :
    gs.findIdx (fun g => g.Name == group) = gs.length := by
  apply List.findIdx_eq_length_of_false
  intro g hg
  simpa using h g hg

theorem findIdx_present (gs : List Group) (group : String) (gr : Group)
    (hnd : (gs.map Group.Name).Nodup) (hgr : gr ∈ gs) (hname : gr.Name = group) :
    gs.findIdx (fun g => g.Name == group) < gs.length ∧
    gs.getD (gs.findIdx (fun g => g.Name == group)) { Name := "", Image := "", Shards := [] }
      = gr := by
  have hlt : gs.findIdx (fun g => g.Name == group) < gs.length :=
    List.findIdx_lt_length_of_exists ⟨gr, hgr, by simpa using hname⟩
  refine ⟨hlt, ?_⟩
  have hp := List.findIdx_getElem (p := fun (g : Group) => g.Name == group) (w := hlt)
  rw [List.getD_eq_getElem _ _ hlt]
  have hmem : gs[gs.findIdx (fun g => g.Name == group)] ∈ gs := List.getElem_mem hlt
  apply List.inj_on_of_nodup_map hnd hmem hgr
  rw [hname]
  simpa using hp

/-! ## `Stop`: the claims on its calls -/

/-- C2: when `List` returns and no group it returns is named `group`, `Stop`
returns `errGroupDoesNotExist` whatever the options (purging or not), and the
world it leaves is the world `List` left: the log holds the listing call and
nothing more (no inspect, stop or remove call), and the runtime is in the
state the listing call left it in. -/
theorem Stop_absent_group (d : docker σ) (group : String) (opts : StopOptions)
    (w w1 : World σ) (gs : List Group)
    (hl : d.List w = (Outcome.ok gs, w1)) (hg : ∀ g ∈ gs, g.Name ≠ group) :
    d.Stop group opts w = (Outcome.err errGroupDoesNotExist, w1) ∧
    (d.Stop group opts w).2.log =
      w.log ++ [Event.ContainerList true (d.client.ContainerList true w.st).1] ∧
    (d.Stop group opts w).2.st = (d.client.ContainerList true w.st).2 := by
  have hs : d.Stop group opts w = (Outcome.err errGroupDoesNotExist, w1) := by
    rw [Stop_eq d group opts w w1 gs hl, findIdx_absent gs group hg]
    simp
  obtain ⟨cs, hcs, hw1, _⟩ := List_ok_inv d w w1 gs hl
  refine ⟨hs, ?_, ?_⟩
  · rw [hs, hw1, hcs]
  · rw [hs, hw1]

/-- The calls of `Stop` where its listing returns: when `List` returns and
`gr` is the group named `group` in its result,
the calls of `Stop` after the listing are exactly those the specification
prescribes for the shards of `gr` in listing order (inspect; stop with a grace
period of 30 seconds if the inspected state is running; remove with volume
removal if purging), ending at the first call that fails, whose error `Stop`
returns; without purge no removal is made; every stop call follows an
inspection that reported a running unit; and, the runtime answering an
inspection with the unit asked for, every call acts on a unit of the snapshot
labelled with `group`. -/
theorem Stop_calls (d : docker σ) (group : String) (opts : StopOptions)
    (w w1 : World σ) (gs : List Group) (gr : Group)
    (hl : d.List w = (Outcome.ok gs, w1)) (hgr : gr ∈ gs) (hname : gr.Name = group) :
    ∃ tr ret,
      (d.Stop group opts w).1 = Outcome.ofError ret ∧
      (d.Stop group opts w).2.log = w1.log ++ tr ∧
      StopRun opts.Purge gr.Shards tr ret ∧
      EndsAtFirstFailure tr ret ∧
      (opts.Purge = false → ∀ e ∈ tr, e.isRemove = false) ∧
      (∀ e ∈ tr, e.isStop = true → ∃ sh ∈ gr.Shards, ∃ r,
          Event.ContainerInspect sh.ID (Reply.ok r) ∈ tr ∧
          r.State.Running = true ∧ ∃ res, e = Event.ContainerStop r.ID 30 res) ∧
      (InspectEchoes d.client → ∀ e ∈ tr, ∃ cs c,
          (d.client.ContainerList true w.st).1 = Reply.ok cs ∧ c ∈ cs ∧
          groupLabel c = some group ∧ e.target = some c.ID) := by
  obtain ⟨cs, hcs, _, hgb⟩ := List_ok_inv d w w1 gs hl
  obtain ⟨hlt, hget⟩ := findIdx_present gs group gr hgb.nodup hgr hname
  have hs : d.Stop group opts w = d.stopShards opts gr.Shards w1 := by
    rw [Stop_eq d group opts w w1 gs hl, if_neg (Nat.not_le.mpr hlt), hget]
  obtain ⟨tr, ret, h1, h2, h3, h4, h5⟩ := stopShards_run d opts gr.Shards w1
  refine ⟨tr, ret, by rw [hs]; exact h1, by rw [hs]; exact h2, h3, stopRun_endsAtFirstFailure h3,
    ?_, h5, ?_⟩
  · intro hp
    rw [hp] at h3
    exact stopRun_no_remove h3
  · intro he e hmem
    obtain ⟨sh, hsh, ht⟩ := h4 he e hmem
    rw [hgb.shards gr hgr] at hsh
    obtain ⟨c, hc, rfl⟩ := List.mem_map.mp hsh
    have hc' := List.mem_filter.mp hc
    refine ⟨cs, c, hcs, hc'.1, ?_, ht⟩
    rw [← hname]
    simpa using hc'.2

/-! ## `Exec`: labels and the calls of one Layout entry -/

theorem lookup_map_set (m : Labels) (k v k' : String) :
    List.lookup k' (m.map (fun p => if p.1 = k then (p.1, v) else p)) =
      if k' = k then (List.lookup k m).map (fun _ => v) else List.lookup k' m := by
  induction m with
  | nil => simp
  | cons p m ih =>
    obtain ⟨a, b⟩ := p
    by_cases ha : a = k
    · subst ha
      by_cases hka : k' = a
      · subst hka; simp [List.lookup_cons]
      · have h1 : (k' == a) = false := by simpa using hka
        have h2 : List.lookup k' ((a, v) :: List.map (fun p => if p.1 = a then (p.1, v) else p) m)
            = List.lookup k' (List.map (fun p => if p.1 = a then (p.1, v) else p) m) := by
          rw [List.lookup_cons, h1]
        have h3 : List.lookup k' ((a, b) :: m) = List.lookup k' m := by
          rw [List.lookup_cons, h1]
        simp only [List.map_cons, if_true, h2, ih, hka, if_false, h3]
    · have hmap : List.map (fun p => if p.1 = k then (p.1, v) else p) ((a, b) :: m)
          = (a, b) :: List.map (fun p => if p.1 = k then (p.1, v) else p) m := by
        simp [ha]
      rw [hmap]
      have hk1 : (k == a) = false := by simpa using fun h => ha h.symm
      by_cases hka : k' = a
      · subst hka
        have hne : ¬ k' = k := ha
        simp [List.lookup_cons, hne]
      · have h1 : (k' == a) = false := by simpa using hka
        rw [List.lookup_cons, h1, ih]
        by_cases hk : k' = k
        · subst hk; simp [List.lookup_cons, h1]
        · simp [hk, List.lookup_cons, h1]

theorem lookup_append_single (m : Labels) (k v k' : String) :
    List.lookup k' (m ++ [(k, v)]) =
      match List.lookup k' m with
      | some x => some x
      | none => if k' = k then some v else none := by
  induction m with
  | nil =>
    by_cases hk : k' = k
    · subst hk; simp [List.lookup_cons]
    · have h1 : (k' == k) = false := by simpa using hk
      simp [List.lookup_cons, h1, hk]
  | cons p m ih =>
    obtain ⟨a, b⟩ := p
    by_cases hka : k' = a
    · subst hka; simp [List.lookup_cons]
    · have h1 : (k' == a) = false := by simpa using hka
      simp only [List.cons_append, List.lookup_cons, h1]
      exact ih

theorem lookup_set_same (m : Labels) (k v : String) :
    List.lookup k (Labels.set m k v) = some v := by
  unfold Labels.set
  cases h : List.lookup k m with
  | none =>
    simp only [Option.isSome_none, Bool.false_eq_true, if_false]
    rw [lookup_append_single, h]; simp
  | some x =>
    simp only [Option.isSome_some, if_true]
    rw [lookup_map_set, h]; simp

theorem lookup_set_other (m : Labels) (k v k' : String) (hk : k' ≠ k) :
    List.lookup k' (Labels.set m k v) = List.lookup k' m := by
  unfold Labels.set
  cases h : List.lookup k m with
  | none =>
    simp only [Option.isSome_none, Bool.false_eq_true, if_false]
    rw [lookup_append_single]
    cases List.lookup k' m <;> simp [hk]
  | some x =>
    simp only [Option.isSome_some, if_true]
    rw [lookup_map_set]; simp [hk]

theorem exec_run (d : docker σ) (image group : String) (pm : PortMap) (shard : String)
    (c : Config) (h : HostConfig) (hc : IsShardCreate image group pm shard c h)
    (w : World σ) :
    ∃ tr, (d.exec c h w).2.log = w.log ++ tr ∧
      ShardExec image group pm shard tr (d.exec c h w).1 := by
  unfold docker.exec docker.ContainerCreate
  cases hr : (d.client.ContainerCreate c h w.st).1 with
  | fail e =>
    exact ⟨[Event.ContainerCreate c h (Reply.fail e)], rfl, ShardExec.createFailed c h e hc⟩
  | ok id =>
    simp only
    unfold docker.ContainerStart
    cases hs : (d.client.ContainerStart id (d.client.ContainerCreate c h w.st).2).1 with
    | some e =>
      refine ⟨[Event.ContainerCreate c h (Reply.ok id), Event.ContainerStart id (some e)],
        by simp [hs], ?_⟩
      simp only [hs]
      exact ShardExec.started c h id (some e) hc
    | none =>
      refine ⟨[Event.ContainerCreate c h (Reply.ok id), Event.ContainerStart id none],
        by simp [hs], ?_⟩
      simp only [hs]
      exact ShardExec.started c h id none hc

theorem execLayout_run (d : docker σ) (image group : String) (pm : PortMap) :
    ∀ (layout : List String) (c : Config) (labels : Labels) (w : World σ),
      c.Image = image → List.lookup "tesson.group" labels = some group →
      ∃ tr ret,
        (d.execLayout pm layout c labels w).1 = Outcome.ofError ret ∧
        (d.execLayout pm layout c labels w).2.log = w.log ++ tr ∧
        ExecRun image group pm layout tr ret := by
  intro layout
  induction layout with
  | nil =>
    intro c labels w _ _
    exact ⟨[], none, rfl, by simp [docker.execLayout], ExecRun.done⟩
  | cons shard rest ih =>
    intro c labels w himg hgrp
    have hc : IsShardCreate image group pm shard
        { c with Labels := some (labels.set "tesson.shard" shard) }
        { CpusetCpus := shard, PortBindings := pm } := by
      refine ⟨himg, ?_, ?_, rfl, rfl⟩
      · show List.lookup "tesson.group" (labels.set "tesson.shard" shard) = some group
        rw [lookup_set_other _ _ _ _ (by decide)]; exact hgrp
      · show List.lookup "tesson.shard" (labels.set "tesson.shard" shard) = some shard
        exact lookup_set_same _ _ _
    obtain ⟨tr, hlog, hblock⟩ := exec_run d image group pm shard _ _ hc w
    simp only [docker.execLayout]
    cases hres : d.exec { c with Labels := some (labels.set "tesson.shard" shard) }
        { CpusetCpus := shard, PortBindings := pm } w with
    | mk res w1 =>
      rw [hres] at hlog hblock
      simp only at hlog hblock
      cases res with
      | some err =>
        exact ⟨tr, some err, rfl, hlog, ExecRun.abort shard rest tr err hblock⟩
      | none =>
        obtain ⟨tr', ret, h1, h2, h3⟩ := ih c (labels.set "tesson.shard" shard) w1 himg
          (by rw [lookup_set_other _ _ _ _ (by decide)]; exact hgrp)
        refine ⟨tr ++ tr', ret, h1, ?_, ExecRun.next shard rest tr tr' ret hblock h3⟩
        rw [h2, hlog, List.append_assoc]

theorem shardExec_endsAtFirstFailure {image group : String} {pm : PortMap} {shard : String}
    {tr : List Event} {ret : Option Error} (h : ShardExec image group pm shard tr ret) :
    EndsAtFirstFailure tr ret := by
  cases h with
  | createFailed c h e hc => simp [EndsAtFirstFailure, Event.failure]
  | started c h id res hc => simp [EndsAtFirstFailure, Event.failure]

theorem shardExec_success {image group : String} {pm : PortMap} {shard : String}
    {tr : List Event} (h : ShardExec image group pm shard tr none) :
    ∀ e ∈ tr, e.failure = none := by
  generalize hret : (none : Option Error) = ret at h
  cases h with
  | createFailed c h e hc => cases hret
  | started c h id res hc => subst hret; simp [Event.failure]

theorem shardExec_shape {image group : String} {pm : PortMap} {shard : String}
    {tr : List Event} {ret : Option Error} (h : ShardExec image group pm shard tr ret) :
    (∀ e ∈ tr, (e.isCreate || e.isStart) = true) ∧
    (∀ c h r, Event.ContainerCreate c h r ∈ tr → IsShardCreate image group pm shard c h) ∧
    (tr.filter Event.isCreate).length = 1 ∧
    (tr.filter Event.isStart).length ≤ 1 ∧
    (ret = none → (tr.filter Event.isStart).length = 1) := by
  cases h with
  | createFailed c h e hc =>
    refine ⟨by simp [Event.isCreate], ?_, by simp [Event.isCreate], by simp [Event.isStart], ?_⟩
    · intro c' h' r hmem
      simp only [List.mem_singleton, Event.ContainerCreate.injEq] at hmem
      obtain ⟨rfl, rfl, _⟩ := hmem
      exact hc
    · intro hh; cases hh
  | started c h id res hc =>
    refine ⟨by simp [Event.isCreate, Event.isStart], ?_, by simp [Event.isCreate, Event.isStart],
      by simp [Event.isCreate, Event.isStart], by simp [Event.isCreate, Event.isStart]⟩
    intro c' h' r hmem
    simp only [List.mem_cons, List.mem_singleton, Event.ContainerCreate.injEq,
      List.not_mem_nil, or_false] at hmem
    rcases hmem with ⟨rfl, rfl, _⟩ | hmem
    · exact hc
    · cases hmem

theorem execRun_endsAtFirstFailure {image group : String} {pm : PortMap} {layout : List String}
    {tr : List Event} {ret : Option Error} (h : ExecRun image group pm layout tr ret) :
    EndsAtFirstFailure tr ret := by
  induction h with
  | done => exact endsAtFirstFailure_nil
  | abort shard rest tr e h => exact shardExec_endsAtFirstFailure h
  | next shard rest tr tr' ret h _ ih => exact endsAtFirstFailure_append (shardExec_success h) ih

theorem execRun_shape {image group : String} {pm : PortMap} {layout : List String}
    {tr : List Event} {ret : Option Error} (h : ExecRun image group pm layout tr ret) :
    (∀ e ∈ tr, (e.isCreate || e.isStart) = true) ∧
    (∀ c h r, Event.ContainerCreate c h r ∈ tr →
        ∃ shard ∈ layout, IsShardCreate image group pm shard c h) ∧
    (tr.filter Event.isCreate).length ≤ layout.length ∧
    (tr.filter Event.isStart).length ≤ layout.length ∧
    (ret = none → (tr.filter Event.isCreate).length = layout.length ∧
        (tr.filter Event.isStart).length = layout.length) := by
  induction h with
  | done => simp
  | abort shard rest tr e h =>
    obtain ⟨h1, h2, h3, h4, _⟩ := shardExec_shape h
    refine ⟨h1, ?_, ?_, ?_, ?_⟩
    · intro c h' r hmem
      exact ⟨shard, List.mem_cons_self _ _, h2 c h' r hmem⟩
    · simp only [List.length_cons]; omega
    · simp only [List.length_cons]; omega
    · intro hh; cases hh
  | next shard rest tr tr' ret h _ ih =>
    obtain ⟨h1, h2, h3, h4, h5⟩ := shardExec_shape h
    obtain ⟨i1, i2, i3, i4, i5⟩ := ih
    refine ⟨?_, ?_, ?_, ?_, ?_⟩
    · intro e he
      rcases List.mem_append.mp he with he | he
      · exact h1 e he
      · exact i1 e he
    · intro c h' r hmem
      rcases List.mem_append.mp hmem with hm | hm
      · exact ⟨shard, List.mem_cons_self _ _, h2 c h' r hm⟩
      · obtain ⟨s, hs, hc⟩ := i2 c h' r hm
        exact ⟨s, List.mem_cons_of_mem _ hs, hc⟩
    · simp only [List.filter_append, List.length_append, List.length_cons]; omega
    · simp only [List.filter_append, List.length_append, List.length_cons]; omega
    · intro hr
      have := h5 rfl
      obtain ⟨j1, j2⟩ := i5 hr
      simp only [List.filter_append, List.length_append, List.length_cons]
      omega

theorem event_kind_of_create_or_start (e : Event) (h : (e.isCreate || e.isStart) = true) :
    e.isStop = false ∧ e.isRemove = false ∧ e.isParse = false ∧ e.isRuntime = true := by
  cases e <;> simp [Event.isCreate, Event.isStart, Event.isStop, Event.isRemove,
    Event.isParse, Event.isRuntime] at h ⊢

theorem filter_isParse_eq_nil {tr : List Event}
    (h : ∀ e ∈ tr, (e.isCreate || e.isStart) = true) : tr.filter Event.isParse = [] := by
  rw [List.filter_eq_nil_iff]
  intro e he
  rw [(event_kind_of_create_or_start e (h e he)).2.2.1]
  simp

/-! ## `Exec`: the claims on its calls -/

theorem loadConfig_noConfig (d : docker σ) (opts : ExecOptions) (w : World σ)
    (hc : opts.Config = "") :
    d.loadConfig opts w = (Reply.ok { Image := "", Labels := some [], Rest := [] }, w) := by
  unfold docker.loadConfig
  rw [hc]
  simp

/-- C4: without a configuration file and with port specifications that parse
to the map `pm`, the runtime calls of `Exec` (they follow the parse in the
log) are exactly those the specification prescribes for the Layout, entry
after entry: a creation with the requested image, the group label, the entry
as shard label and cpuset and `pm` as port bindings, then the start of the
unit just created.  They end at the first call that fails, whose error `Exec`
returns; none of them is a stop or a removal; and when `Exec` returns success
there are as many creations, and as many starts, as Layout entries. -/
theorem Exec_calls (d : docker σ) (group : String) (opts : ExecOptions) (w : World σ)
    (ps : PortSet) (pm : PortMap)
    (hc : opts.Config = "") (hp : d.env.ParsePortSpecs opts.Ports = Reply.ok (ps, pm)) :
    ∃ tr ret,
      (d.Exec group opts w).1 = Outcome.ofError ret ∧
      (d.Exec group opts w).2.log =
        w.log ++ Event.ParsePortSpecs opts.Ports (Reply.ok (ps, pm)) :: tr ∧
      ExecRun opts.Image group pm opts.Layout tr ret ∧
      EndsAtFirstFailure tr ret ∧
      (∀ e ∈ tr, (e.isCreate || e.isStart) = true ∧ e.isStop = false ∧ e.isRemove = false) ∧
      (ret = none → (tr.filter Event.isCreate).length = opts.Layout.length ∧
        (tr.filter Event.isStart).length = opts.Layout.length) := by
  obtain ⟨tr, ret, h1, h2, h3⟩ := execLayout_run d opts.Image group pm opts.Layout
    { Image := opts.Image, Labels := some [], Rest := [] }
    (Labels.set [] "tesson.group" group)
    (w.record (Event.ParsePortSpecs opts.Ports (Reply.ok (ps, pm)))) rfl
    (lookup_set_same _ _ _)
  have he : d.Exec group opts w =
      d.execLayout pm opts.Layout { Image := opts.Image, Labels := some [], Rest := [] }
        (Labels.set [] "tesson.group" group)
        (w.record (Event.ParsePortSpecs opts.Ports (Reply.ok (ps, pm)))) := by
    unfold docker.Exec
    rw [loadConfig_noConfig d opts w hc]
    simp only [hp]
  obtain ⟨s1, _, _, _, s5⟩ := execRun_shape h3
  refine ⟨tr, ret, by rw [he]; exact h1, ?_, h3, execRun_endsAtFirstFailure h3, ?_, s5⟩
  · rw [he, h2]
    simp [World.record]
  · intro e hmem
    have := event_kind_of_create_or_start e (s1 e hmem)
    exact ⟨s1 e hmem, this.1, this.2.1⟩

theorem loadConfig_log (d : docker σ) (opts : ExecOptions) (w : World σ) :
    ∃ cfg, (d.loadConfig opts w).2 = ⟨w.st, w.log ++ cfg⟩ ∧
      (∀ e ∈ cfg, e.isRuntime = false ∧ e.isParse = false ∧ e.isCreate = false) := by
  unfold docker.loadConfig
  by_cases hc : opts.Config.length ≠ 0
  · rw [if_pos hc]
    cases ho : d.env.Open opts.Config with
    | fail err =>
      exact ⟨[Event.Open opts.Config (Reply.fail err)], rfl,
        by simp [Event.isRuntime, Event.isParse, Event.isCreate]⟩
    | ok f =>
      refine ⟨[Event.Open opts.Config (Reply.ok f),
        Event.Decode f (d.env.Decode f { Image := "", Labels := some [], Rest := [] })], ?_, ?_⟩
      · simp [World.record]
      · simp [Event.isRuntime, Event.isParse, Event.isCreate]
  · rw [if_neg hc]
    exact ⟨[], by simp, by simp⟩

theorem Exec_cases (d : docker σ) (group : String) (opts : ExecOptions) (w : World σ) :
    ∃ cfg, (d.loadConfig opts w).2 = ⟨w.st, w.log ++ cfg⟩ ∧
      (∀ e ∈ cfg, e.isRuntime = false ∧ e.isParse = false ∧ e.isCreate = false) ∧
      match (d.loadConfig opts w).1 with
      | Reply.fail err => d.Exec group opts w = (Outcome.err err, ⟨w.st, w.log ++ cfg⟩)
      | Reply.ok c =>
        match c.Labels with
        | none => d.Exec group opts w = (Outcome.crash, ⟨w.st, w.log ++ cfg⟩)
        | some _ =>
          match d.env.ParsePortSpecs opts.Ports with
          | Reply.fail err =>
            d.Exec group opts w = (Outcome.err err,
              ⟨w.st, w.log ++ cfg ++ [Event.ParsePortSpecs opts.Ports (Reply.fail err)]⟩)
          | Reply.ok (ps, pm) =>
            ∃ tr ret, (d.Exec group opts w).1 = Outcome.ofError ret ∧
              (d.Exec group opts w).2.log =
                w.log ++ cfg ++ Event.ParsePortSpecs opts.Ports (Reply.ok (ps, pm)) :: tr ∧
              ExecRun opts.Image group pm opts.Layout tr ret := by
  obtain ⟨cfg, hcfg, hev⟩ := loadConfig_log d opts w
  refine ⟨cfg, hcfg, hev, ?_⟩
  unfold docker.Exec
  cases hl : d.loadConfig opts w with
  | mk r w1 =>
    rw [hl] at hcfg
    simp only at hcfg
    subst hcfg
    cases r with
    | fail err => rfl
    | ok c =>
      simp only
      cases hlab : c.Labels with
      | none => rfl
      | some labels =>
        simp only
        cases hp : d.env.ParsePortSpecs opts.Ports with
        | fail err => simp [World.record]
        | ok pspm =>
          obtain ⟨ps, pm⟩ := pspm
          simp only
          obtain ⟨tr, ret, h1, h2, h3⟩ := execLayout_run d opts.Image group pm opts.Layout
            { Image := opts.Image, Labels := some labels, Rest := c.Rest }
            (Labels.set labels "tesson.group" group)
            (World.record ⟨w.st, w.log ++ cfg⟩
              (Event.ParsePortSpecs opts.Ports (Reply.ok (ps, pm)))) rfl
            (lookup_set_same _ _ _)
          refine ⟨tr, ret, h1, ?_, h3⟩
          rw [h2]
          simp [World.record]

/-- C7 (as stated, refuted): a call of `Exec` whose configuration file cannot
be opened returns the error of the open and parses the port specifications
zero times, not once. -/
theorem Exec_config_failure_parses_nothing :
    (refDocker.Exec "web"
        { Image := "nginx", Layout := ["0", "1"], Ports := ["80"], Config := "missing.json" }
        emptyWorld).1
      = Outcome.err (Error.external "open missing.json: no such file") ∧
    ((refDocker.Exec "web"
        { Image := "nginx", Layout := ["0", "1"], Ports := ["80"], Config := "missing.json" }
        emptyWorld).2.log.filter Event.isParse).length = 0 ∧
    ¬ ((refDocker.Exec "web"
        { Image := "nginx", Layout := ["0", "1"], Ports := ["80"], Config := "missing.json" }
        emptyWorld).2.log.filter Event.isParse).length = 1 := by
  decide

/-- C7 (amended): validation comes before any runtime call.  If the
configuration file cannot be opened, or cannot be decoded, `Exec` returns that
error, leaves the runtime untouched, calls neither the runtime nor the port
parser; if the configuration stage leaves a label map in place (no file, or a
file opened and decoded whose label map is not null) and the port
specifications cannot be parsed, `Exec` returns that error after exactly one
parse, without any runtime call, however long the Layout.  In every call the
ports are parsed at most once, exactly once when the configuration stage
leaves a label map in place, and every creation carries the port map of that
one parse.  (Nothing is said here of a file that decodes to a null label map,
beyond the bound of one parse.) -/
theorem Exec_validates_first (d : docker σ) (group : String) (opts : ExecOptions)
    (w : World σ) :
    ∃ tr, (d.Exec group opts w).2.log = w.log ++ tr ∧
      (∀ err, opts.Config ≠ "" → d.env.Open opts.Config = Reply.fail err →
        (d.Exec group opts w).1 = Outcome.err err ∧ (d.Exec group opts w).2.st = w.st ∧
        (∀ e ∈ tr, e.isRuntime = false) ∧ (tr.filter Event.isParse).length = 0) ∧
      (∀ f err, opts.Config ≠ "" → d.env.Open opts.Config = Reply.ok f →
        d.env.Decode f { Image := "", Labels := some [], Rest := [] } = Reply.fail err →
        (d.Exec group opts w).1 = Outcome.err err ∧ (d.Exec group opts w).2.st = w.st ∧
        (∀ e ∈ tr, e.isRuntime = false) ∧ (tr.filter Event.isParse).length = 0) ∧
      (∀ c labels err, (d.loadConfig opts w).1 = Reply.ok c → c.Labels = some labels →
        d.env.ParsePortSpecs opts.Ports = Reply.fail err →
        (d.Exec group opts w).1 = Outcome.err err ∧ (d.Exec group opts w).2.st = w.st ∧
        (∀ e ∈ tr, e.isRuntime = false) ∧ (tr.filter Event.isParse).length = 1) ∧
      (tr.filter Event.isParse).length ≤ 1 ∧
      (∀ c labels, (d.loadConfig opts w).1 = Reply.ok c → c.Labels = some labels →
        (tr.filter Event.isParse).length = 1) ∧
      (∀ c h r, Event.ContainerCreate c h r ∈ tr →
        ∃ ps, d.env.ParsePortSpecs opts.Ports = Reply.ok (ps, h.PortBindings) ∧
          Event.ParsePortSpecs opts.Ports (Reply.ok (ps, h.PortBindings)) ∈ tr) := by
  obtain ⟨cfg, hcfg, hev, hcases⟩ := Exec_cases d group opts w
  have hcfgParse : cfg.filter Event.isParse = [] := by
    rw [List.filter_eq_nil_iff]
    intro e he
    rw [(hev e he).2.1]; simp
  have hcfgCreate : ∀ c h r, Event.ContainerCreate c h r ∉ cfg := by
    intro c h r hmem
    have := (hev _ hmem).2.2
    simp [Event.isCreate] at this
  have hlen : ∀ s : String, s ≠ "" → s.length ≠ 0 := by
    intro s hs h0
    exact hs (String.ext (List.length_eq_zero.mp h0))
  -- the three ways the configuration stage can end
  cases hl : (d.loadConfig opts w).1 with
  | fail err0 =>
    rw [hl] at hcases
    simp only at hcases
    refine ⟨cfg, by rw [hcases], ?_, ?_, ?_, by simp [hcfgParse], ?_, ?_⟩
    · intro err hc ho
      have : err = err0 := by
        unfold docker.loadConfig at hl
        rw [if_pos (hlen _ hc), ho] at hl
        simpa using hl
      subst this
      rw [hcases]
      exact ⟨rfl, rfl, fun e he => (hev e he).1, by simp [hcfgParse]⟩
    · intro f err hc ho hd
      have : err = err0 := by
        unfold docker.loadConfig at hl
        rw [if_pos (hlen _ hc), ho] at hl
        simp only [hd] at hl
        simpa using hl
      subst this
      rw [hcases]
      exact ⟨rfl, rfl, fun e he => (hev e he).1, by simp [hcfgParse]⟩
    · intro c labels err hc
      cases hc
    · intro c labels hc
      cases hc
    · intro c h r hmem
      exact absurd hmem (hcfgCreate c h r)
  | ok c0 =>
    rw [hl] at hcases
    simp only at hcases
    have hopen : ∀ err, opts.Config ≠ "" → d.env.Open opts.Config ≠ Reply.fail err := by
      intro err hc ho
      unfold docker.loadConfig at hl
      rw [if_pos (hlen _ hc), ho] at hl
      cases hl
    have hdec : ∀ f err, opts.Config ≠ "" → d.env.Open opts.Config = Reply.ok f →
        d.env.Decode f { Image := "", Labels := some [], Rest := [] } ≠ Reply.fail err := by
      intro f err hc ho hd
      unfold docker.loadConfig at hl
      rw [if_pos (hlen _ hc), ho] at hl
      simp only [hd] at hl
      cases hl
    cases hlab : c0.Labels with
    | none =>
      rw [hlab] at hcases
      simp only at hcases
      refine ⟨cfg, by rw [hcases], ?_, ?_, ?_, by simp [hcfgParse], ?_, ?_⟩
      · intro err hc ho; exact absurd ho (hopen err hc)
      · intro f err hc ho hd; exact absurd hd (hdec f err hc ho)
      · intro c labels err hc hlab'
        cases hc; rw [hlab] at hlab'; cases hlab'
      · intro c labels hc hlab'
        cases hc; rw [hlab] at hlab'; cases hlab'
      · intro c h r hmem
        exact absurd hmem (hcfgCreate c h r)
    | some labels0 =>
      rw [hlab] at hcases
      simp only at hcases
      cases hp : d.env.ParsePortSpecs opts.Ports with
      | fail perr =>
        rw [hp] at hcases
        simp only at hcases
        have hone : ((cfg ++ [Event.ParsePortSpecs opts.Ports (Reply.fail perr)]).filter
            Event.isParse).length = 1 := by
          simp [List.filter_append, hcfgParse, Event.isParse]
        refine ⟨cfg ++ [Event.ParsePortSpecs opts.Ports (Reply.fail perr)],
          by rw [hcases, List.append_assoc], ?_, ?_, ?_, by rw [hone], ?_, ?_⟩
        · intro err hc ho; exact absurd ho (hopen err hc)
        · intro f err hc ho hd; exact absurd hd (hdec f err hc ho)
        · intro c labels err _ _ hperr
          cases hperr
          rw [hcases]
          refine ⟨rfl, rfl, ?_, hone⟩
          intro e he
          rcases List.mem_append.mp he with he | he
          · exact (hev e he).1
          · simp only [List.mem_singleton] at he
            subst he; rfl
        · intro c labels _ _; exact hone
        · intro c h r hmem
          rcases List.mem_append.mp hmem with hm | hm
          · exact absurd hm (hcfgCreate c h r)
          · simp at hm
      | ok pspm =>
        obtain ⟨ps, pm⟩ := pspm
        rw [hp] at hcases
        simp only at hcases
        obtain ⟨tr, ret, _, h2, h3⟩ := hcases
        obtain ⟨s1, s2, _, _, _⟩ := execRun_shape h3
        have hone : ((cfg ++ Event.ParsePortSpecs opts.Ports (Reply.ok (ps, pm)) :: tr).filter
            Event.isParse).length = 1 := by
          simp [List.filter_append, List.filter_cons, hcfgParse, Event.isParse,
            filter_isParse_eq_nil s1]
        refine ⟨cfg ++ Event.ParsePortSpecs opts.Ports (Reply.ok (ps, pm)) :: tr,
          by rw [h2, List.append_assoc], ?_, ?_, ?_, by rw [hone], ?_, ?_⟩
        · intro err hc ho; exact absurd ho (hopen err hc)
        · intro f err hc ho hd; exact absurd hd (hdec f err hc ho)
        · intro c labels err _ _ hperr
          cases hperr
        · intro c labels _ _; exact hone
        · intro c h r hmem
          rcases List.mem_append.mp hmem with hm | hm
          · exact absurd hm (hcfgCreate c h r)
          · rcases List.mem_cons.mp hm with hm | hm
            · cases hm
            · obtain ⟨shard, _, hc⟩ := s2 c h r hm
              have hpb : h.PortBindings = pm := hc.2.2.2.2
              refine ⟨ps, by rw [hpb], ?_⟩
              rw [hpb]
              exact List.mem_append_right _ (List.mem_cons_self _ _)

/-! ## `Exec` on the reference runtime -/

theorem runtime_create_units (c : Config) (h : HostConfig) (s : Runtime) :
    match (Runtime.ContainerCreate c h s).1 with
    | Reply.ok _ =>
      ∃ u, (Runtime.ContainerCreate c h s).2.units = s.units ++ [u] ∧
        u.Labels = c.Labels.getD [] ∧ u.Image = c.Image
    | Reply.fail _ => (Runtime.ContainerCreate c h s).2.units = s.units := by
  unfold Runtime.ContainerCreate
  cases hf : s.fault with
  | some e => rfl
  | none => exact ⟨_, rfl, rfl, rfl⟩

theorem runtime_start_keys (id : String) (s : Runtime) :
    (Runtime.ContainerStart id s).2.units.map RuntimeUnit.key = s.units.map RuntimeUnit.key := by
  unfold Runtime.ContainerStart
  cases hf : s.fault with
  | some e => rfl
  | none =>
    simp only
    by_cases hh : s.has id = true
    · rw [if_pos hh]
      simp only [Runtime.tick, List.map_map]
      apply List.map_congr_left
      intro u _
      simp only [Function.comp]
      split <;> rfl
    · rw [if_neg hh]; rfl

theorem exec_units (d : docker Runtime) (hd : d.client = Runtime.client)
    (image group : String) (pm : PortMap) (shard : String) (c : Config) (h : HostConfig)
    (hc : IsShardCreate image group pm shard c h) (w : World Runtime) :
    ∃ tr, (d.exec c h w).2.log = w.log ++ tr ∧
      created tr ≤ 1 ∧ succeeded tr ≤ created tr ∧
      ((d.exec c h w).1 = none → created tr = 1 ∧ succeeded tr = 1) ∧
      (d.exec c h w).2.st.units.map RuntimeUnit.key =
        w.st.units.map RuntimeUnit.key ++
          (List.replicate (created tr) (some group, some shard, image)) := by
  obtain ⟨hi, hg, hs, _, _⟩ := hc
  unfold docker.exec docker.ContainerCreate
  rw [hd]
  have hcu := runtime_create_units c h w.st
  cases hr : (Runtime.client.ContainerCreate c h w.st).1 with
  | fail e =>
    have hr' : (Runtime.ContainerCreate c h w.st).1 = Reply.fail e := hr
    rw [hr'] at hcu
    simp only at hcu
    refine ⟨[Event.ContainerCreate c h (Reply.fail e)], rfl, by simp [created, Event.isCreated],
      by simp [created, succeeded, Event.isCreated, Event.isStarted], by simp, ?_⟩
    simp only [created, Event.isCreated, List.filter_cons, List.filter_nil, List.length_nil,
      List.replicate_zero, List.append_nil]
    show (Runtime.ContainerCreate c h w.st).2.units.map RuntimeUnit.key = _
    rw [hcu]
    simp
  | ok id =>
    have hr' : (Runtime.ContainerCreate c h w.st).1 = Reply.ok id := hr
    rw [hr'] at hcu
    simp only at hcu
    obtain ⟨u, hu, hul, hui⟩ := hcu
    have hkey : u.key = (some group, some shard, image) := by
      unfold RuntimeUnit.key
      rw [hul, hui, hi]
      cases hlab : c.Labels with
      | none => rw [hlab] at hg; cases hg
      | some labels =>
        rw [hlab] at hg hs
        simp only [Option.bind] at hg hs
        simp [hg, hs]
    simp only
    unfold docker.ContainerStart
    rw [hd]
    have hsk := runtime_start_keys id (Runtime.ContainerCreate c h w.st).2
    cases hst : (Runtime.client.ContainerStart id (Runtime.client.ContainerCreate c h w.st).2).1 with
    | some e =>
      refine ⟨[Event.ContainerCreate c h (Reply.ok id), Event.ContainerStart id (some e)],
        by simp [hst], by simp [created, Event.isCreated],
        by simp [created, succeeded, Event.isCreated, Event.isStarted], by simp, ?_⟩
      simp only [created, Event.isCreated, List.filter_cons, List.filter_nil]
      show (Runtime.ContainerStart id (Runtime.ContainerCreate c h w.st).2).2.units.map
        RuntimeUnit.key = _
      rw [hsk, hu]
      simp [hkey]
    | none =>
      refine ⟨[Event.ContainerCreate c h (Reply.ok id), Event.ContainerStart id none],
        by simp [hst], by simp [created, Event.isCreated],
        by simp [created, succeeded, Event.isCreated, Event.isStarted],
        by simp [created, succeeded, Event.isCreated, Event.isStarted], ?_⟩
      simp only [created, Event.isCreated, List.filter_cons, List.filter_nil]
      show (Runtime.ContainerStart id (Runtime.ContainerCreate c h w.st).2).2.units.map
        RuntimeUnit.key = _
      rw [hsk, hu]
      simp [hkey]

theorem created_append (tr tr' : List Event) : created (tr ++ tr') = created tr + created tr' := by
  simp [created, List.filter_append]

theorem succeeded_append (tr tr' : List Event) :
    succeeded (tr ++ tr') = succeeded tr + succeeded tr' := by
  simp [succeeded, List.filter_append]

theorem execLayout_units (d : docker Runtime) (hd : d.client = Runtime.client)
    (image group : String) (pm : PortMap) :
    ∀ (layout : List String) (c : Config) (labels : Labels) (w : World Runtime),
      c.Image = image → List.lookup "tesson.group" labels = some group →
      ∃ tr, (d.execLayout pm layout c labels w).2.log = w.log ++ tr ∧
        created tr ≤ layout.length ∧ succeeded tr ≤ created tr ∧
        created tr ≤ succeeded tr + 1 ∧
        ((d.execLayout pm layout c labels w).1 = Outcome.ok () →
          created tr = layout.length ∧ succeeded tr = layout.length) ∧
        (d.execLayout pm layout c labels w).2.st.units.map RuntimeUnit.key =
          w.st.units.map RuntimeUnit.key ++
            (layout.take (created tr)).map (fun s => (some group, some s, image)) := by
  intro layout
  induction layout with
  | nil =>
    intro c labels w _ _
    exact ⟨[], by simp [docker.execLayout], by simp [created], by simp [created, succeeded],
      by simp [created], by simp [created, succeeded], by simp [docker.execLayout]⟩
  | cons shard rest ih =>
    intro c labels w himg hgrp
    have hc : IsShardCreate image group pm shard
        { c with Labels := some (labels.set "tesson.shard" shard) }
        { CpusetCpus := shard, PortBindings := pm } := by
      refine ⟨himg, ?_, ?_, rfl, rfl⟩
      · show List.lookup "tesson.group" (labels.set "tesson.shard" shard) = some group
        rw [lookup_set_other _ _ _ _ (by decide)]; exact hgrp
      · show List.lookup "tesson.shard" (labels.set "tesson.shard" shard) = some shard
        exact lookup_set_same _ _ _
    obtain ⟨tr, hlog, hk1, hsk, hok, hunits⟩ := exec_units d hd image group pm shard _ _ hc w
    simp only [docker.execLayout]
    cases hres : d.exec { c with Labels := some (labels.set "tesson.shard" shard) }
        { CpusetCpus := shard, PortBindings := pm } w with
    | mk res w1 =>
      rw [hres] at hlog hok hunits
      simp only at hlog hok hunits
      cases res with
      | some err =>
        refine ⟨tr, hlog, ?_, hsk, (by omega), ?_, ?_⟩
        · simp only [List.length_cons]; omega
        · intro hh; cases hh
        rw [hunits]
        congr 1
        have : created tr = 0 ∨ created tr = 1 := by omega
        rcases this with h0 | h1
        · rw [h0]; rfl
        · rw [h1]; rfl
      | none =>
        obtain ⟨hk, hs⟩ := hok rfl
        obtain ⟨tr', h2, i1, i2, i3, i4, i5⟩ := ih c (labels.set "tesson.shard" shard) w1 himg
          (by rw [lookup_set_other _ _ _ _ (by decide)]; exact hgrp)
        refine ⟨tr ++ tr', by rw [h2, hlog, List.append_assoc], ?_, ?_, ?_, ?_, ?_⟩
        · rw [created_append]; simp only [List.length_cons]; omega
        · rw [created_append, succeeded_append]; omega
        · rw [created_append, succeeded_append]; omega
        · intro hh
          obtain ⟨j1, j2⟩ := i4 hh
          rw [created_append, succeeded_append]
          simp only [List.length_cons]; omega
        · rw [i5, hunits, hk, created_append, hk]
          have : 1 + created tr' = created tr' + 1 := by omega
          rw [this, List.take_succ_cons]
          simp

theorem newEvents_append (l tr : List Event) : newEvents l (l ++ tr) = tr := by
  simp [newEvents]

theorem created_of_no_create {tr : List Event} (h : ∀ e ∈ tr, e.isCreate = false) :
    created tr = 0 := by
  unfold created
  rw [List.length_eq_zero, List.filter_eq_nil_iff]
  intro e he
  have := h e he
  cases e <;> simp [Event.isCreate, Event.isCreated] at this ⊢

theorem succeeded_of_no_runtime {tr : List Event} (h : ∀ e ∈ tr, e.isRuntime = false) :
    succeeded tr = 0 := by
  unfold succeeded
  rw [List.length_eq_zero, List.filter_eq_nil_iff]
  intro e he
  have := h e he
  cases e <;> simp [Event.isRuntime, Event.isStarted] at this ⊢

theorem Exec_units (d : docker Runtime) (hd : d.client = Runtime.client)
    (group : String) (opts : ExecOptions) (w : World Runtime) :
    ∃ tr, (d.Exec group opts w).2.log = w.log ++ tr ∧
      created tr ≤ opts.Layout.length ∧ succeeded tr ≤ created tr ∧
      created tr ≤ succeeded tr + 1 ∧
      ((d.Exec group opts w).1 = Outcome.ok () →
        created tr = opts.Layout.length ∧ succeeded tr = opts.Layout.length) ∧
      (d.Exec group opts w).2.st.units.map RuntimeUnit.key =
        w.st.units.map RuntimeUnit.key ++
          (opts.Layout.take (created tr)).map (fun s => (some group, some s, opts.Image)) := by
  obtain ⟨cfg, hcfg, hev⟩ := loadConfig_log d opts w
  have hc0 : created cfg = 0 := created_of_no_create (fun e he => (hev e he).2.2)
  have hs0 : succeeded cfg = 0 := succeeded_of_no_runtime (fun e he => (hev e he).1)
  unfold docker.Exec
  cases hl : d.loadConfig opts w with
  | mk r w1 =>
    rw [hl] at hcfg
    simp only at hcfg
    subst hcfg
    cases r with
    | fail err =>
      exact ⟨cfg, rfl, by omega, by omega, by omega, (by intro hh; cases hh), by simp [hc0]⟩
    | ok c =>
      simp only
      cases hlab : c.Labels with
      | none =>
        exact ⟨cfg, rfl, by omega, by omega, by omega, (by intro hh; cases hh), by simp [hc0]⟩
      | some labels =>
        simp only
        cases hp : d.env.ParsePortSpecs opts.Ports with
        | fail err =>
          refine ⟨cfg ++ [Event.ParsePortSpecs opts.Ports (Reply.fail err)],
            by simp [World.record], ?_, ?_, ?_, (by intro hh; cases hh), ?_⟩
          · rw [created_append, hc0]; simp [created, Event.isCreated]
          · rw [created_append, succeeded_append, hc0, hs0]
            simp [created, succeeded, Event.isCreated, Event.isStarted]
          · rw [created_append, succeeded_append, hc0, hs0]
            simp [created, succeeded, Event.isCreated, Event.isStarted]
          · rw [created_append, hc0]
            simp [created, Event.isCreated, World.record]
        | ok pspm =>
          obtain ⟨ps, pm⟩ := pspm
          simp only
          obtain ⟨tr, h1, h2, h3, h4, h5, h6⟩ := execLayout_units d hd opts.Image group pm
            opts.Layout { Image := opts.Image, Labels := some labels, Rest := c.Rest }
            (Labels.set labels "tesson.group" group)
            (World.record ⟨w.st, w.log ++ cfg⟩
              (Event.ParsePortSpecs opts.Ports (Reply.ok (ps, pm)))) rfl
            (lookup_set_same _ _ _)
          have hk : created (cfg ++ Event.ParsePortSpecs opts.Ports (Reply.ok (ps, pm)) :: tr)
              = created tr := by
            rw [created_append, hc0]
            simp [created, Event.isCreated]
          have hs : succeeded (cfg ++ Event.ParsePortSpecs opts.Ports (Reply.ok (ps, pm)) :: tr)
              = succeeded tr := by
            rw [succeeded_append, hs0]
            simp [succeeded, Event.isStarted]
          refine ⟨cfg ++ Event.ParsePortSpecs opts.Ports (Reply.ok (ps, pm)) :: tr, ?_, ?_, ?_,
            ?_, ?_, ?_⟩
          · rw [h1]; simp [World.record]
          · rw [hk]; exact h2
          · rw [hk, hs]; exact h3
          · rw [hk, hs]; exact h4
          · rw [hk, hs]; exact h5
          · rw [hk, h6]; rfl

theorem runtime_list_ok (s : Runtime) (cs : List Container)
    (h : (Runtime.ContainerList true s).1 = Reply.ok cs) :
    cs = s.units.map RuntimeUnit.toContainer := by
  unfold Runtime.ContainerList at h
  cases hf : s.fault with
  | some e => rw [hf] at h; cases h
  | none =>
    rw [hf] at h
    simp only [Bool.true_or, Reply.ok.injEq] at h
    rw [← h]
    congr 1
    exact List.filter_eq_self.mpr (fun _ _ => rfl)

theorem members_keys (units : List RuntimeUnit) (g : String) :
    (members (units.map RuntimeUnit.toContainer) g).map (fun c => (shardOf c).CPUs) =
      ((units.map RuntimeUnit.key).filter (fun t => t.1 = some g)).map
        (fun t => t.2.1.getD "") ∧
    (members (units.map RuntimeUnit.toContainer) g).head?.map Container.Image =
      ((units.map RuntimeUnit.key).filter (fun t => t.1 = some g)).head?.map
        (fun t => t.2.2) := by
  induction units with
  | nil => exact ⟨rfl, rfl⟩
  | cons u rest ih =>
    have hk : u.key.1 = groupLabel u.toContainer := rfl
    by_cases hg : groupLabel u.toContainer = some g
    · have h1 : members ((u :: rest).map RuntimeUnit.toContainer) g
          = u.toContainer :: members (rest.map RuntimeUnit.toContainer) g := by
        simp [members, hg]
      have h2 : ((u :: rest).map RuntimeUnit.key).filter (fun t => t.1 = some g)
          = u.key :: (rest.map RuntimeUnit.key).filter (fun t => t.1 = some g) := by
        simp [List.filter_cons, hk, hg]
      rw [h1, h2]
      refine ⟨?_, rfl⟩
      simp only [List.map_cons]
      rw [ih.1]
      rfl
    · have h1 : members ((u :: rest).map RuntimeUnit.toContainer) g
          = members (rest.map RuntimeUnit.toContainer) g := by
        simp [members, hg]
      have h2 : ((u :: rest).map RuntimeUnit.key).filter (fun t => t.1 = some g)
          = (rest.map RuntimeUnit.key).filter (fun t => t.1 = some g) := by
        simp [List.filter_cons, hk, hg]
      rw [h1, h2]
      exact ih

/-- C5 (as stated, refuted): the first creation of `Exec` succeeds and its
start fails, so no Layout entry succeeded; yet the `List` that follows shows
the group with one shard, the unit that was created and not started. -/
theorem Exec_failed_start_is_listed :
    (refDocker.Exec "web" { Image := "nginx", Layout := ["0", "1"], Ports := [], Config := "" }
        ⟨{ units := [], faults := [none, some (Error.external "cannot start")], next := 0 },
          []⟩).1
      = Outcome.err (Error.external "cannot start") ∧
    succeeded (refDocker.Exec "web"
        { Image := "nginx", Layout := ["0", "1"], Ports := [], Config := "" }
        ⟨{ units := [], faults := [none, some (Error.external "cannot start")], next := 0 },
          []⟩).2.log = 0 ∧
    (refDocker.List (refDocker.Exec "web"
        { Image := "nginx", Layout := ["0", "1"], Ports := [], Config := "" }
        ⟨{ units := [], faults := [none, some (Error.external "cannot start")], next := 0 },
          []⟩).2).1
      = Outcome.ok [⟨"web", "nginx", [⟨"/c0", "c0", "Created", "0"⟩]⟩] := by
  decide

/-- C5 (amended): in the reference runtime, starting without any unit labelled
with `group`, after `Exec` (returning success or aborting on a failed creation
or start) and a `List` that returns, the group named `group` has as many shards
as Layout entries were created — the entries that succeeded and, when `Exec`
aborted on a start, the entry whose start failed — and the affinity label of
its i-th shard is the i-th Layout entry; its image is the requested image.
When `Exec` returns success every entry was created and started. -/
theorem Exec_then_List (d : docker Runtime) (hd : d.client = Runtime.client)
    (group : String) (opts : ExecOptions) (w w2 : World Runtime) (gs : List Group)
    (hfresh : ∀ u ∈ w.st.units, List.lookup "tesson.group" u.Labels ≠ some group)
    (hl : d.List (d.Exec group opts w).2 = (Outcome.ok gs, w2)) :
    created (newEvents w.log (d.Exec group opts w).2.log) ≤ opts.Layout.length ∧
    succeeded (newEvents w.log (d.Exec group opts w).2.log) ≤
      created (newEvents w.log (d.Exec group opts w).2.log) ∧
    created (newEvents w.log (d.Exec group opts w).2.log) ≤
      succeeded (newEvents w.log (d.Exec group opts w).2.log) + 1 ∧
    ((d.Exec group opts w).1 = Outcome.ok () →
      created (newEvents w.log (d.Exec group opts w).2.log) = opts.Layout.length ∧
      succeeded (newEvents w.log (d.Exec group opts w).2.log) = opts.Layout.length) ∧
    (∀ gr ∈ gs, gr.Name = group →
      gr.Image = opts.Image ∧
      gr.Shards.length = created (newEvents w.log (d.Exec group opts w).2.log) ∧
      gr.Shards.map Shard.CPUs =
        opts.Layout.take (created (newEvents w.log (d.Exec group opts w).2.log))) ∧
    (0 < created (newEvents w.log (d.Exec group opts w).2.log) → ∃ gr ∈ gs, gr.Name = group) ∧
    (created (newEvents w.log (d.Exec group opts w).2.log) = 0 →
      ∀ gr ∈ gs, gr.Name ≠ group) := by
  obtain ⟨tr, hlog, h1, h2, h3, h4, hunits⟩ := Exec_units d hd group opts w
  rw [hlog, newEvents_append]
  obtain ⟨cs, hcs, _, hgb⟩ := List_ok_inv d _ w2 gs hl
  rw [hd] at hcs
  have hcs' := runtime_list_ok _ cs hcs
  have hpre : (w.st.units.map RuntimeUnit.key).filter (fun t => t.1 = some group) = [] := by
    rw [List.filter_eq_nil_iff]
    intro t ht
    obtain ⟨u, hu, rfl⟩ := List.mem_map.mp ht
    simpa using hfresh u hu
  have hnew : (((opts.Layout.take (created tr)).map
      (fun s => ((some group, some s, opts.Image) : Option String × Option String × String))).filter
        (fun t => t.1 = some group)) =
      (opts.Layout.take (created tr)).map (fun s => (some group, some s, opts.Image)) := by
    rw [List.filter_eq_self]
    intro t ht
    obtain ⟨s, _, rfl⟩ := List.mem_map.mp ht
    simp
  have hfilter : ((d.Exec group opts w).2.st.units.map RuntimeUnit.key).filter
      (fun t => t.1 = some group) =
      (opts.Layout.take (created tr)).map (fun s => (some group, some s, opts.Image)) := by
    rw [hunits, List.filter_append, hpre, hnew, List.nil_append]
  obtain ⟨hcpus, himage⟩ := members_keys (d.Exec group opts w).2.st.units group
  rw [hfilter] at hcpus himage
  rw [← hcs'] at hcpus himage
  have hshards : ∀ gr ∈ gs, gr.Name = group →
      gr.Shards.map Shard.CPUs = opts.Layout.take (created tr) := by
    intro gr hgr hname
    rw [hgb.shards gr hgr, hname, List.map_map]
    have : (Shard.CPUs ∘ shardOf) = fun c => (shardOf c).CPUs := rfl
    rw [this, hcpus, List.map_map]
    have hid : ((fun t : Option String × Option String × String => t.2.1.getD "") ∘
        fun s => (some group, some s, opts.Image)) = id := by
      funext s; rfl
    rw [hid, List.map_id]
  refine ⟨h1, h2, h3, h4, ?_, ?_, ?_⟩
  · intro gr hgr hname
    have hsh := hshards gr hgr hname
    have hlen : gr.Shards.length = created tr := by
      have := congrArg List.length hsh
      rw [List.length_map, List.length_take] at this
      omega
    refine ⟨?_, hlen, hsh⟩
    have him := hgb.image gr hgr
    rw [hname, himage] at him
    have hpos : 0 < created tr := by
      have := hgb.nonempty gr hgr
      rw [← hlen]
      exact List.length_pos.mpr this
    cases hlay : opts.Layout.take (created tr) with
    | nil =>
      have := congrArg List.length hlay
      rw [List.length_take] at this
      simp only [List.length_nil] at this
      omega
    | cons s rest =>
      rw [hlay] at him
      simpa using him.symm
  · intro hpos
    have hne : members cs group ≠ [] := by
      intro hnil
      have := congrArg List.length hcpus
      rw [hnil] at this
      simp only [List.map_nil, List.length_nil, List.length_map, List.length_take] at this
      omega
    obtain ⟨c, hc⟩ := List.exists_mem_of_ne_nil _ hne
    have hc' := List.mem_filter.mp hc
    exact hgb.complete c hc'.1 group (by simpa using hc'.2)
  · intro hzero gr hgr hname
    have hsh := hshards gr hgr hname
    rw [hzero] at hsh
    simp only [List.take_zero, List.map_eq_nil_iff] at hsh
    exact hgb.nonempty gr hgr hsh

/-! ## `Stop` on the reference runtime -/

theorem runtime_tick_of_no_faults (s : Runtime) (hf : s.faults = []) :
    s.fault = none ∧ s.tick = s := by
  cases s with
  | mk units faults next =>
    simp only at hf
    subst hf
    exact ⟨rfl, rfl⟩

theorem halt_ID (u : RuntimeUnit) : u.halt.ID = u.ID := by
  unfold RuntimeUnit.halt; split <;> rfl

theorem halt_Labels (u : RuntimeUnit) : u.halt.Labels = u.Labels := by
  unfold RuntimeUnit.halt; split <;> rfl

theorem halt_Running (u : RuntimeUnit) : u.halt.Running = false := by
  unfold RuntimeUnit.halt
  split
  · rfl
  · rename_i h; simpa using h

theorem halt_of_not_running (u : RuntimeUnit) (h : u.Running = false) : u.halt = u := by
  unfold RuntimeUnit.halt
  rw [h]; rfl

theorem halt_halt (u : RuntimeUnit) : u.halt.halt = u.halt :=
  halt_of_not_running u.halt (halt_Running u)

theorem find_of_mem_nodup (units : List RuntimeUnit) (h : (units.map RuntimeUnit.ID).Nodup)
    (u : RuntimeUnit) (hu : u ∈ units) :
    units.find? (fun v => v.ID = u.ID) = some u := by
  induction units with
  | nil => cases hu
  | cons v rest ih =>
    simp only [List.map_cons, List.nodup_cons] at h
    rcases List.mem_cons.mp hu with rfl | hmem
    · simp [List.find?_cons]
    · have hne : v.ID ≠ u.ID := by
        intro heq
        exact h.1 (heq ▸ List.mem_map.mpr ⟨u, hmem, rfl⟩)
      simp only [List.find?_cons, hne, decide_False]
      exact ih h.2 hmem

theorem unique_of_nodup (units : List RuntimeUnit) (h : (units.map RuntimeUnit.ID).Nodup)
    (u v : RuntimeUnit) (hu : u ∈ units) (hv : v ∈ units) (hid : v.ID = u.ID) : v = u :=
  List.inj_on_of_nodup_map h hv hu hid

theorem runtime_inspect_found (s : Runtime) (hf : s.faults = []) (id : String)
    (u : RuntimeUnit) (hfind : s.units.find? (fun v => v.ID = id) = some u) :
    Runtime.ContainerInspect id s =
      (Reply.ok { ID := u.ID, State := { Running := u.Running } }, s) := by
  obtain ⟨h1, h2⟩ := runtime_tick_of_no_faults s hf
  unfold Runtime.ContainerInspect
  rw [h1]
  simp only [hfind, h2]

theorem runtime_has_of_mem (s : Runtime) (u : RuntimeUnit) (hu : u ∈ s.units) :
    s.has u.ID = true := by
  unfold Runtime.has
  rw [List.any_eq_true]
  exact ⟨u, hu, by simp⟩

theorem runtime_stop_found (s : Runtime) (hf : s.faults = []) (u : RuntimeUnit)
    (hu : u ∈ s.units) (t : Nat) :
    Runtime.ContainerStop u.ID t s =
      (none, { s with units := s.units.map (fun v =>
        if v.ID = u.ID then { v with Running := false, Status := "Exited" } else v) }) := by
  obtain ⟨h1, h2⟩ := runtime_tick_of_no_faults s hf
  unfold Runtime.ContainerStop
  rw [h1]
  simp only [runtime_has_of_mem s u hu, if_true, h2]

theorem runtime_remove_found (s : Runtime) (hf : s.faults = []) (u : RuntimeUnit)
    (hu : u ∈ s.units) (rv : Bool) :
    Runtime.ContainerRemove u.ID rv s =
      (none, { s with units := s.units.filter (fun v => v.ID ≠ u.ID) }) := by
  obtain ⟨h1, h2⟩ := runtime_tick_of_no_faults s hf
  unfold Runtime.ContainerRemove
  rw [h1]
  simp only [runtime_has_of_mem s u hu, if_true, h2]

theorem map_at_unique (units : List RuntimeUnit) (h : (units.map RuntimeUnit.ID).Nodup)
    (u : RuntimeUnit) (hu : u ∈ units) (f g : RuntimeUnit → RuntimeUnit) (hfg : f u = g u) :
    units.map (fun v => if v.ID = u.ID then f v else v) =
      units.map (fun v => if v.ID = u.ID then g v else v) := by
  apply List.map_congr_left
  intro v hv
  by_cases hid : v.ID = u.ID
  · have := unique_of_nodup units h u v hu hv hid
    subst this
    simp [hfg]
  · simp [hid]

theorem stop_keep_step (d : docker Runtime) (hd : d.client = Runtime.client)
    (w : World Runtime) (hf : w.st.faults = []) (hn : (w.st.units.map RuntimeUnit.ID).Nodup)
    (u : RuntimeUnit) (hu : u ∈ w.st.units) :
    (d.stop u.ID { Purge := false } w).1 = none ∧
    (d.stop u.ID { Purge := false } w).2.st =
      { w.st with units := w.st.units.map (fun v => if v.ID = u.ID then v.halt else v) } := by
  have hi : Runtime.client.ContainerInspect u.ID w.st =
      (Reply.ok { ID := u.ID, State := { Running := u.Running } }, w.st) :=
    runtime_inspect_found w.st hf u.ID u (find_of_mem_nodup _ hn u hu)
  unfold docker.stop docker.ContainerInspect
  rw [hd, hi]
  simp only
  cases hr : u.Running with
  | false =>
    simp only [Bool.false_eq_true, if_false, Bool.not_false, if_true, true_and]
    have : w.st.units.map (fun v => if v.ID = u.ID then v.halt else v) = w.st.units := by
      rw [map_at_unique _ hn u hu RuntimeUnit.halt id (halt_of_not_running u hr)]
      simp
    rw [this]
  | true =>
    have hs : Runtime.client.ContainerStop u.ID 30 w.st = _ :=
      runtime_stop_found w.st hf u hu 30
    simp only [if_true]
    unfold docker.ContainerStop
    rw [hd]
    simp only [hs, Bool.not_false, if_true, true_and]
    rw [map_at_unique _ hn u hu RuntimeUnit.halt
      (fun v => { v with Running := false, Status := "Exited" })
      (by unfold RuntimeUnit.halt; rw [hr]; rfl)]

theorem stop_purge_step (d : docker Runtime) (hd : d.client = Runtime.client)
    (w : World Runtime) (hf : w.st.faults = []) (hn : (w.st.units.map RuntimeUnit.ID).Nodup)
    (u : RuntimeUnit) (hu : u ∈ w.st.units) :
    (d.stop u.ID { Purge := true } w).1 = none ∧
    (d.stop u.ID { Purge := true } w).2.st =
      { w.st with units := w.st.units.filter (fun v => v.ID ≠ u.ID) } := by
  have hi : Runtime.client.ContainerInspect u.ID w.st =
      (Reply.ok { ID := u.ID, State := { Running := u.Running } }, w.st) :=
    runtime_inspect_found w.st hf u.ID u (find_of_mem_nodup _ hn u hu)
  unfold docker.stop docker.ContainerInspect
  rw [hd, hi]
  simp only
  cases hr : u.Running with
  | false =>
    have hrm : Runtime.client.ContainerRemove u.ID true w.st = _ :=
      runtime_remove_found w.st hf u hu true
    simp only [Bool.false_eq_true, if_false, Bool.not_true]
    unfold docker.ContainerRemove
    rw [hd]
    simp only [hrm, and_self]
  | true =>
    have hs : Runtime.client.ContainerStop u.ID 30 w.st = _ :=
      runtime_stop_found w.st hf u hu 30
    simp only [if_true]
    unfold docker.ContainerStop
    rw [hd]
    simp only [hs, Bool.not_true, Bool.false_eq_true, if_false]
    have hu' : ({ u with Running := false, Status := "Exited" } : RuntimeUnit) ∈
        w.st.units.map (fun v =>
          if v.ID = u.ID then { v with Running := false, Status := "Exited" } else v) :=
      List.mem_map.mpr ⟨u, hu, by simp⟩
    have hrm := runtime_remove_found
      { w.st with units := w.st.units.map (fun v =>
          if v.ID = u.ID then { v with Running := false, Status := "Exited" } else v) }
      hf _ hu' true
    unfold docker.ContainerRemove
    rw [hd]
    have hrm' : Runtime.client.ContainerRemove u.ID true
        { w.st with units := w.st.units.map (fun v =>
          if v.ID = u.ID then { v with Running := false, Status := "Exited" } else v) } = _ := hrm
    simp only [hrm', true_and]
    congr 1
    rw [List.filter_map]
    have hfil : (fun v : RuntimeUnit => decide (v.ID ≠ u.ID)) ∘
        (fun v => if v.ID = u.ID then { v with Running := false, Status := "Exited" } else v)
        = fun v => decide (v.ID ≠ u.ID) := by
      funext v
      simp only [Function.comp]
      split <;> rfl
    rw [hfil]
    have : ∀ v ∈ w.st.units.filter (fun v => decide (v.ID ≠ u.ID)),
        (if v.ID = u.ID then ({ v with Running := false, Status := "Exited" } : RuntimeUnit)
          else v) = id v := by
      intro v hv
      have := (List.mem_filter.mp hv).2
      simp only [ne_eq, decide_not, Bool.not_eq_true', decide_eq_false_iff_not] at this
      simp [this]
    rw [List.map_congr_left this, List.map_id]

theorem stopShards_keep (d : docker Runtime) (hd : d.client = Runtime.client) :
    ∀ (shs : List Shard) (w : World Runtime), w.st.faults = [] →
      (w.st.units.map RuntimeUnit.ID).Nodup →
      (∀ sh ∈ shs, ∃ u ∈ w.st.units, u.ID = sh.ID) →
      (d.stopShards { Purge := false } shs w).1 = Outcome.ok () ∧
      (d.stopShards { Purge := false } shs w).2.st =
        { w.st with
          units := w.st.units.map (fun v => if v.ID ∈ shs.map Shard.ID then v.halt else v) } := by
  intro shs
  induction shs with
  | nil =>
    intro w _ _ _
    simp [docker.stopShards]
  | cons sh rest ih =>
    intro w hf hn hpres
    obtain ⟨u, hu, hid⟩ := hpres sh (List.mem_cons_self _ _)
    obtain ⟨h1, h2⟩ := stop_keep_step d hd w hf hn u hu
    rw [hid] at h1 h2
    simp only [docker.stopShards]
    cases hres : d.stop sh.ID { Purge := false } w with
    | mk res w1 =>
      rw [hres] at h1 h2
      simp only at h1 h2
      subst h1
      simp only
      have hf1 : w1.st.faults = [] := by rw [h2]; exact hf
      have hids : w1.st.units.map RuntimeUnit.ID = w.st.units.map RuntimeUnit.ID := by
        rw [h2]
        simp only [List.map_map]
        apply List.map_congr_left
        intro v _
        simp only [Function.comp]
        split
        · exact halt_ID v
        · rfl
      have hn1 : (w1.st.units.map RuntimeUnit.ID).Nodup := by rw [hids]; exact hn
      have hpres1 : ∀ sh' ∈ rest, ∃ u' ∈ w1.st.units, u'.ID = sh'.ID := by
        intro sh' hsh'
        obtain ⟨u', hu', hid'⟩ := hpres sh' (List.mem_cons_of_mem _ hsh')
        have : sh'.ID ∈ w1.st.units.map RuntimeUnit.ID := by
          rw [hids]; exact List.mem_map.mpr ⟨u', hu', hid'⟩
        obtain ⟨u'', hu'', hid''⟩ := List.mem_map.mp this
        exact ⟨u'', hu'', hid''⟩
      obtain ⟨i1, i2⟩ := ih w1 hf1 hn1 hpres1
      refine ⟨i1, ?_⟩
      rw [i2, h2]
      simp only [List.map_map]
      congr 1
      apply List.map_congr_left
      intro v _
      simp only [Function.comp, List.map_cons, List.mem_cons]
      by_cases hv : v.ID = sh.ID
      · simp only [hv, if_true, true_or]
        have : v.halt.ID = sh.ID := by rw [halt_ID]; exact hv
        split
        · exact halt_halt v
        · rfl
      · simp only [hv, if_false, false_or]

theorem stopShards_purge (d : docker Runtime) (hd : d.client = Runtime.client) :
    ∀ (shs : List Shard) (w : World Runtime), w.st.faults = [] →
      (w.st.units.map RuntimeUnit.ID).Nodup →
      (shs.map Shard.ID).Nodup →
      (∀ sh ∈ shs, ∃ u ∈ w.st.units, u.ID = sh.ID) →
      (d.stopShards { Purge := true } shs w).1 = Outcome.ok () ∧
      (d.stopShards { Purge := true } shs w).2.st =
        { w.st with
          units := w.st.units.filter (fun v => decide (v.ID ∉ shs.map Shard.ID)) } := by
  intro shs
  induction shs with
  | nil =>
    intro w _ _ _ _
    simp [docker.stopShards]
  | cons sh rest ih =>
    intro w hf hn hnd hpres
    obtain ⟨u, hu, hid⟩ := hpres sh (List.mem_cons_self _ _)
    obtain ⟨h1, h2⟩ := stop_purge_step d hd w hf hn u hu
    rw [hid] at h1 h2
    simp only [List.map_cons, List.nodup_cons] at hnd
    simp only [docker.stopShards]
    cases hres : d.stop sh.ID { Purge := true } w with
    | mk res w1 =>
      rw [hres] at h1 h2
      simp only at h1 h2
      subst h1
      simp only
      have hf1 : w1.st.faults = [] := by rw [h2]; exact hf
      have hn1 : (w1.st.units.map RuntimeUnit.ID).Nodup := by
        rw [h2]
        exact List.Nodup.sublist (List.Sublist.map _ (List.filter_sublist _)) hn
      have hpres1 : ∀ sh' ∈ rest, ∃ u' ∈ w1.st.units, u'.ID = sh'.ID := by
        intro sh' hsh'
        obtain ⟨u', hu', hid'⟩ := hpres sh' (List.mem_cons_of_mem _ hsh')
        refine ⟨u', ?_, hid'⟩
        rw [h2]
        apply List.mem_filter.mpr
        refine ⟨hu', ?_⟩
        simp only [ne_eq, decide_not, Bool.not_eq_true', decide_eq_false_iff_not]
        intro heq
        exact hnd.1 (List.mem_map.mpr ⟨sh', hsh', by rw [← hid', heq]⟩)
      obtain ⟨i1, i2⟩ := ih w1 hf1 hn1 hnd.2 hpres1
      refine ⟨i1, ?_⟩
      rw [i2, h2]
      simp only [List.filter_filter]
      congr 1
      apply List.filter_congr
      intro v _
      rw [Bool.eq_iff_iff]
      simp only [decide_eq_true_eq, Bool.and_eq_true, List.map_cons, List.mem_cons, not_or]
      tauto

theorem stopShards_idle (d : docker Runtime) (hd : d.client = Runtime.client) :
    ∀ (shs : List Shard) (w : World Runtime), w.st.faults = [] →
      (∀ sh ∈ shs, ∃ u, w.st.units.find? (fun v => v.ID = sh.ID) = some u ∧
        u.Running = false) →
      d.stopShards { Purge := false } shs w =
        (Outcome.ok (), ⟨w.st, w.log ++ shs.map (fun sh =>
          Event.ContainerInspect sh.ID
            (Reply.ok { ID := sh.ID, State := { Running := false } }))⟩) := by
  intro shs
  induction shs with
  | nil =>
    intro w _ _
    simp [docker.stopShards]
  | cons sh rest ih =>
    intro w hf hidle
    obtain ⟨u, hfind, hrun⟩ := hidle sh (List.mem_cons_self _ _)
    have hid : u.ID = sh.ID := by
      have := List.find?_some hfind
      simpa using this
    have hi : Runtime.client.ContainerInspect sh.ID w.st =
        (Reply.ok { ID := u.ID, State := { Running := u.Running } }, w.st) :=
      runtime_inspect_found w.st hf sh.ID u hfind
    have hstep : d.stop sh.ID { Purge := false } w =
        (none, ⟨w.st, w.log ++ [Event.ContainerInspect sh.ID
          (Reply.ok { ID := sh.ID, State := { Running := false } })]⟩) := by
      unfold docker.stop docker.ContainerInspect
      rw [hd, hi, hrun, hid]
      simp
    simp only [docker.stopShards, hstep]
    have hrest := ih ⟨w.st, w.log ++ [Event.ContainerInspect sh.ID
        (Reply.ok { ID := sh.ID, State := { Running := false } })]⟩ hf
      (fun sh' hsh' => hidle sh' (List.mem_cons_of_mem _ hsh'))
    rw [hrest]
    simp

theorem runtime_list_no_faults (s : Runtime) (hf : s.faults = []) :
    Runtime.ContainerList true s = (Reply.ok (s.units.map RuntimeUnit.toContainer), s) := by
  obtain ⟨h1, h2⟩ := runtime_tick_of_no_faults s hf
  unfold Runtime.ContainerList
  rw [h1]
  simp only [Bool.true_or, h2]
  congr 3
  exact List.filter_eq_self.mpr (fun _ _ => rfl)

theorem named_of_listLoop {cs : List Container} {m m' : List (String × Group)}
    (h : listLoop cs m = some m') : Named cs := by
  intro c hc hl hn
  rw [listLoop_crash hc hl hn m] at h
  cases h

theorem List_runtime (d : docker Runtime) (hd : d.client = Runtime.client)
    (w : World Runtime) (hf : w.st.faults = []) :
    (d.client.ContainerList true w.st) =
      (Reply.ok (w.st.units.map RuntimeUnit.toContainer), w.st) := by
  rw [hd]
  exact runtime_list_no_faults w.st hf

theorem List_runtime_ok (d : docker Runtime) (hd : d.client = Runtime.client)
    (w w1 : World Runtime) (gs : List Group) (hf : w.st.faults = [])
    (hl : d.List w = (Outcome.ok gs, w1)) :
    w1.st = w.st ∧ IsGroupBy (w.st.units.map RuntimeUnit.toContainer) gs ∧
      Named (w.st.units.map RuntimeUnit.toContainer) := by
  have hr := List_runtime d hd w hf
  obtain ⟨cs, hcs, hw1, hgb⟩ := List_ok_inv d w w1 gs hl
  rw [hr] at hcs hw1
  simp only [Reply.ok.injEq] at hcs
  subst hcs
  refine ⟨by rw [hw1], hgb, ?_⟩
  rw [List_eq, hr] at hl
  simp only at hl
  cases hloop : listLoop (w.st.units.map RuntimeUnit.toContainer) [] with
  | none => rw [hloop] at hl; simp at hl
  | some m => exact named_of_listLoop hloop

theorem inGroup_iff (g : String) (u : RuntimeUnit) :
    u.inGroup g = true ↔ groupLabel u.toContainer = some g := by
  unfold RuntimeUnit.inGroup groupLabel RuntimeUnit.toContainer
  simp

theorem members_map (units : List RuntimeUnit) (g : String) :
    members (units.map RuntimeUnit.toContainer) g =
      (units.filter (RuntimeUnit.inGroup g)).map RuntimeUnit.toContainer := by
  unfold members
  rw [List.filter_map]
  congr 1

theorem shard_ids (units : List RuntimeUnit) (gs : List Group) (gr : Group)
    (hgb : IsGroupBy (units.map RuntimeUnit.toContainer) gs) (hgr : gr ∈ gs) :
    gr.Shards.map Shard.ID = (units.filter (RuntimeUnit.inGroup gr.Name)).map RuntimeUnit.ID := by
  rw [hgb.shards gr hgr, members_map]
  simp only [List.map_map]
  rfl

theorem mem_shard_ids_iff (units : List RuntimeUnit)
    (hn : (units.map RuntimeUnit.ID).Nodup) (g : String) (u : RuntimeUnit) (hu : u ∈ units) :
    u.ID ∈ (units.filter (RuntimeUnit.inGroup g)).map RuntimeUnit.ID ↔ u.inGroup g = true := by
  constructor
  · intro h
    obtain ⟨v, hv, hid⟩ := List.mem_map.mp h
    have hv' := List.mem_filter.mp hv
    have := unique_of_nodup units hn u v hu hv'.1 hid
    rw [← this]; exact hv'.2
  · intro h
    exact List.mem_map.mpr ⟨u, List.mem_filter.mpr ⟨hu, h⟩, rfl⟩

theorem inGroup_halt (g : String) (u : RuntimeUnit) : u.halt.inGroup g = u.inGroup g := by
  unfold RuntimeUnit.inGroup
  rw [halt_Labels]

theorem filter_halted (units : List RuntimeUnit) (g n : String) :
    (units.map (fun v => if v.inGroup g then v.halt else v)).filter (RuntimeUnit.inGroup n) =
      (units.filter (RuntimeUnit.inGroup n)).map (fun v => if v.inGroup g then v.halt else v) := by
  rw [List.filter_map]
  congr 1
  apply List.filter_congr
  intro v _
  simp only [Function.comp]
  split
  · exact inGroup_halt n v
  · rfl

theorem inGroup_unique (g n : String) (u : RuntimeUnit) (hg : u.inGroup g = true)
    (hn : u.inGroup n = true) : n = g := by
  unfold RuntimeUnit.inGroup at hg hn
  simp only [decide_eq_true_eq] at hg hn
  rw [hg] at hn
  exact (Option.some.inj hn).symm

theorem members_halted_other (units : List RuntimeUnit) (g n : String) (hne : n ≠ g) :
    members ((units.map (fun v => if v.inGroup g then v.halt else v)).map
      RuntimeUnit.toContainer) n = members (units.map RuntimeUnit.toContainer) n := by
  rw [members_map, members_map, filter_halted]
  congr 1
  have : ∀ v ∈ units.filter (RuntimeUnit.inGroup n),
      (if v.inGroup g then v.halt else v) = id v := by
    intro v hv
    have hvn := (List.mem_filter.mp hv).2
    have : v.inGroup g ≠ true := fun hg => hne (inGroup_unique g n v hg hvn)
    simp [this]
  rw [List.map_congr_left this, List.map_id]

theorem members_halted_same (units : List RuntimeUnit) (g : String) :
    members ((units.map (fun v => if v.inGroup g then v.halt else v)).map
      RuntimeUnit.toContainer) g =
      (units.filter (RuntimeUnit.inGroup g)).map (fun v => v.halt.toContainer) := by
  rw [members_map, filter_halted, List.map_map]
  apply List.map_congr_left
  intro v hv
  have hvg := (List.mem_filter.mp hv).2
  simp [Function.comp, hvg]

theorem members_purged_other (units : List RuntimeUnit) (g n : String) (hne : n ≠ g) :
    members ((units.filter (fun v => !v.inGroup g)).map RuntimeUnit.toContainer) n =
      members (units.map RuntimeUnit.toContainer) n := by
  rw [members_map, members_map, List.filter_filter]
  congr 1
  apply List.filter_congr
  intro v _
  by_cases hvn : v.inGroup n = true
  · have : v.inGroup g ≠ true := fun hg => hne (inGroup_unique g n v hg hvn)
    simp [hvn, this]
  · simp [hvn]

theorem members_purged_same (units : List RuntimeUnit) (g : String) :
    members ((units.filter (fun v => !v.inGroup g)).map RuntimeUnit.toContainer) g = [] := by
  rw [members_map, List.filter_filter, List.map_eq_nil_iff, List.filter_eq_nil_iff]
  intro v _
  cases v.inGroup g <;> simp

theorem isGroupBy_mem_iff {cs : List Container} {gs : List Group} (hgb : IsGroupBy cs gs)
    (x : Group) :
    x ∈ gs ↔ (x.Shards = (members cs x.Name).map shardOf ∧ members cs x.Name ≠ [] ∧
      (members cs x.Name).head?.map Container.Image = some x.Image) := by
  constructor
  · intro hx
    refine ⟨hgb.shards x hx, ?_, hgb.image x hx⟩
    intro hnil
    have := hgb.shards x hx
    rw [hnil] at this
    exact hgb.nonempty x hx this
  · rintro ⟨hs, hne, hi⟩
    obtain ⟨c, hc⟩ := List.exists_mem_of_ne_nil _ hne
    have hc' := List.mem_filter.mp hc
    obtain ⟨y, hy, hyn⟩ := hgb.complete c hc'.1 x.Name (by simpa using hc'.2)
    have hys := hgb.shards y hy
    have hyi := hgb.image y hy
    rw [hyn] at hys hyi
    have : y = x := by
      cases x; cases y
      simp only at hyn hys hyi hs hi
      rw [hi] at hyi
      simp only [Option.some.injEq] at hyi
      simp [hyn, hys, hs, hyi]
    rw [← this]; exact hy

theorem Stop_runtime (d : docker Runtime) (hd : d.client = Runtime.client)
    (group : String) (w w1 : World Runtime) (gs : List Group) (gr : Group)
    (hf : w.st.faults = []) (hn : (w.st.units.map RuntimeUnit.ID).Nodup)
    (hl : d.List w = (Outcome.ok gs, w1)) (hgr : gr ∈ gs) (hname : gr.Name = group) :
    ((d.Stop group { Purge := false } w).1 = Outcome.ok () ∧
      (d.Stop group { Purge := false } w).2.st =
        { w.st with
          units := w.st.units.map (fun v => if v.inGroup group then v.halt else v) }) ∧
    ((d.Stop group { Purge := true } w).1 = Outcome.ok () ∧
      (d.Stop group { Purge := true } w).2.st =
        { w.st with units := w.st.units.filter (fun v => !v.inGroup group) }) := by
  obtain ⟨hst, hgb, _⟩ := List_runtime_ok d hd w w1 gs hf hl
  obtain ⟨hlt, hget⟩ := findIdx_present gs group gr hgb.nodup hgr hname
  have hs : ∀ opts, d.Stop group opts w = d.stopShards opts gr.Shards w1 := by
    intro opts
    rw [Stop_eq d group opts w w1 gs hl, if_neg (Nat.not_le.mpr hlt), hget]
  have hids := shard_ids w.st.units gs gr hgb hgr
  rw [hname] at hids
  have hf1 : w1.st.faults = [] := by rw [hst]; exact hf
  have hn1 : (w1.st.units.map RuntimeUnit.ID).Nodup := by rw [hst]; exact hn
  have hpres : ∀ sh ∈ gr.Shards, ∃ u ∈ w1.st.units, u.ID = sh.ID := by
    intro sh hsh
    have : sh.ID ∈ gr.Shards.map Shard.ID := List.mem_map.mpr ⟨sh, hsh, rfl⟩
    rw [hids] at this
    obtain ⟨u, hu, hid⟩ := List.mem_map.mp this
    rw [hst]
    exact ⟨u, (List.mem_filter.mp hu).1, hid⟩
  have hnd : (gr.Shards.map Shard.ID).Nodup := by
    rw [hids]
    exact List.Nodup.sublist (List.Sublist.map _ (List.filter_sublist _)) hn
  constructor
  · obtain ⟨k1, k2⟩ := stopShards_keep d hd gr.Shards w1 hf1 hn1 hpres
    rw [hs]
    refine ⟨k1, ?_⟩
    rw [k2, hst]
    dsimp only
    congr 1
    apply List.map_congr_left
    intro v hv
    have := mem_shard_ids_iff w.st.units hn group v hv
    rw [← hids] at this
    by_cases hg : v.inGroup group = true
    · simp [hg, this.mpr hg]
    · have hnot : v.ID ∉ gr.Shards.map Shard.ID := fun h => hg (this.mp h)
      simp [hg, hnot]
  · obtain ⟨k1, k2⟩ := stopShards_purge d hd gr.Shards w1 hf1 hn1 hnd hpres
    rw [hs]
    refine ⟨k1, ?_⟩
    rw [k2, hst]
    dsimp only
    congr 1
    apply List.filter_congr
    intro v hv
    have := mem_shard_ids_iff w.st.units hn group v hv
    rw [← hids] at this
    by_cases hg : v.inGroup group = true
    · simp [hg, this.mpr hg]
    · have hnot : v.ID ∉ gr.Shards.map Shard.ID := fun h => hg (this.mp h)
      simp [hg, hnot]

theorem named_halted (units : List RuntimeUnit) (g : String)
    (h : Named (units.map RuntimeUnit.toContainer)) :
    Named ((units.map (fun v => if v.inGroup g then v.halt else v)).map
      RuntimeUnit.toContainer) := by
  intro c hc hl
  simp only [List.map_map, List.mem_map, Function.comp] at hc
  obtain ⟨u, hu, rfl⟩ := hc
  have hu' : u.toContainer ∈ units.map RuntimeUnit.toContainer := List.mem_map.mpr ⟨u, hu, rfl⟩
  by_cases hg : u.inGroup g = true
  · simp only [hg, if_true] at hl ⊢
    have h1 : groupLabel u.halt.toContainer = groupLabel u.toContainer := by
      unfold groupLabel RuntimeUnit.toContainer
      simp only
      rw [halt_Labels]
    have h2 : u.halt.toContainer.Names = u.toContainer.Names := by
      unfold RuntimeUnit.toContainer RuntimeUnit.halt
      split <;> rfl
    rw [h2]
    rw [h1] at hl
    exact h _ hu' hl
  · simp only [hg, Bool.false_eq_true, if_false] at hl ⊢
    exact h _ hu' hl

theorem named_purged (units : List RuntimeUnit) (g : String)
    (h : Named (units.map RuntimeUnit.toContainer)) :
    Named ((units.filter (fun v => !v.inGroup g)).map RuntimeUnit.toContainer) := by
  intro c hc hl
  obtain ⟨u, hu, rfl⟩ := List.mem_map.mp hc
  exact h _ (List.mem_map.mpr ⟨u, (List.mem_filter.mp hu).1, rfl⟩) hl

theorem ident_halt (u : RuntimeUnit) :
    (shardOf u.halt.toContainer).ident = (shardOf u.toContainer).ident ∧
    u.halt.toContainer.Image = u.toContainer.Image := by
  unfold RuntimeUnit.halt
  split <;> exact ⟨rfl, rfl⟩

/-- The effect of `Stop` where its listing returns: in the reference runtime,
in a state with distinct identifiers where
no call fails and `List` shows the group `gr` under the name `group`:
`Stop` without purge returns success, and the `List` that follows still shows
the group, with the same image and the same shards (names, identifiers and
affinity labels, in the same order), none of its units running; `Stop` with
purge returns success, no unit of the group remains and the `List` that
follows shows no group of that name.  In both cases the groups of any other
name are exactly those shown before. -/
theorem Stop_then_List (d : docker Runtime) (hd : d.client = Runtime.client)
    (group : String) (w w1 : World Runtime) (gs : List Group) (gr : Group)
    (hf : w.st.faults = []) (hn : (w.st.units.map RuntimeUnit.ID).Nodup)
    (hl : d.List w = (Outcome.ok gs, w1)) (hgr : gr ∈ gs) (hname : gr.Name = group) :
    ((d.Stop group { Purge := false } w).1 = Outcome.ok () ∧
      ∃ gs' w3, d.List (d.Stop group { Purge := false } w).2 = (Outcome.ok gs', w3) ∧
        (∃ gr' ∈ gs', gr'.Name = group ∧ gr'.Image = gr.Image ∧
          gr'.Shards.map Shard.ident = gr.Shards.map Shard.ident) ∧
        (∀ u ∈ (d.Stop group { Purge := false } w).2.st.units,
          u.inGroup group = true → u.Running = false) ∧
        (∀ x : Group, x.Name ≠ group → (x ∈ gs' ↔ x ∈ gs))) ∧
    ((d.Stop group { Purge := true } w).1 = Outcome.ok () ∧
      ∃ gs' w3, d.List (d.Stop group { Purge := true } w).2 = (Outcome.ok gs', w3) ∧
        (∀ x ∈ gs', x.Name ≠ group) ∧
        (∀ u ∈ (d.Stop group { Purge := true } w).2.st.units, u.inGroup group = false) ∧
        (∀ x : Group, x.Name ≠ group → (x ∈ gs' ↔ x ∈ gs))) := by
  obtain ⟨_, hgb, hnamed⟩ := List_runtime_ok d hd w w1 gs hf hl
  obtain ⟨⟨a1, a2⟩, ⟨b1, b2⟩⟩ := Stop_runtime d hd group w w1 gs gr hf hn hl hgr hname
  constructor
  · refine ⟨a1, ?_⟩
    have hf2 : (d.Stop group { Purge := false } w).2.st.faults = [] := by rw [a2]; exact hf
    have hr := List_runtime d hd (d.Stop group { Purge := false } w).2 hf2
    have hunits : (d.Stop group { Purge := false } w).2.st.units =
        w.st.units.map (fun v => if v.inGroup group then v.halt else v) := by rw [a2]
    have hnamed' : Named ((d.Stop group { Purge := false } w).2.st.units.map
        RuntimeUnit.toContainer) := by
      rw [hunits]; exact named_halted _ _ hnamed
    obtain ⟨gs', hl', hgb'⟩ := List_groupBy d (d.Stop group { Purge := false } w).2 _
      (by rw [hr]) hnamed'
    rw [hunits] at hgb'
    refine ⟨gs', _, hl', ?_, ?_, ?_⟩
    · -- the group is still there, with the same shards
      have hmem := (isGroupBy_mem_iff hgb gr).mp hgr
      rw [hname] at hmem
      have hsame := members_halted_same w.st.units group
      have hne' : members ((w.st.units.map
          (fun v => if v.inGroup group then v.halt else v)).map RuntimeUnit.toContainer) group
          ≠ [] := by
        rw [hsame]
        intro hnil
        apply hmem.2.1
        rw [members_map]
        rw [List.map_eq_nil_iff] at hnil ⊢
        exact hnil
      obtain ⟨c, hc⟩ := List.exists_mem_of_ne_nil _ hne'
      have hc' := List.mem_filter.mp hc
      obtain ⟨gr', hgr', hn'⟩ := hgb'.complete c hc'.1 group (by simpa using hc'.2)
      refine ⟨gr', hgr', hn', ?_, ?_⟩
      · have hi' := hgb'.image gr' hgr'
        rw [hn', hsame] at hi'
        have hi := hmem.2.2
        rw [members_map] at hi
        cases hfl : w.st.units.filter (RuntimeUnit.inGroup group) with
        | nil => rw [hfl] at hi; simp at hi
        | cons u rest =>
          rw [hfl] at hi hi'
          simp only [List.map_cons, List.head?_cons, Option.map_some', Option.some.injEq]
            at hi hi'
          rw [← hi', ← hi]
          exact (ident_halt u).2
      · rw [hgb'.shards gr' hgr', hn', hsame, hmem.1, members_map]
        simp only [List.map_map]
        apply List.map_congr_left
        intro u _
        exact (ident_halt u).1
    · intro u hu hg
      rw [hunits] at hu
      obtain ⟨v, _, rfl⟩ := List.mem_map.mp hu
      by_cases hv : v.inGroup group = true
      · simp only [hv, if_true]
        exact halt_Running v
      · simp only [hv, Bool.false_eq_true, if_false] at hg
    · intro x hx
      rw [isGroupBy_mem_iff hgb' x, isGroupBy_mem_iff hgb x,
        members_halted_other w.st.units group x.Name hx]
  · refine ⟨b1, ?_⟩
    have hf2 : (d.Stop group { Purge := true } w).2.st.faults = [] := by rw [b2]; exact hf
    have hr := List_runtime d hd (d.Stop group { Purge := true } w).2 hf2
    have hunits : (d.Stop group { Purge := true } w).2.st.units =
        w.st.units.filter (fun v => !v.inGroup group) := by rw [b2]
    have hnamed' : Named ((d.Stop group { Purge := true } w).2.st.units.map
        RuntimeUnit.toContainer) := by
      rw [hunits]; exact named_purged _ _ hnamed
    obtain ⟨gs', hl', hgb'⟩ := List_groupBy d (d.Stop group { Purge := true } w).2 _
      (by rw [hr]) hnamed'
    rw [hunits] at hgb'
    refine ⟨gs', _, hl', ?_, ?_, ?_⟩
    · intro x hx hxn
      have := (isGroupBy_mem_iff hgb' x).mp hx
      rw [hxn] at this
      exact this.2.1 (members_purged_same w.st.units group)
    · intro u hu
      rw [hunits] at hu
      have := (List.mem_filter.mp hu).2
      simpa using this
    · intro x hx
      rw [isGroupBy_mem_iff hgb' x, isGroupBy_mem_iff hgb x,
        members_purged_other w.st.units group x.Name hx]

theorem Stop_runtime_idle (d : docker Runtime) (hd : d.client = Runtime.client)
    (group : String) (w w1 : World Runtime) (gs : List Group) (gr : Group)
    (hf : w.st.faults = []) (hn : (w.st.units.map RuntimeUnit.ID).Nodup)
    (hl : d.List w = (Outcome.ok gs, w1)) (hgr : gr ∈ gs) (hname : gr.Name = group)
    (hidle : ∀ u ∈ w.st.units, u.inGroup group = true → u.Running = false) :
    d.Stop group { Purge := false } w =
      (Outcome.ok (), ⟨w.st, w1.log ++ gr.Shards.map idleInspect⟩) := by
  obtain ⟨hst, hgb, _⟩ := List_runtime_ok d hd w w1 gs hf hl
  obtain ⟨hlt, hget⟩ := findIdx_present gs group gr hgb.nodup hgr hname
  rw [Stop_eq d group _ w w1 gs hl, if_neg (Nat.not_le.mpr hlt), hget]
  have hf1 : w1.st.faults = [] := by rw [hst]; exact hf
  have hids := shard_ids w.st.units gs gr hgb hgr
  rw [hname] at hids
  have := stopShards_idle d hd gr.Shards w1 hf1 (by
    intro sh hsh
    have hm : sh.ID ∈ gr.Shards.map Shard.ID := List.mem_map.mpr ⟨sh, hsh, rfl⟩
    rw [hids] at hm
    obtain ⟨u, hu, hid⟩ := List.mem_map.mp hm
    have hu' := List.mem_filter.mp hu
    refine ⟨u, ?_, hidle u hu'.1 hu'.2⟩
    rw [hst, ← hid]
    exact find_of_mem_nodup _ hn u hu'.1)
  rw [this, hst]
  rfl

/-- C9 (as stated, refuted): a `Stop` with purge that succeeded removed the
group, so the same `Stop` issued again returns `errGroupDoesNotExist`, not
success. -/
theorem Stop_purge_twice_fails :
    (refDocker.Stop "web" { Purge := true } demoWorld).1 = Outcome.ok () ∧
    (refDocker.Stop "web" { Purge := true }
        (refDocker.Stop "web" { Purge := true } demoWorld).2).1
      = Outcome.err errGroupDoesNotExist := by
  decide

/-- C9 (amended): in the reference runtime, in a state with distinct
identifiers where no call fails and `List` shows the group: without purge, a
second `Stop` right after the first returns success like the first, leaves the
runtime state unchanged and issues no stop (and no removal): it lists, then
inspects each shard and finds it not running; with purge, the first `Stop`
returns success and the second returns `errGroupDoesNotExist`, leaves the
runtime state unchanged and issues the listing call only. -/
theorem Stop_twice (d : docker Runtime) (hd : d.client = Runtime.client)
    (group : String) (w w1 : World Runtime) (gs : List Group) (gr : Group)
    (hf : w.st.faults = []) (hn : (w.st.units.map RuntimeUnit.ID).Nodup)
    (hl : d.List w = (Outcome.ok gs, w1)) (hgr : gr ∈ gs) (hname : gr.Name = group) :
    ((d.Stop group { Purge := false } w).1 = Outcome.ok () ∧
      (d.Stop group { Purge := false } (d.Stop group { Purge := false } w).2).1
        = Outcome.ok () ∧
      (d.Stop group { Purge := false } (d.Stop group { Purge := false } w).2).2.st
        = (d.Stop group { Purge := false } w).2.st ∧
      (∀ e ∈ newEvents (d.Stop group { Purge := false } w).2.log
          (d.Stop group { Purge := false } (d.Stop group { Purge := false } w).2).2.log,
        e.isStop = false ∧ e.isRemove = false)) ∧
    ((d.Stop group { Purge := true } w).1 = Outcome.ok () ∧
      (d.Stop group { Purge := true } (d.Stop group { Purge := true } w).2).1
        = Outcome.err errGroupDoesNotExist ∧
      (d.Stop group { Purge := true } (d.Stop group { Purge := true } w).2).2.st
        = (d.Stop group { Purge := true } w).2.st ∧
      (∀ e ∈ newEvents (d.Stop group { Purge := true } w).2.log
          (d.Stop group { Purge := true } (d.Stop group { Purge := true } w).2).2.log,
        e.target = none)) := by
  obtain ⟨_, hgb, hnamed⟩ := List_runtime_ok d hd w w1 gs hf hl
  obtain ⟨⟨a1, a2⟩, ⟨b1, b2⟩⟩ := Stop_runtime d hd group w w1 gs gr hf hn hl hgr hname
  constructor
  · have hf2 : (d.Stop group { Purge := false } w).2.st.faults = [] := by rw [a2]; exact hf
    have hr := List_runtime d hd (d.Stop group { Purge := false } w).2 hf2
    have hunits : (d.Stop group { Purge := false } w).2.st.units =
        w.st.units.map (fun v => if v.inGroup group then v.halt else v) := by rw [a2]
    have hn2 : ((d.Stop group { Purge := false } w).2.st.units.map RuntimeUnit.ID).Nodup := by
      rw [hunits, List.map_map]
      have : (RuntimeUnit.ID ∘ fun v => if v.inGroup group then v.halt else v)
          = RuntimeUnit.ID := by
        funext v
        simp only [Function.comp]
        split
        · exact halt_ID v
        · rfl
      rw [this]; exact hn
    have hnamed' : Named ((d.Stop group { Purge := false } w).2.st.units.map
        RuntimeUnit.toContainer) := by
      rw [hunits]; exact named_halted _ _ hnamed
    obtain ⟨gs', hl', hgb'⟩ := List_groupBy d (d.Stop group { Purge := false } w).2 _
      (by rw [hr]) hnamed'
    have hidle : ∀ u ∈ (d.Stop group { Purge := false } w).2.st.units,
        u.inGroup group = true → u.Running = false := by
      intro u hu hg
      rw [hunits] at hu
      obtain ⟨v, _, rfl⟩ := List.mem_map.mp hu
      by_cases hv : v.inGroup group = true
      · simp only [hv, if_true]
        exact halt_Running v
      · simp only [hv, Bool.false_eq_true, if_false] at hg
    -- the group is still listed
    have hmem := (isGroupBy_mem_iff hgb gr).mp hgr
    rw [hname] at hmem
    have hne' : members ((d.Stop group { Purge := false } w).2.st.units.map
        RuntimeUnit.toContainer) group ≠ [] := by
      rw [hunits, members_halted_same]
      intro hnil
      apply hmem.2.1
      rw [members_map]
      rw [List.map_eq_nil_iff] at hnil ⊢
      exact hnil
    obtain ⟨c, hc⟩ := List.exists_mem_of_ne_nil _ hne'
    have hc' := List.mem_filter.mp hc
    obtain ⟨gr', hgr', hn'⟩ := hgb'.complete c hc'.1 group (by simpa using hc'.2)
    have hsecond := Stop_runtime_idle d hd group (d.Stop group { Purge := false } w).2 _ gs' gr'
      hf2 hn2 hl' hgr' hn' hidle
    refine ⟨a1, by rw [hsecond], by rw [hsecond], ?_⟩
    rw [hsecond]
    simp only [List.append_assoc, newEvents_append]
    intro e he
    rcases List.mem_append.mp he with he | he
    · simp only [List.mem_singleton] at he
      subst he; exact ⟨rfl, rfl⟩
    · obtain ⟨sh, _, rfl⟩ := List.mem_map.mp he
      exact ⟨rfl, rfl⟩
  · have hf2 : (d.Stop group { Purge := true } w).2.st.faults = [] := by rw [b2]; exact hf
    have hr := List_runtime d hd (d.Stop group { Purge := true } w).2 hf2
    have hunits : (d.Stop group { Purge := true } w).2.st.units =
        w.st.units.filter (fun v => !v.inGroup group) := by rw [b2]
    have hnamed' : Named ((d.Stop group { Purge := true } w).2.st.units.map
        RuntimeUnit.toContainer) := by
      rw [hunits]; exact named_purged _ _ hnamed
    obtain ⟨gs', hl', hgb'⟩ := List_groupBy d (d.Stop group { Purge := true } w).2 _
      (by rw [hr]) hnamed'
    have habsent : ∀ x ∈ gs', x.Name ≠ group := by
      intro x hx hxn
      have := (isGroupBy_mem_iff hgb' x).mp hx
      rw [hxn, hunits] at this
      exact this.2.1 (members_purged_same w.st.units group)
    have hsecond : d.Stop group { Purge := true } (d.Stop group { Purge := true } w).2 =
        (Outcome.err errGroupDoesNotExist,
          ⟨(d.client.ContainerList true (d.Stop group { Purge := true } w).2.st).2,
            (d.Stop group { Purge := true } w).2.log ++
              [Event.ContainerList true (Reply.ok
                ((d.Stop group { Purge := true } w).2.st.units.map
                  RuntimeUnit.toContainer))]⟩) := by
      rw [Stop_eq d group _ _ _ gs' hl', findIdx_absent gs' group habsent]
      simp only [ge_iff_le, le_refl, if_true]
    refine ⟨b1, by rw [hsecond], ?_, ?_⟩
    · rw [hsecond, hr]
    · rw [hsecond]
      simp only [newEvents_append]
      intro e he
      simp only [List.mem_singleton] at he
      subst he; rfl

/-! ## `List` and unnamed units; the claims at concrete inputs -/

theorem displayName_ne_empty (c : Container) : displayName c ≠ "" := by
  unfold displayName
  cases c.Names with
  | nil => decide
  | cons n0 rest =>
    simp only
    split
    · decide
    · assumption

/-- Whenever `List` returns, every shard it returns has the display name of
the specification — the first name of its unit, or the placeholder when that
name is empty — which is never the empty string. -/
theorem List_names (d : docker σ) (w w1 : World σ) (gs : List Group)
    (h : d.List w = (Outcome.ok gs, w1)) :
    ∃ cs, (d.client.ContainerList true w.st).1 = Reply.ok cs ∧
      ∀ g ∈ gs, ∀ s ∈ g.Shards, s.Name ≠ "" ∧
        ∃ c ∈ cs, groupLabel c = some g.Name ∧ s.ID = c.ID ∧ s.Name = displayName c := by
  obtain ⟨cs, hcs, _, hgb⟩ := List_ok_inv d w w1 gs h
  refine ⟨cs, hcs, ?_⟩
  intro g hg s hs
  rw [hgb.shards g hg] at hs
  obtain ⟨c, hc, rfl⟩ := List.mem_map.mp hs
  have hc' := List.mem_filter.mp hc
  exact ⟨displayName_ne_empty c, c, hc'.1, by simpa using hc'.2, rfl, rfl⟩

/-- C1 (the code at the failing input): on a snapshot whose listing succeeds
and holds two units labelled `web`, the second without a recorded name, `List`
dies in a run-time panic (`c.Names[0]` on an empty slice) and returns no group
at all, where the group-by of the snapshot is the group `web` with two shards. -/
theorem List_panics_instead_of_grouping :
    (refDocker.client.ContainerList true unnamedWorld.st).1 =
      Reply.ok (unnamedWorld.st.units.map RuntimeUnit.toContainer) ∧
    (members (unnamedWorld.st.units.map RuntimeUnit.toContainer) "web").length = 2 ∧
    (refDocker.List unnamedWorld).1 = Outcome.crash := by
  decide

/-- C6 (the code at the failing inputs): a snapshot that holds a unit carrying
the group label whose names list is empty makes `List` die in a run-time panic
(`c.Names[0]` on an empty slice); no shard is returned for the unit, with the
placeholder or otherwise. -/
theorem List_crashes_on_unnamed_unit (d : docker σ) (w : World σ) (cs : List Container)
    (c : Container) (hr : (d.client.ContainerList true w.st).1 = Reply.ok cs)
    (hc : c ∈ cs) (hl : groupLabel c ≠ none) (hn : c.Names = []) :
    (d.List w).1 = Outcome.crash := by
  rw [List_eq, hr]
  simp only [listLoop_crash hc hl hn []]

/-- The labelled unit without a name of `unnamedWorld` crashes `List`. -/
theorem List_crashes_on_unnamed_unit_witness :
    (refDocker.client.ContainerList true unnamedWorld.st).1 =
      Reply.ok (unnamedWorld.st.units.map RuntimeUnit.toContainer) ∧
    (⟨"c1", [], "nginx", "Created", [("tesson.group", "web"), ("tesson.shard", "1")]⟩ :
        Container) ∈ unnamedWorld.st.units.map RuntimeUnit.toContainer ∧
    (refDocker.List unnamedWorld).1 = Outcome.crash :=
  ⟨by decide, by decide,
    List_crashes_on_unnamed_unit refDocker unnamedWorld
      (unnamedWorld.st.units.map RuntimeUnit.toContainer)
      ⟨"c1", [], "nginx", "Created", [("tesson.group", "web"), ("tesson.shard", "1")]⟩
      (by decide) (by decide) (by decide) rfl⟩

/-- When the listing of `Stop` dies on a labelled unit without a name, `Stop`
dies with it, in the world the listing call left. -/
theorem Stop_of_unnamed_unit (d : docker σ) (group : String) (opts : StopOptions)
    (w : World σ) (cs : List Container) (c : Container)
    (hr : (d.client.ContainerList true w.st).1 = Reply.ok cs)
    (hc : c ∈ cs) (hl : groupLabel c ≠ none) (hn : c.Names = []) :
    d.Stop group opts w =
      (Outcome.crash, ⟨(d.client.ContainerList true w.st).2,
        w.log ++ [Event.ContainerList true (Reply.ok cs)]⟩) := by
  unfold docker.Stop
  rw [List_eq, hr]
  simp only [listLoop_crash hc hl hn []]

/-- C3 (the code at the failing inputs): on a snapshot whose listing succeeds
and holds a unit carrying the group label whose names list is empty (in the
group asked for or in another one), `Stop` dies in the run-time panic of its
listing (`c.Names[0]` on an empty slice), with or without purge: it returns
neither success nor an error, and after the listing call it issues no call at
all, no inspection included, whatever shards the group has. -/
theorem Stop_crashes_in_listing (d : docker σ) (group : String) (opts : StopOptions)
    (w : World σ) (cs : List Container) (c : Container)
    (hr : (d.client.ContainerList true w.st).1 = Reply.ok cs)
    (hc : c ∈ cs) (hl : groupLabel c ≠ none) (hn : c.Names = []) :
    (d.Stop group opts w).1 = Outcome.crash ∧
    (∀ ret, (d.Stop group opts w).1 ≠ Outcome.ofError ret) ∧
    (d.Stop group opts w).2.log = w.log ++ [Event.ContainerList true (Reply.ok cs)] := by
  rw [Stop_of_unnamed_unit d group opts w cs c hr hc hl hn]
  refine ⟨rfl, ?_, rfl⟩
  intro ret h
  cases ret <;> cases h

/-- `Stop` on the group `web` of `unnamedWorld`, which has two units, the
first of them running: no unit is inspected, the log holds the listing call
alone. -/
theorem Stop_crashes_in_listing_witness :
    (refDocker.client.ContainerList true unnamedWorld.st).1 =
      Reply.ok (unnamedWorld.st.units.map RuntimeUnit.toContainer) ∧
    (members (unnamedWorld.st.units.map RuntimeUnit.toContainer) "web").map Container.ID =
      ["c0", "c1"] ∧
    (refDocker.Stop "web" { Purge := true } unnamedWorld).1 = Outcome.crash ∧
    (refDocker.Stop "web" { Purge := true } unnamedWorld).2.log =
      [Event.ContainerList true
        (Reply.ok (unnamedWorld.st.units.map RuntimeUnit.toContainer))] :=
  ⟨by decide, by decide,
    (Stop_crashes_in_listing refDocker "web" { Purge := true } unnamedWorld
      (unnamedWorld.st.units.map RuntimeUnit.toContainer)
      ⟨"c1", [], "nginx", "Created", [("tesson.group", "web"), ("tesson.shard", "1")]⟩
      (by decide) (by decide) (by decide) rfl).1,
    (Stop_crashes_in_listing refDocker "web" { Purge := true } unnamedWorld
      (unnamedWorld.st.units.map RuntimeUnit.toContainer)
      ⟨"c1", [], "nginx", "Created", [("tesson.group", "web"), ("tesson.shard", "1")]⟩
      (by decide) (by decide) (by decide) rfl).2.2⟩

/-- C8 (the code at the failing inputs): in the reference runtime, in a state
where no call fails and which holds a unit carrying the group label whose
names list is empty, `Stop` dies in the run-time panic of its listing, with or
without purge, and leaves the runtime as it was: a unit of the group that was
running still runs, and with purge no unit is removed.  The `List` that
follows dies in the same panic and returns no group at all. -/
theorem Stop_crash_changes_nothing (d : docker Runtime) (hd : d.client = Runtime.client)
    (group : String) (opts : StopOptions) (w : World Runtime) (u : RuntimeUnit)
    (hf : w.st.faults = []) (hu : u ∈ w.st.units)
    (hl : groupLabel u.toContainer ≠ none) (hn : u.Names = []) :
    (d.Stop group opts w).1 = Outcome.crash ∧
    (d.Stop group opts w).2.st = w.st ∧
    (d.List (d.Stop group opts w).2).1 = Outcome.crash := by
  have hlist : d.client.ContainerList true w.st =
      (Reply.ok (w.st.units.map RuntimeUnit.toContainer), w.st) := by
    rw [hd]; exact runtime_list_no_faults w.st hf
  have hmem : u.toContainer ∈ w.st.units.map RuntimeUnit.toContainer :=
    List.mem_map.mpr ⟨u, hu, rfl⟩
  have hstop := Stop_of_unnamed_unit d group opts w
    (w.st.units.map RuntimeUnit.toContainer) u.toContainer (by rw [hlist]) hmem hl hn
  have hst : (d.Stop group opts w).2.st = w.st := by rw [hstop, hlist]
  refine ⟨by rw [hstop], hst, ?_⟩
  rw [List_eq, hst, hlist]
  simp only [listLoop_crash hmem hl hn []]

/-- `Stop` on the group `web` of `unnamedWorld` (no scheduled fault, distinct
identifiers, two units of the group, the first running), without and with
purge. -/
theorem Stop_crash_changes_nothing_witness :
    unnamedWorld.st.faults = [] ∧ (unnamedWorld.st.units.map RuntimeUnit.ID).Nodup ∧
    ((unnamedWorld.st.units.filter (fun u => u.inGroup "web")).map
      (fun u => (u.ID, u.Running))) = [("c0", true), ("c1", false)] ∧
    ((refDocker.Stop "web" { Purge := false } unnamedWorld).1 = Outcome.crash ∧
      (refDocker.Stop "web" { Purge := false } unnamedWorld).2.st = unnamedWorld.st ∧
      (refDocker.List (refDocker.Stop "web" { Purge := false } unnamedWorld).2).1 =
        Outcome.crash) ∧
    ((refDocker.Stop "web" { Purge := true } unnamedWorld).1 = Outcome.crash ∧
      (refDocker.Stop "web" { Purge := true } unnamedWorld).2.st = unnamedWorld.st ∧
      (refDocker.List (refDocker.Stop "web" { Purge := true } unnamedWorld).2).1 =
        Outcome.crash) :=
  ⟨rfl, by decide, by decide,
    Stop_crash_changes_nothing refDocker rfl "web" { Purge := false } unnamedWorld
      ⟨"c1", [], "nginx", "Created", [("tesson.group", "web"), ("tesson.shard", "1")], false⟩
      rfl (by decide) (by decide) rfl,
    Stop_crash_changes_nothing refDocker rfl "web" { Purge := true } unnamedWorld
      ⟨"c1", [], "nginx", "Created", [("tesson.group", "web"), ("tesson.shard", "1")], false⟩
      rfl (by decide) (by decide) rfl⟩

/-- A configuration file that decodes to a null label map: `Exec` dies in a
run-time panic at the assignment of the group label (a nil map), before the
port specifications are parsed; the error of the parse is not returned. -/
theorem Exec_null_labels_panics :
    (nullLabelsDocker.loadConfig badPortOptions emptyWorld).1 =
      Reply.ok { Image := "", Labels := none, Rest := [] } ∧
    nullLabelsDocker.env.ParsePortSpecs badPortOptions.Ports =
      Reply.fail (Error.external "Invalid containerPort: bad") ∧
    (nullLabelsDocker.Exec "web" badPortOptions emptyWorld).1 = Outcome.crash ∧
    ((nullLabelsDocker.Exec "web" badPortOptions emptyWorld).2.log.filter
      Event.isParse).length = 0 := by
  decide

/-- `Stop` on the absent group `api` of `demoWorld`, the map of `List` being
walked in reverse insertion order. -/
theorem Stop_absent_group_witness :
    revDocker.List demoWorld = (Outcome.ok demoGroups.reverse, (revDocker.List demoWorld).2) ∧
    (∀ g ∈ demoGroups.reverse, g.Name ≠ "api") ∧
    revDocker.Stop "api" { Purge := true } demoWorld =
      (Outcome.err errGroupDoesNotExist, (revDocker.List demoWorld).2) ∧
    (revDocker.Stop "api" { Purge := true } demoWorld).2.st = demoWorld.st :=
  ⟨by decide, by decide,
    (Stop_absent_group revDocker "api" { Purge := true } demoWorld
      (revDocker.List demoWorld).2 demoGroups.reverse (by decide) (by decide)).1,
    (Stop_absent_group revDocker "api" { Purge := true } demoWorld
      (revDocker.List demoWorld).2 demoGroups.reverse (by decide) (by decide)).2.2⟩

/-- `Stop` with purge on the group `web` of `demoWorld`. -/
theorem Stop_calls_witness :
    refDocker.List demoWorld = (Outcome.ok demoGroups, (refDocker.List demoWorld).2) ∧
    demoWeb ∈ demoGroups ∧ demoWeb.Name = "web" ∧
    InspectEchoes refDocker.client ∧
    ∃ tr ret,
      (refDocker.Stop "web" { Purge := true } demoWorld).1 = Outcome.ofError ret ∧
      (refDocker.Stop "web" { Purge := true } demoWorld).2.log =
        (refDocker.List demoWorld).2.log ++ tr ∧
      StopRun true demoWeb.Shards tr ret ∧
      (∀ e ∈ tr, ∃ cs c, (refDocker.client.ContainerList true demoWorld.st).1 = Reply.ok cs ∧
        c ∈ cs ∧ groupLabel c = some "web" ∧ e.target = some c.ID) := by
  have hecho : InspectEchoes refDocker.client := by
    intro id s r h
    change (Runtime.ContainerInspect id s).1 = Reply.ok r at h
    unfold Runtime.ContainerInspect at h
    cases hf : s.fault with
    | some e => rw [hf] at h; cases h
    | none =>
      rw [hf] at h
      simp only at h
      cases hfind : s.units.find? (fun u => u.ID = id) with
      | none => rw [hfind] at h; cases h
      | some u =>
        rw [hfind] at h
        simp only [Reply.ok.injEq] at h
        rw [← h]
        have := List.find?_some hfind
        simpa using this
  obtain ⟨tr, ret, h1, h2, h3, _, _, _, h7⟩ :=
    Stop_calls refDocker "web" { Purge := true } demoWorld (refDocker.List demoWorld).2
      demoGroups demoWeb
      (by decide) (by decide) rfl
  exact ⟨by decide, by decide, rfl, hecho, tr, ret, h1, h2, h3, h7 hecho⟩

/-- `Exec` of the scenario of the specification on the empty runtime. -/
theorem Exec_calls_witness :
    demoOptions.Config = "" ∧
    refDocker.env.ParsePortSpecs demoOptions.Ports = Reply.ok ([], []) ∧
    ∃ tr ret,
      (refDocker.Exec "web" demoOptions emptyWorld).1 = Outcome.ofError ret ∧
      ExecRun "nginx" "web" [] ["0", "1"] tr ret ∧
      (ret = none → (tr.filter Event.isCreate).length = 2 ∧
        (tr.filter Event.isStart).length = 2) := by
  obtain ⟨tr, ret, h1, _, h3, _, _, h6⟩ :=
    Exec_calls refDocker "web" demoOptions emptyWorld [] [] rfl rfl
  exact ⟨rfl, rfl, tr, ret, h1, h3, h6⟩

/-- The scenario of the specification: `Exec("web", {nginx, ["0", "1"]})` with
every call succeeding, then `List`, shows one group `web` of image `nginx`
with two shards of affinity labels `"0"` and `"1"`. -/
theorem Exec_then_List_witness :
    refDocker.List (refDocker.Exec "web" demoOptions emptyWorld).2 =
      (Outcome.ok [⟨"web", "nginx", [⟨"/c0", "c0", "Up", "0"⟩, ⟨"/c1", "c1", "Up", "1"⟩]⟩],
        (refDocker.List (refDocker.Exec "web" demoOptions emptyWorld).2).2) ∧
    created (newEvents emptyWorld.log (refDocker.Exec "web" demoOptions emptyWorld).2.log) = 2 ∧
    ∀ gr ∈ [(⟨"web", "nginx", [⟨"/c0", "c0", "Up", "0"⟩, ⟨"/c1", "c1", "Up", "1"⟩]⟩ : Group)],
      gr.Name = "web" →
      gr.Image = "nginx" ∧
      gr.Shards.length =
        created (newEvents emptyWorld.log (refDocker.Exec "web" demoOptions emptyWorld).2.log) ∧
      gr.Shards.map Shard.CPUs = demoOptions.Layout.take
        (created (newEvents emptyWorld.log (refDocker.Exec "web" demoOptions emptyWorld).2.log)) :=
  ⟨by decide, by decide,
    (Exec_then_List refDocker rfl "web" demoOptions emptyWorld
      (refDocker.List (refDocker.Exec "web" demoOptions emptyWorld).2).2
      [⟨"web", "nginx", [⟨"/c0", "c0", "Up", "0"⟩, ⟨"/c1", "c1", "Up", "1"⟩]⟩]
      (by decide) (by decide)).2.2.2.2.1⟩

/-- `Stop` on the group `web` of `demoWorld`, then `List`. -/
theorem Stop_then_List_witness :
    demoWorld.st.faults = [] ∧ (demoWorld.st.units.map RuntimeUnit.ID).Nodup ∧
    refDocker.List demoWorld = (Outcome.ok demoGroups, (refDocker.List demoWorld).2) ∧
    demoWeb ∈ demoGroups ∧
    (refDocker.Stop "web" { Purge := false } demoWorld).1 = Outcome.ok () ∧
    (refDocker.Stop "web" { Purge := true } demoWorld).1 = Outcome.ok () ∧
    (refDocker.List (refDocker.Stop "web" { Purge := true } demoWorld).2).1 =
      Outcome.ok [⟨"db", "postgres", [⟨"<unknown>", "c3", "Up", "2"⟩]⟩] :=
  ⟨rfl, by decide, by decide, by decide,
    (Stop_then_List refDocker rfl "web" demoWorld (refDocker.List demoWorld).2
      demoGroups demoWeb rfl (by decide)
      (by decide) (by decide) rfl).1.1,
    (Stop_then_List refDocker rfl "web" demoWorld (refDocker.List demoWorld).2
      demoGroups demoWeb rfl (by decide)
      (by decide) (by decide) rfl).2.1,
    by decide⟩

/-- `Stop` twice on the group `web` of `demoWorld`. -/
theorem Stop_twice_witness :
    demoWorld.st.faults = [] ∧ (demoWorld.st.units.map RuntimeUnit.ID).Nodup ∧
    refDocker.List demoWorld = (Outcome.ok demoGroups, (refDocker.List demoWorld).2) ∧
    demoWeb ∈ demoGroups ∧
    (refDocker.Stop "web" { Purge := false }
        (refDocker.Stop "web" { Purge := false } demoWorld).2).1 = Outcome.ok () ∧
    (refDocker.Stop "web" { Purge := true }
        (refDocker.Stop "web" { Purge := true } demoWorld).2).1
      = Outcome.err errGroupDoesNotExist :=
  ⟨rfl, by decide, by decide, by decide,
    (Stop_twice refDocker rfl "web" demoWorld (refDocker.List demoWorld).2
      demoGroups demoWeb rfl (by decide)
      (by decide) (by decide) rfl).1.2.1,
    (Stop_twice refDocker rfl "web" demoWorld (refDocker.List demoWorld).2
      demoGroups demoWeb rfl (by decide)
      (by decide) (by decide) rfl).2.2.1⟩

/-- `Exec` with a configuration file that loads and a port specification that
does not parse: the error of the parse, one parse, no runtime call. -/
theorem Exec_validates_first_witness :
    (strictDocker.loadConfig badPortOptions demoWorld).1 =
      Reply.ok { Image := "", Labels := some [], Rest := [] } ∧
    strictDocker.env.ParsePortSpecs badPortOptions.Ports =
      Reply.fail (Error.external "Invalid containerPort: bad") ∧
    (strictDocker.Exec "web" badPortOptions demoWorld).1 =
      Outcome.err (Error.external "Invalid containerPort: bad") ∧
    (strictDocker.Exec "web" badPortOptions demoWorld).2.st = demoWorld.st ∧
    (strictDocker.Exec "web" badPortOptions demoWorld).2.log =
      [Event.Open "tesson.json" (Reply.ok "{}"),
       Event.Decode "{}" (Reply.ok { Image := "", Labels := some [], Rest := [] }),
       Event.ParsePortSpecs ["80", "bad"]
         (Reply.fail (Error.external "Invalid containerPort: bad"))] := by
  obtain ⟨tr, _, _, _, h3, _, _, _⟩ := Exec_validates_first strictDocker "web" badPortOptions
    demoWorld
  obtain ⟨h4, h5, _, _⟩ := h3 { Image := "", Labels := some [], Rest := [] } []
    (Error.external "Invalid containerPort: bad") (by decide) rfl (by decide)
  exact ⟨by decide, by decide, h4, h5, by decide⟩

/-! ## The placement engine -/

theorem heads_tails_perm {α : Type} (groups : List (List α)) :
    groups.flatten.Perm (groups.filterMap List.head? ++ (groups.map List.tail).flatten) := by
  induction groups with
  | nil => simp
  | cons g rest ih =>
    cases g with
    | nil => simpa using ih
    | cons a t =>
      simp only [List.flatten_cons, List.cons_append, List.filterMap_cons, List.head?_cons,
        List.map_cons, List.tail_cons]
      apply List.Perm.cons
      calc t ++ rest.flatten
          |>.Perm (t ++ (rest.filterMap List.head? ++ (rest.map List.tail).flatten)) :=
            List.Perm.append_left t ih
        _ |>.Perm ((t ++ rest.filterMap List.head?) ++ (rest.map List.tail).flatten) := by
            rw [List.append_assoc]
        _ |>.Perm ((rest.filterMap List.head? ++ t) ++ (rest.map List.tail).flatten) :=
            List.Perm.append_right _ List.perm_append_comm
        _ |>.Perm (rest.filterMap List.head? ++ (t ++ (rest.map List.tail).flatten)) := by
            rw [List.append_assoc]

theorem roundRobinAux_perm {α : Type} :
    ∀ (rounds : Nat) (groups : List (List α)), (∀ g ∈ groups, g.length ≤ rounds) →
      (roundRobinAux rounds groups).Perm groups.flatten := by
  intro rounds
  induction rounds with
  | zero =>
    intro groups h
    have : groups.flatten = [] := by
      rw [List.flatten_eq_nil_iff]
      intro g hg
      exact List.length_eq_zero.mp (Nat.le_zero.mp (h g hg))
    rw [this]
    exact List.Perm.refl _
  | succ rounds ih =>
    intro groups h
    simp only [roundRobinAux]
    have htails : ∀ g ∈ groups.map List.tail, g.length ≤ rounds := by
      intro g hg
      obtain ⟨g', hg', rfl⟩ := List.mem_map.mp hg
      have := h g' hg'
      rw [List.length_tail]
      omega
    exact (List.Perm.append_left _ (ih _ htails)).trans (heads_tails_perm groups).symm

theorem length_le_sum_lengths {α : Type} (groups : List (List α)) :
    ∀ g ∈ groups, g.length ≤ (groups.map List.length).sum := by
  induction groups with
  | nil => intro g hg; cases hg
  | cons a rest ih =>
    intro g hg
    simp only [List.map_cons, List.sum_cons]
    rcases List.mem_cons.mp hg with rfl | hmem
    · omega
    · have := ih g hmem
      omega

theorem roundRobin_perm {α : Type} (groups : List (List α)) :
    (roundRobin groups).Perm groups.flatten :=
  roundRobinAux_perm _ groups (length_le_sum_lengths groups)

theorem unitsAtList_eq (g : Granularity) (l : List HierarchyNode) :
    unitsAtList g l = (l.map (unitsAt g)).flatten := by
  induction l with
  | nil => simp [unitsAtList]
  | cons c rest ih => simp [unitsAtList, ih]

theorem topGroups_flatten (g : Granularity) (root : HierarchyNode) :
    (topGroups g root).flatten = unitsAt g root := by
  cases root with
  | mk k id cs children =>
    unfold topGroups
    simp only [HierarchyNode.kind, HierarchyNode.children, unitsAt]
    split
    · simp
    · rw [unitsAtList_eq]

mutual
theorem unitsAt_subset (g : Granularity) :
    ∀ (n : HierarchyNode), wellFormed n = true →
      ∀ u ∈ unitsAt g n, ∀ x ∈ u.cpuset, x ∈ n.cpuset
  | HierarchyNode.mk k id cs children, hwf, u, hu, x, hx => by
    simp only [unitsAt] at hu
    split at hu
    · simp only [List.mem_singleton] at hu
      subst hu; exact hx
    · simp only [wellFormed, Bool.and_eq_true, decide_eq_true_eq] at hwf
      obtain ⟨c, hc, hxc⟩ := unitsAtList_subset g children hwf.2 u hu x hx
      exact hwf.1.2 c hc x hxc
theorem unitsAtList_subset (g : Granularity) :
    ∀ (l : List HierarchyNode), wellFormedList l = true →
      ∀ u ∈ unitsAtList g l, ∀ x ∈ u.cpuset, ∃ c ∈ l, x ∈ c.cpuset
  | [], _, u, hu, _, _ => by simp [unitsAtList] at hu
  | c :: rest, hwf, u, hu, x, hx => by
    simp only [wellFormedList, Bool.and_eq_true] at hwf
    simp only [unitsAtList, List.mem_append] at hu
    rcases hu with hu | hu
    · exact ⟨c, List.mem_cons_self _ _, unitsAt_subset g c hwf.1 u hu x hx⟩
    · obtain ⟨c', hc', hxc⟩ := unitsAtList_subset g rest hwf.2 u hu x hx
      exact ⟨c', List.mem_cons_of_mem _ hc', hxc⟩
end

mutual
theorem unitsAt_pairwise (g : Granularity) :
    ∀ (n : HierarchyNode), wellFormed n = true →
      (unitsAt g n).Pairwise (fun a b => disjointSets a.cpuset b.cpuset)
  | HierarchyNode.mk k id cs children, hwf => by
    simp only [unitsAt]
    split
    · exact List.pairwise_singleton _ _
    · simp only [wellFormed, Bool.and_eq_true, decide_eq_true_eq] at hwf
      exact unitsAtList_pairwise g children hwf.2 hwf.1.1
theorem unitsAtList_pairwise (g : Granularity) :
    ∀ (l : List HierarchyNode), wellFormedList l = true →
      l.Pairwise (fun a b => disjointSets a.cpuset b.cpuset) →
      (unitsAtList g l).Pairwise (fun a b => disjointSets a.cpuset b.cpuset)
  | [], _, _ => by simp [unitsAtList]
  | c :: rest, hwf, hp => by
    simp only [wellFormedList, Bool.and_eq_true] at hwf
    rw [List.pairwise_cons] at hp
    simp only [unitsAtList]
    rw [List.pairwise_append]
    refine ⟨unitsAt_pairwise g c hwf.1, unitsAtList_pairwise g rest hwf.2 hp.2, ?_⟩
    intro a ha b hb x hxa hxb
    have hxc := unitsAt_subset g c hwf.1 a ha x hxa
    obtain ⟨c', hc', hxc'⟩ := unitsAtList_subset g rest hwf.2 b hb x hxb
    exact hp.1 c' hc' x hxc hxc'
end

theorem disjointSets_symm {a b : List Nat} (h : disjointSets a b) : disjointSets b a :=
  fun x hb ha => h x ha hb

/-- C10: (`Distribute` modelled from the specification) on a well-formed
hierarchy, for every granularity and every `n` up to the capacity at that
granularity, `Distribute` returns a Layout of exactly `n` affinity
descriptors, those of `n` placement units whose processing-unit sets are
pairwise disjoint; for every `n` above the capacity it returns
`InsufficientCapacity`.  (On the code of `main.go`:) the `run` command, given
an image, returns the error of `Distribute` without any call — the world is
left as it was — and otherwise hands the Layout, unchanged, to `Exec`. -/
theorem Distribute_contract (root : HierarchyNode) (g : Granularity) (n : Nat)
    (hwf : wellFormed root = true) :
    (n ≤ capacity root g →
      ∃ units, distributeUnits root n g = Reply.ok units ∧
        Distribute root n g = Reply.ok (units.map descriptor) ∧
        units.length = n ∧ (units.map descriptor).length = n ∧
        units.Pairwise (fun a b => disjointSets a.cpuset b.cpuset)) ∧
    (capacity root g < n → Distribute root n g = Reply.fail InsufficientCapacity) ∧
    (∀ (τ : Type) (t : Topology) (r : docker τ) (help : Outcome Unit)
        (sync : String → String → World τ → Outcome Unit × World τ)
        (c : CliContext) (w : World τ), c.NArg ≠ 0 →
      (∀ e, t.Distribute (main.size t c) CoreGranularity = Reply.fail e →
        main.exec t r help sync c w = (Outcome.err e, w)) ∧
      (∀ l, t.Distribute (main.size t c) CoreGranularity = Reply.ok l →
        main.exec t r help sync c w =
          main.finish sync c
            (r.Exec (main.group c)
              { Image := c.arg0, Layout := l, Ports := c.port, Config := c.config } w))) := by
  have hperm := roundRobin_perm (topGroups g root)
  rw [topGroups_flatten] at hperm
  refine ⟨?_, ?_, ?_⟩
  · intro hn
    have hd : distributeUnits root n g = Reply.ok ((roundRobin (topGroups g root)).take n) := by
      unfold distributeUnits
      rw [if_neg (Nat.not_lt.mpr hn)]
    have hlen : ((roundRobin (topGroups g root)).take n).length = n := by
      rw [List.length_take, hperm.length_eq]
      exact Nat.min_eq_left hn
    refine ⟨_, hd, ?_, hlen, by rw [List.length_map, hlen], ?_⟩
    · unfold Distribute
      rw [hd]
    · apply List.Pairwise.sublist (List.take_sublist n _)
      exact (hperm.pairwise_iff (fun h => disjointSets_symm h)).mpr (unitsAt_pairwise g root hwf)
  · intro hn
    unfold Distribute distributeUnits
    rw [if_pos hn]
  · intro τ t r help sync c w hc
    constructor
    · intro e he
      unfold main.exec
      rw [if_neg hc, he]
    · intro l hl
      unfold main.exec
      rw [if_neg hc, hl]

/-- The scenario of the specification: on two packages of four cores,
`Distribute(4, core)` takes two cores of each package; and the `run` command
on that topology stops at `InsufficientCapacity` without a call when asked for
nine shards, and runs `Exec` on the Layout when asked for two. -/
theorem Distribute_contract_witness :
    wellFormed demoTopology = true ∧ 4 ≤ capacity demoTopology Granularity.core ∧
    Distribute demoTopology 4 Granularity.core = Reply.ok ["0,1", "8,9", "2,3", "10,11"] ∧
    Distribute demoTopology 9 Granularity.core = Reply.fail InsufficientCapacity ∧
    main.exec demoTopology.topology refDocker (Outcome.ok ()) (fun _ _ w => (Outcome.ok (), w))
        { NArg := 1, size := 9, arg0 := "nginx", port := [], config := "", group := none,
          gorb := none } emptyWorld
      = (Outcome.err InsufficientCapacity, emptyWorld) ∧
    (refDocker.List
        (main.exec demoTopology.topology refDocker (Outcome.ok ())
          (fun _ _ w => (Outcome.ok (), w))
          { NArg := 1, size := 2, arg0 := "nginx", port := [], config := "", group := none,
            gorb := none } emptyWorld).2).1
      = Outcome.ok [⟨"nginx", "nginx",
          [⟨"/c0", "c0", "Up", "0,1"⟩, ⟨"/c1", "c1", "Up", "8,9"⟩]⟩] ∧
    ∃ units, distributeUnits demoTopology 4 Granularity.core = Reply.ok units ∧
      units.length = 4 ∧ units.Pairwise (fun a b => disjointSets a.cpuset b.cpuset) := by
  obtain ⟨units, h1, _, h3, _, h5⟩ :=
    (Distribute_contract demoTopology Granularity.core 4 (by decide)).1 (by decide)
  exact ⟨by decide, by decide, by decide, by decide, by decide, by decide, units, h1, h3, h5⟩

end tesson
